import Mathlib

/-!
Virtual-memory core of the Raspberry Pi 3 kernel (`os/mm/pmap.c`).

A shallow embedding of `pmap.c`: the boot allocator and boot walker, the frame
allocator, the runtime page-table walker and the mapping layer, followed by
theorems about them.

Conventions of the embedding.

* Physical memory is a map from byte addresses to byte values; a `Pte` is a
  64-bit little-endian word, so `(Pte *)p + i` is the address `p + 8 * i`.
* A `struct Page *` is the index of the frame in the `pages` array
  (`pp - pages`); `page2pa` and `pa2page` convert between an index and the
  physical address of the frame.
* The `pages` array (the `pp_ref` fields) and the intrusive free list are
  state components of their own: the frames that hold them are reserved by
  `page_init` and are never handed out.
* `NULL` is the address `0`.
* A function that returns `-E_NO_MEM` returns `none`; a function that returns
  `0` and stores a result through an out-parameter returns `some` of it.
* Addresses and frame numbers are natural numbers; stores truncate to the
  width of the object stored. Address arithmetic and loop counters do not
  wrap: addresses are below `2^64` and counts fit their C types.
-/

namespace Pmap

/-! ## Constants and macros of `mmu.h` / `pmap.h` -/

/-- Modelled from the spec: the macros of `mmu.h` and the field type of
`struct Page` in `pmap.h`, which are not part of the sources at hand. The flag
bits (`PTE_V`: valid bit tested on every entry by the walkers, `PTE_R`:
read/write bit, `PBE_V`: valid bit written into and tested on leaf entries by
the mapping layer), the index macros `PT0X` .. `PT3X` ("extract the
level-specific index bits from the virtual address") and the modulus of the
unsigned type of `pp_ref` are parameters of the development. -/
structure Mmu where
  PTE_V : Nat
  PTE_R : Nat
  PBE_V : Nat
  PT0X : Nat → Nat
  PT1X : Nat → Nat
  PT2X : Nat → Nat
  PT3X : Nat → Nat
  REF_MOD : Nat

/-- Modelled from the spec: what the development assumes of the parameters:
the flag bits lie in the low 12 bits of an entry and the valid bits are not
zero, every index addresses one of the 512 entries of a table ("an array of
entries sized to exactly fill one frame"), and the type of `pp_ref` can hold
the sentinel `0xffff`. -/
structure Mmu.WF (F : Mmu) : Prop where
  PTE_V_pos : 0 < F.PTE_V
  PTE_V_lt : F.PTE_V < 4096
  PTE_R_lt : F.PTE_R < 4096
  PBE_V_pos : 0 < F.PBE_V
  PBE_V_lt : F.PBE_V < 4096
  PT0X_lt : ∀ va, F.PT0X va < 512
  PT1X_lt : ∀ va, F.PT1X va < 512
  PT2X_lt : ∀ va, F.PT2X va < 512
  PT3X_lt : ∀ va, F.PT3X va < 512
  REF_MOD_gt : 0xffff < F.REF_MOD

/-- An instance of the parameters: the AArch64 4 KiB granule with four levels
of 9 index bits, descriptor bits `0b11` as valid bits, and a 16-bit `pp_ref`. -/
def armv8 : Mmu where
  PTE_V := 3
  PTE_R := 64
  PBE_V := 3
  PT0X := fun va => (va / 2 ^ 39) % 512
  PT1X := fun va => (va / 2 ^ 30) % 512
  PT2X := fun va => (va / 2 ^ 21) % 512
  PT3X := fun va => (va / 2 ^ 12) % 512
  REF_MOD := 65536

/-- Modelled from the spec: `BY2PG`, the frame size ("fixed-size frames of size
FRAME_SIZE"); the code speaks of "the low 12 bits" of an entry. -/
def BY2PG : Nat := 4096

/-- Modelled from the spec: `PTE_ADDR(pte)`, the entry with its low 12 flag
bits cleared (`pte & ~0xFFF`). -/
def PTE_ADDR (pte : Nat) : Nat := pte - pte % 4096

/-- Modelled from the spec: `PPN(pa)`, the frame number of an address
(`pa >> 12`). -/
def PPN (pa : Nat) : Nat := pa / 4096

/-- Modelled from the spec: `page2pa(pp)`, the physical address of the frame
described by `pp` (`(pp - pages) << 12`). -/
def page2pa (pp : Nat) : Nat := pp * 4096

/-- Modelled from the spec: `pa2page(pa)`, the descriptor of the frame that
holds `pa` (`&pages[PPN(pa)]`). -/
def pa2page (pa : Nat) : Nat := PPN pa

/-- Modelled from the spec: `ROUND(a, n)`, `a` rounded up to a multiple of the
power of two `n` (`(a + n - 1) & ~(n - 1)`). -/
def ROUND (a n : Nat) : Nat := (a + n - 1) - ((a + n - 1) &&& (n - 1))

/-! ## Memory -/

/-- Physical memory: byte address to byte value. -/
abbrev Mem := Nat → Nat

/-- A 64-bit little-endian load, `*(Pte *)a`. -/
def load64 (m : Mem) (a : Nat) : Nat :=
  m a % 256 + 256 * (m (a + 1) % 256 + 256 * (m (a + 2) % 256 + 256 * (m (a + 3) % 256
    + 256 * (m (a + 4) % 256 + 256 * (m (a + 5) % 256 + 256 * (m (a + 6) % 256
    + 256 * (m (a + 7) % 256)))))))

/-- A 64-bit little-endian store, `*(Pte *)a = v`. -/
def store64 (m : Mem) (a v : Nat) : Mem :=
  fun x => if a ≤ x ∧ x < a + 8 then (v / 256 ^ (x - a)) % 256 else m x

/-- A 32-bit little-endian store, `*(int *)a = v`. -/
def store32 (m : Mem) (a v : Nat) : Mem :=
  fun x => if a ≤ x ∧ x < a + 4 then (v / 256 ^ (x - a)) % 256 else m x

/-- A byte store, `*(char *)a = v`. -/
def store8 (m : Mem) (a v : Nat) : Mem :=
  fun x => if x = a then v % 256 else m x

/-- First loop of `bzero`: `while (b + 3 < max) { *(int *)b = 0; b += 4; }`.
The first argument bounds the number of iterations. -/
def bzero_words : Nat → Mem → Nat → Nat → Mem × Nat
  | 0, m, b, _ => (m, b)
  | fuel + 1, m, b, max =>
    if b + 3 < max then bzero_words fuel (store32 m b 0) (b + 4) max else (m, b)

/-- Second loop of `bzero`: `while (b < max) { *(char *)b++ = 0; }`. -/
def bzero_bytes : Nat → Mem → Nat → Nat → Mem × Nat
  | 0, m, b, _ => (m, b)
  | fuel + 1, m, b, max =>
    if b < max then bzero_bytes fuel (store8 m b 0) (b + 1) max else (m, b)

/-- The function `bzero(b, len)`. Each loop advances `b` in every iteration,
so `len` iterations are enough for either of them. -/
def bzero (m : Mem) (b len : Nat) : Mem :=
  let max := b + len
  let r := bzero_words len m b max
  (bzero_bytes len r.1 r.2 max).1

/-! ## State -/

/-- What the translation cache and an observer of the tables see, in order:
calls of `tlb_invalidate` and stores to page-table entries. -/
inductive Event where
  | tlb (va : Nat)
  | write (addr val : Nat)
  deriving DecidableEq, Repr

/-- The global state of `pmap.c`. -/
structure State where
  /-- physical memory -/
  mem : Mem
  /-- the field `pages[i].pp_ref` -/
  pp_ref : Nat → Nat
  /-- the list `page_free_list`, head first -/
  page_free_list : List Nat
  /-- the boot watermark `freemem` -/
  freemem : Nat
  /-- the ceiling `maxpa` -/
  maxpa : Nat
  /-- the number of frames `npage` -/
  npage : Nat
  /-- events so far, oldest first -/
  log : List Event

/-- Modelled from the spec: `tlb_invalidate(va)`, supplied by the hardware
abstraction: "invalidate cached translation for virtual address V", synchronous
and affecting only that address. It is recorded in the log. -/
def tlb_invalidate (s : State) (va : Nat) : State :=
  { s with log := s.log ++ [Event.tlb va] }

/-- A store to a page-table entry, `*ep = v`, recorded in the log. -/
def store_pte (s : State) (ep v : Nat) : State :=
  { s with mem := store64 s.mem ep v, log := s.log ++ [Event.write ep v] }

/-- The statement `pp->pp_ref++` on the unsigned field. -/
def pp_ref_inc (F : Mmu) (s : State) (pp : Nat) : State :=
  { s with pp_ref := fun i =>
      if i = pp then (if s.pp_ref pp + 1 = F.REF_MOD then 0 else s.pp_ref pp + 1)
      else s.pp_ref i }

/-- The statement `--pp->pp_ref` on the unsigned field. -/
def pp_ref_dec (F : Mmu) (s : State) (pp : Nat) : State :=
  { s with pp_ref := fun i =>
      if i = pp then (if s.pp_ref pp = 0 then F.REF_MOD - 1 else s.pp_ref pp - 1)
      else s.pp_ref i }

/-- Modelled from the spec: `LIST_INSERT_HEAD` of `queue.h` ("freeing inserts
at the head"). -/
def LIST_INSERT_HEAD (l : List Nat) (pp : Nat) : List Nat := pp :: l

/-- Modelled from the spec: `LIST_REMOVE` of `queue.h`: the element is
unlinked, the others keep their order. -/
def LIST_REMOVE (l : List Nat) (pp : Nat) : List Nat := l.erase pp

/-! ## Frame allocator -/

/-- First loop of `page_init`: `for (; i < used_amount; ++i) pages[i].pp_ref = 0xffff;`. -/
def page_init_used (F : Mmu) : Nat → Nat → Nat → State → Nat × State
  | 0, i, _, s => (i, s)
  | fuel + 1, i, used_amount, s =>
    if i < used_amount then
      page_init_used F fuel (i + 1) used_amount
        { s with pp_ref := fun j => if j = i then 0xffff % F.REF_MOD else s.pp_ref j }
    else (i, s)

/-- Second loop of `page_init`:
`for (; i < npage; ++i) LIST_INSERT_HEAD(&page_free_list, &pages[i], pp_link);`. -/
def page_init_free : Nat → Nat → State → Nat × State
  | 0, i, s => (i, s)
  | fuel + 1, i, s =>
    if i < s.npage then
      page_init_free fuel (i + 1)
        { s with page_free_list := LIST_INSERT_HEAD s.page_free_list i }
    else (i, s)

/-- The function `page_init`. The first loop runs `used_amount` times, the
second at most `npage` times. -/
def page_init (F : Mmu) (s : State) : State :=
  let s1 := { s with page_free_list := [] }
  let s2 := { s1 with freemem := ROUND s1.freemem BY2PG }
  let used_amount := PPN s2.freemem
  let r := page_init_used F used_amount 0 used_amount s2
  (page_init_free s.npage r.1 r.2).2

/-- The function `page_alloc`: `none` is `-E_NO_MEM`, `some pp` is the return
value `0` with `*pp` set. -/
def page_alloc (s : State) : Option Nat × State :=
  match s.page_free_list with
  | [] => (none, s)
  | ppage_temp :: _ =>
    let s1 := { s with page_free_list := LIST_REMOVE s.page_free_list ppage_temp }
    let s2 := { s1 with mem := bzero s1.mem (page2pa ppage_temp) BY2PG }
    (some ppage_temp, s2)

/-- The function `page_free`. -/
def page_free (s : State) (pp : Nat) : State :=
  if s.pp_ref pp > 0 then s
  else { s with page_free_list := LIST_INSERT_HEAD s.page_free_list pp }

/-- The function `page_decref`. -/
def page_decref (F : Mmu) (s : State) (pp : Nat) : State :=
  let s1 := pp_ref_dec F s pp
  if s1.pp_ref pp = 0 then page_free s1 pp else s1

/-! ## Runtime walker -/

/-- Outcome of one level of `pgdir_walk`. -/
inductive Level where
  /-- `return -E_NO_MEM;` -/
  | nomem (s : State)
  /-- `*ppte = NULL; return 0;` -/
  | null (s : State)
  /-- fall through to the next level with `pgtableN_entryp` -/
  | next (s : State) (entryp : Nat)

/-- One of the three identical blocks of `pgdir_walk`: `ep` is the entry of
the current level, `ix` the index of `va` in the next table.

    next = (Pte *)(PTE_ADDR(*ep)) + ix;
    if (!(*ep & PTE_V) && create) {
        if (page_alloc(&ppage) < 0) return -E_NO_MEM;
        next = (Pte *)page2pa(ppage);
        *ep = (u_long)next | PTE_V | PTE_R;
        ppage->pp_ref++;
    } else if (!(*ep & PTE_V)) { *ppte = NULL; return 0; }
-/
def pgdir_walk_level (F : Mmu) (s : State) (ep ix : Nat) (create : Bool) : Level :=
  let next := PTE_ADDR (load64 s.mem ep) + 8 * ix
  if load64 s.mem ep &&& F.PTE_V = 0 ∧ create = true then
    match page_alloc s with
    | (none, s1) => Level.nomem s1
    | (some ppage, s1) =>
      let next := page2pa ppage
      let s2 := store_pte s1 ep (next ||| F.PTE_V ||| F.PTE_R)
      Level.next (pp_ref_inc F s2 ppage) next
  else if load64 s.mem ep &&& F.PTE_V = 0 then Level.null s
  else Level.next s next

/-- The function `pgdir_walk`: `none` is `-E_NO_MEM`, `some p` is the return
value `0` with `*ppte = p` (`p = 0` is `NULL`). -/
def pgdir_walk (F : Mmu) (s : State) (pgdir va : Nat) (create : Bool) : Option Nat × State :=
  let pgtable0_entryp := pgdir + 8 * F.PT0X va
  match pgdir_walk_level F s pgtable0_entryp (F.PT1X va) create with
  | Level.nomem s1 => (none, s1)
  | Level.null s1 => (some 0, s1)
  | Level.next s1 pgtable1_entryp =>
    match pgdir_walk_level F s1 pgtable1_entryp (F.PT2X va) create with
    | Level.nomem s2 => (none, s2)
    | Level.null s2 => (some 0, s2)
    | Level.next s2 pgtable2_entryp =>
      match pgdir_walk_level F s2 pgtable2_entryp (F.PT3X va) create with
      | Level.nomem s3 => (none, s3)
      | Level.null s3 => (some 0, s3)
      | Level.next s3 _ =>
        (some (PTE_ADDR (load64 s3.mem pgtable2_entryp) + 8 * F.PT3X va), s3)

/-! ## Mapping layer -/

/-- The function `page_lookup`: `none` is the return value `NULL`, `some (pp, pte)`
is the frame returned together with the entry address stored in `*ppte`. -/
def page_lookup (F : Mmu) (s : State) (pgdir va : Nat) : Option (Nat × Nat) × State :=
  let r := pgdir_walk F s pgdir va false
  let pte := r.1.getD 0
  if pte = 0 then (none, r.2)
  else if load64 r.2.mem pte &&& F.PBE_V = 0 then (none, r.2)
  else (some (pa2page (load64 r.2.mem pte), pte), r.2)

/-- The function `page_remove`. -/
def page_remove (F : Mmu) (s : State) (pgdir va : Nat) : State :=
  match page_lookup F s pgdir va with
  | (none, s1) => s1
  | (some (ppage, pagetable_entry), s1) =>
    let s2 := page_decref F s1 ppage
    let s3 := store_pte s2 pagetable_entry 0
    tlb_invalidate s3 va

/-- The function `page_insert`: `none` is `-E_NO_MEM`, `some ()` is `0`.
`PERM` is a `u_int`. -/
def page_insert (F : Mmu) (s : State) (pgdir pp va perm : Nat) : Option Unit × State :=
  let PERM := (perm ||| F.PBE_V) % 2 ^ 32
  let r := pgdir_walk F s pgdir va false
  let pgtable_entry := r.1.getD 0
  let s1 := r.2
  let existing : Bool := pgtable_entry ≠ 0 ∧ load64 s1.mem pgtable_entry &&& F.PTE_V ≠ 0
  if existing ∧ pa2page (load64 s1.mem pgtable_entry) = pp then
    let s2 := tlb_invalidate s1 va
    (some (), store_pte s2 pgtable_entry (page2pa pp ||| PERM))
  else
    let s2 := if existing then page_remove F s1 pgdir va else s1
    let s3 := tlb_invalidate s2 va
    match pgdir_walk F s3 pgdir va true with
    | (none, s4) => (none, s4)
    | (some pgtable_entry, s4) =>
      let s5 := store_pte s4 pgtable_entry (page2pa pp ||| PERM)
      (some (), pp_ref_inc F s5 pp)

/-! ## Boot allocator and boot walker -/

/-- The function `boot_alloc`: `none` is the call of `panic` (the kernel
halts), `some a` the address returned. -/
def boot_alloc (s : State) (n align : Nat) (clear : Bool) : Option Nat × State :=
  let s1 := { s with freemem := ROUND s.freemem align }
  let alloced_mem := s1.freemem
  let s2 := { s1 with freemem := s1.freemem + n }
  let s3 := if clear = true then { s2 with mem := bzero s2.mem alloced_mem n } else s2
  if s3.freemem ≥ s3.maxpa then (none, s3) else (some alloced_mem, s3)

/-- Outcome of one level of `boot_pgdir_walk`. -/
inductive BootLevel where
  /-- `boot_alloc` called `panic` -/
  | panic (s : State)
  /-- `return NULL;` -/
  | null (s : State)
  /-- fall through to the next level with `pgtableN_entryp` -/
  | next (s : State) (entryp : Nat)

/-- One of the three identical blocks of `boot_pgdir_walk`: `ep` is the entry
of the current level, `ix` the index of `va` in the next table.

    next = (Pte *)(PTE_ADDR(*ep)) + ix;
    if (!(*ep & PTE_V) && create) {
        next = (Pte *)boot_alloc(BY2PG, BY2PG, 1);
        *ep = (u_long)next | PTE_V | PTE_R;
    } else if (!(*ep & PTE_V)) { return NULL; }
-/
def boot_pgdir_walk_level (F : Mmu) (s : State) (ep ix : Nat) (create : Bool) : BootLevel :=
  let next := PTE_ADDR (load64 s.mem ep) + 8 * ix
  if load64 s.mem ep &&& F.PTE_V = 0 ∧ create = true then
    match boot_alloc s BY2PG BY2PG true with
    | (none, s1) => BootLevel.panic s1
    | (some next, s1) =>
      BootLevel.next (store_pte s1 ep (next ||| F.PTE_V ||| F.PTE_R)) next
  else if load64 s.mem ep &&& F.PTE_V = 0 then BootLevel.null s
  else BootLevel.next s next

/-- The function `boot_pgdir_walk`: `none` is a `panic` in `boot_alloc`,
`some p` the pointer returned (`p = 0` is `NULL`). -/
def boot_pgdir_walk (F : Mmu) (s : State) (pgdir va : Nat) (create : Bool) :
    Option Nat × State :=
  let pgtable0_entryp := pgdir + 8 * F.PT0X va
  match boot_pgdir_walk_level F s pgtable0_entryp (F.PT1X va) create with
  | BootLevel.panic s1 => (none, s1)
  | BootLevel.null s1 => (some 0, s1)
  | BootLevel.next s1 pgtable1_entryp =>
    match boot_pgdir_walk_level F s1 pgtable1_entryp (F.PT2X va) create with
    | BootLevel.panic s2 => (none, s2)
    | BootLevel.null s2 => (some 0, s2)
    | BootLevel.next s2 pgtable2_entryp =>
      match boot_pgdir_walk_level F s2 pgtable2_entryp (F.PT3X va) create with
      | BootLevel.panic s3 => (none, s3)
      | BootLevel.null s3 => (some 0, s3)
      | BootLevel.next s3 _ =>
        (some (PTE_ADDR (load64 s3.mem pgtable2_entryp) + 8 * F.PT3X va), s3)

/-- How a run of `boot_map_segment` ends. -/
inductive BootMap where
  /-- the function returned -/
  | done (s : State)
  /-- `panic` was called -/
  | panic (s : State)
  /-- the loop is still running after the iterations allowed, about to map
  `va` with `size` (already decreased) not zero -/
  | running (s : State) (va size pa : Nat)

/-- The loop of `boot_map_segment`, at most `fuel` iterations:

    do {
        pgtable_entry = boot_pgdir_walk(pgdir, va, 1);
        *pgtable_entry = (PTE_ADDR(pa) | perm | PBE_V);
        va += BY2PG;
        pa += BY2PG;
    } while (size -= BY2PG);

`va`, `pa` and `size` are `u_long`: the additions and the subtraction wrap. -/
def boot_map_segment_loop (F : Mmu) (pgdir perm : Nat) :
    Nat → State → Nat → Nat → Nat → BootMap
  | 0, s, va, size, pa => BootMap.running s va size pa
  | fuel + 1, s, va, size, pa =>
    match boot_pgdir_walk F s pgdir va true with
    | (none, s1) => BootMap.panic s1
    | (some pgtable_entry, s1) =>
      let s2 := store_pte s1 pgtable_entry (PTE_ADDR pa ||| perm ||| F.PBE_V)
      let va1 := (va + BY2PG) % 2 ^ 64
      let pa1 := (pa + BY2PG) % 2 ^ 64
      let size1 := (size + 2 ^ 64 - BY2PG) % 2 ^ 64
      if size1 ≠ 0 then boot_map_segment_loop F pgdir perm fuel s2 va1 size1 pa1
      else BootMap.done s2

/-- The function `boot_map_segment`, its loop bounded by `fuel` iterations. -/
def boot_map_segment (F : Mmu) (fuel : Nat) (s : State) (pgdir va size pa perm : Nat) :
    BootMap :=
  if size % BY2PG ≠ 0 then BootMap.panic s
  else boot_map_segment_loop F pgdir perm fuel s va size pa

/-! ## The path of a virtual address

Descriptions of what the walkers read, used to state the theorems. -/

/-- Address of the root-table entry of `va`, `&pgdir[PT0X(va)]`. -/
def pte0 (F : Mmu) (pgdir va : Nat) : Nat := pgdir + 8 * F.PT0X va

/-- Address of the level-1 entry of `va`, in the table the root entry names. -/
def pte1 (F : Mmu) (m : Mem) (pgdir va : Nat) : Nat :=
  PTE_ADDR (load64 m (pte0 F pgdir va)) + 8 * F.PT1X va

/-- Address of the level-2 entry of `va`. -/
def pte2 (F : Mmu) (m : Mem) (pgdir va : Nat) : Nat :=
  PTE_ADDR (load64 m (pte1 F m pgdir va)) + 8 * F.PT2X va

/-- Address of the leaf (level-3) entry of `va`. -/
def pte3 (F : Mmu) (m : Mem) (pgdir va : Nat) : Nat :=
  PTE_ADDR (load64 m (pte2 F m pgdir va)) + 8 * F.PT3X va

/-- The entry at `ep` passes the walker's test `*ep & PTE_V`. -/
def validAt (F : Mmu) (m : Mem) (ep : Nat) : Prop := load64 m ep &&& F.PTE_V ≠ 0

instance (F : Mmu) (m : Mem) (ep : Nat) : Decidable (validAt F m ep) := by
  unfold validAt; infer_instance

/-- All three intermediate entries (levels 0 to 2) on the path of `va` are
valid, each read in the table its parent names. -/
def pathValid (F : Mmu) (m : Mem) (pgdir va : Nat) : Prop :=
  validAt F m (pte0 F pgdir va) ∧ validAt F m (pte1 F m pgdir va)
    ∧ validAt F m (pte2 F m pgdir va)

instance (F : Mmu) (m : Mem) (pgdir va : Nat) : Decidable (pathValid F m pgdir va) := by
  unfold pathValid; infer_instance

/-- Memory that is zero except for the given 64-bit words, the last one
written first. -/
def memOf : List (Nat × Nat) → Mem
  | [] => fun _ => 0
  | (a, v) :: rest => store64 (memOf rest) a v

/-- A state over the given memory, counts and free list, with 16 frames. -/
def mkState (m : Mem) (refs : Nat → Nat) (fl : List Nat) : State :=
  { mem := m, pp_ref := refs, page_free_list := fl,
    freemem := 4096, maxpa := 65536, npage := 16, log := [] }

/-- A four-level table rooted at `0x1000` (frames 1 to 4 hold the tables) that
maps the page at virtual address 0 to frame 5. -/
def mappedMem : Mem :=
  memOf [(0x1000, 0x2043), (0x2000, 0x3043), (0x3000, 0x4043), (0x4000, 0x5003)]

/-- A state over `mappedMem`: frames 0 to 5 are in use, the free list is `fl`. -/
def mappedState (fl : List Nat) : State :=
  mkState mappedMem (fun i => if i < 6 then 1 else 0) fl

/-- A state whose memory is all zero, with an empty root table at `0x1000`:
frames 0 and 1 are in use, the free list is `fl`. -/
def emptyRoot (fl : List Nat) : State :=
  mkState (fun _ => 0) (fun i => if i < 2 then 1 else 0) fl

/-- A state before `page_init`: memory and the `pages` array are zero, the
watermark is at the end of frame 0 and there are 16 frames. -/
def bootState : State := mkState (fun _ => 0) (fun _ => 0) []

/-- The state an outcome of one level carries. -/
def Level.state : Level → State
  | Level.nomem s => s
  | Level.null s => s
  | Level.next s _ => s

/-- Refcount/free-list duality: a frame has `pp_ref == 0` if and only if it is
on the free list. -/
def Duality (s : State) : Prop :=
  ∀ i, i < s.npage → (s.pp_ref i = 0 ↔ i ∈ s.page_free_list)

instance (s : State) : Decidable (Duality s) := by
  unfold Duality; infer_instance

/-- The part of the duality every operation keeps: a frame on the free list
is on it once and has `pp_ref == 0`. -/
def FreeListInv (s : State) : Prop :=
  s.page_free_list.Nodup ∧ ∀ i, i ∈ s.page_free_list → s.pp_ref i = 0

/-- The frames of `X` other than `pp`. -/
def release (X : List Nat) (pp : Nat) : List Nat := X.filter (fun i => decide (i ≠ pp))

/-- The frames of `X` whose count is 0 in `s`. -/
def uncounted (s : State) (X : List Nat) : List Nat :=
  X.filter (fun i => decide (s.pp_ref i = 0))

/-- The frames `X` together with the frame a call of `page_alloc` with result
`r` handed out. -/
def handed (r : Option Nat) (X : List Nat) : List Nat :=
  match r with
  | some p => p :: X
  | none => X

/-- The duality up to the frames `X`: each frame of `X` has `pp_ref == 0` and
is off the free list, and every frame has `pp_ref == 0` if and only if it is on
the free list or in `X`. -/
def DualityUpTo (s : State) (X : List Nat) : Prop :=
  (∀ i, i ∈ X → s.pp_ref i = 0 ∧ i ∉ s.page_free_list)
  ∧ ∀ i, i < s.npage → (s.pp_ref i = 0 ↔ i ∈ s.page_free_list ∨ i ∈ X)

/-- The states reached from `page_init` over `s0` by calls of the frame
allocator, the runtime walker and the mapping layer, in which no frame that is
on the free list is handed to `page_free`, `page_decref` or `page_insert`, no
mapping whose frame is on the free list is removed, and `page_insert` is not
given a frame whose count is at its maximum. Each state comes with the frames
outstanding in it: a frame is outstanding from the call of `page_alloc` that
hands it out until it is given to `page_free` or its count is not 0 any more. -/
inductive Reachable (F : Mmu) (s0 : State) : State → List Nat → Prop where
  | init : Reachable F s0 (page_init F s0) []
  | alloc {s : State} {X : List Nat} : Reachable F s0 s X →
      Reachable F s0 (page_alloc s).2 (handed (page_alloc s).1 X)
  | free {s : State} {X : List Nat} (pp : Nat) : Reachable F s0 s X →
      pp ∉ s.page_free_list →
      Reachable F s0 (page_free s pp) (release X pp)
  | decref {s : State} {X : List Nat} (pp : Nat) : Reachable F s0 s X →
      pp ∉ s.page_free_list →
      Reachable F s0 (page_decref F s pp) (uncounted (page_decref F s pp) X)
  | walk {s : State} {X : List Nat} (pgdir va : Nat) (create : Bool) : Reachable F s0 s X →
      Reachable F s0 (pgdir_walk F s pgdir va create).2 X
  | insert {s : State} {X : List Nat} (pgdir pp va perm : Nat) : Reachable F s0 s X →
      pp ∉ s.page_free_list →
      s.pp_ref pp + 1 ≠ F.REF_MOD →
      (∀ old pte, (page_lookup F s pgdir va).1 = some (old, pte) →
        old ∉ s.page_free_list) →
      Reachable F s0 (page_insert F s pgdir pp va perm).2
        (uncounted (page_insert F s pgdir pp va perm).2 X)
  | remove {s : State} {X : List Nat} (pgdir va : Nat) : Reachable F s0 s X →
      (∀ old pte, (page_lookup F s pgdir va).1 = some (old, pte) →
        old ∉ s.page_free_list) →
      Reachable F s0 (page_remove F s pgdir va) (uncounted (page_remove F s pgdir va) X)

/-- The state `page_init` leaves over a zeroed `pages` array with 16 frames and
the watermark at `0x2000`: frames 0 and 1 carry the sentinel `0xffff`, frames 2
to 15 are on the free list. -/
def initState : State := page_init armv8 { bootState with freemem := 0x2000 }

/-- What a call may do to the counts and the free list: `npage` is kept, a
frame new on the free list had a count that was not 0, and a frame whose count
is 0 afterwards is on the free list, or had the count 0 before and was off the
list. -/
def FrameStep (s s1 : State) : Prop :=
  s1.npage = s.npage
  ∧ (∀ i, i ∈ s1.page_free_list → i ∈ s.page_free_list ∨ s.pp_ref i ≠ 0)
  ∧ (∀ i, s1.pp_ref i = 0 →
      i ∈ s1.page_free_list ∨ (s.pp_ref i = 0 ∧ i ∉ s.page_free_list))

/-- What the walker may do: it takes frames from the free list and counts
them; the count of a frame that was off the list is kept. -/
def WalkStep (s s1 : State) : Prop :=
  FreeListInv s1
  ∧ (∀ i, i ∈ s1.page_free_list → i ∈ s.page_free_list)
  ∧ FrameStep s s1
  ∧ (∀ i, i ∉ s.page_free_list → s1.pp_ref i = s.pp_ref i)

/-- The address `a` lies in frame `f`. -/
def inFrame (f a : Nat) : Prop := page2pa f ≤ a ∧ a < page2pa f + BY2PG

instance (f a : Nat) : Decidable (inFrame f a) := by
  unfold inFrame; infer_instance

/-- The first intermediate entry on the path of `va` that is not valid (the
level-2 entry when the path is complete). -/
def firstMissing (F : Mmu) (m : Mem) (pgdir va : Nat) : Nat :=
  if validAt F m (pte0 F pgdir va) then
    if validAt F m (pte1 F m pgdir va) then pte2 F m pgdir va else pte1 F m pgdir va
  else pte0 F pgdir va

/-- The intermediate entries the walker reads on the path of `va`, up to the
first one that is not valid. -/
def pathEntries (F : Mmu) (m : Mem) (pgdir va : Nat) : List Nat :=
  if validAt F m (pte0 F pgdir va) then
    if validAt F m (pte1 F m pgdir va) then
      [pte0 F pgdir va, pte1 F m pgdir va, pte2 F m pgdir va]
    else [pte0 F pgdir va, pte1 F m pgdir va]
  else [pte0 F pgdir va]

/-- A root table at `0x1000` whose entry 0 names the root table itself: every
entry on the path of address 0, the leaf entry included, is that entry. Frame 1
has the count `n`, the free list is empty. -/
def selfRefState (n : Nat) : State :=
  mkState (memOf [(0x1000, 0x1043)]) (fun i => if i = 1 then n else 0) []

/-- The event is a store to a page-table entry. -/
def Event.isWrite : Event → Bool
  | Event.tlb _ => false
  | Event.write _ _ => true

/-- A state before `page_init` whose watermark is at the end of memory: 16
frames, all below the watermark. -/
def fullState : State := { bootState with freemem := 65536 }

/-- An empty root table at `0x1000` during boot: memory is all zero, the
watermark is at `0x2000` and memory ends at `0x10000`. -/
def bootRoot : State := { emptyRoot [] with freemem := 0x2000 }

/-- A four-level table rooted at `0x1000` whose level-3 table is frame 0: the
leaf entry of virtual address 0 is at physical address 0 and names frame 5. -/
def nullLeafState : State :=
  mkState (memOf [(0x1000, 0x2043), (0x2000, 0x3043), (0x3000, 0x0043), (0x0, 0x5003)])
    (fun i => if i < 6 then 1 else 0) []

/-- The state a run of `boot_map_segment` ends in. -/
def BootMap.state : BootMap → State
  | BootMap.done s => s
  | BootMap.panic s => s
  | BootMap.running s _ _ _ => s

/-- The run of `boot_map_segment` returned. -/
def BootMap.isDone : BootMap → Bool
  | BootMap.done _ => true
  | _ => false

/-- The size still to map when the loop of `boot_map_segment` was stopped. -/
def BootMap.remaining : BootMap → Option Nat
  | BootMap.running _ _ size _ => some size
  | _ => none

/-- What the doc comment of `boot_map_segment` describes, page by page: for
each of the `k` pages at `va`, `va + BY2PG`, ... in turn, the entry
`boot_pgdir_walk(pgdir, va, 1)` returns is set to `PTE_ADDR(pa) | perm | PBE_V`;
with no page nothing is done. -/
def boot_map_segment_spec (F : Mmu) (pgdir perm : Nat) : Nat → State → Nat → Nat → BootMap
  | 0, s, _, _ => BootMap.done s
  | k + 1, s, va, pa =>
    match boot_pgdir_walk F s pgdir va true with
    | (none, s1) => BootMap.panic s1
    | (some pgtable_entry, s1) =>
      boot_map_segment_spec F pgdir perm k
        (store_pte s1 pgtable_entry (PTE_ADDR pa ||| perm ||| F.PBE_V)) (va + BY2PG) (pa + BY2PG)

/-- The number of intermediate tables the path of `va` lacks: the tables below
the first intermediate entry that is not valid. -/
def missingTables (F : Mmu) (m : Mem) (pgdir va : Nat) : Nat :=
  if validAt F m (pte0 F pgdir va) then
    if validAt F m (pte1 F m pgdir va) then
      if validAt F m (pte2 F m pgdir va) then 0 else 1
    else 2
  else 3

/-! ## Theorems -/

/-! ### Memory -/

theorem load64_lt (m : Mem) (a : Nat) : load64 m a < 2 ^ 64 := by
  unfold load64; omega

theorem load64_congr (m1 m2 : Mem) (a : Nat) (h : ∀ i, i < 8 → m1 (a + i) = m2 (a + i)) :
    load64 m1 a = load64 m2 a := by
  have h0 := h 0 (by omega)
  simp only [Nat.add_zero] at h0
  unfold load64
  rw [h0, h 1 (by omega), h 2 (by omega), h 3 (by omega), h 4 (by omega), h 5 (by omega),
    h 6 (by omega), h 7 (by omega)]

theorem load64_zero (m : Mem) (a : Nat) (h : ∀ i, i < 8 → m (a + i) = 0) :
    load64 m a = 0 := by
  have h0 := h 0 (by omega)
  simp only [Nat.add_zero] at h0
  unfold load64
  rw [h0, h 1 (by omega), h 2 (by omega), h 3 (by omega), h 4 (by omega), h 5 (by omega),
    h 6 (by omega), h 7 (by omega)]

theorem load64_store64_same (m : Mem) (a v : Nat) :
    load64 (store64 m a v) a = v % 2 ^ 64 := by
  unfold load64 store64
  simp
  omega

theorem load64_store64_disj (m : Mem) (a v b : Nat) (h : b + 8 ≤ a ∨ a + 8 ≤ b) :
    load64 (store64 m a v) b = load64 m b := by
  apply load64_congr
  intro i hi
  exact if_neg (by omega)

theorem store64_apply_out (m : Mem) (a v x : Nat) (h : x < a ∨ a + 8 ≤ x) :
    store64 m a v x = m x := if_neg (by omega)

theorem store32_zero_apply (m : Mem) (b x : Nat) :
    store32 m b 0 x = if b ≤ x ∧ x < b + 4 then 0 else m x := by
  simp [store32]

theorem store8_zero_apply (m : Mem) (b x : Nat) :
    store8 m b 0 x = if x = b then 0 else m x := by
  simp [store8]

theorem bzero_words_spec (fuel : Nat) (m : Mem) (b max : Nat) :
    (∀ x, (bzero_words fuel m b max).1 x
        = if b ≤ x ∧ x < (bzero_words fuel m b max).2 then 0 else m x)
      ∧ b ≤ (bzero_words fuel m b max).2
      ∧ (b ≤ max → (bzero_words fuel m b max).2 ≤ max)
      ∧ (max ≤ b + fuel → max < (bzero_words fuel m b max).2 + 4) := by
  induction fuel generalizing m b with
  | zero =>
    refine ⟨fun x => ?_, ?_, ?_, ?_⟩ <;> simp only [bzero_words]
    · rw [if_neg]; omega
    · exact Nat.le_refl b
    · exact fun h => h
    · omega
  | succ n ih =>
    unfold bzero_words
    split
    · obtain ⟨h1, h2, h3, h4⟩ := ih (store32 m b 0) (b + 4)
      refine ⟨?_, by omega, by omega, by omega⟩
      intro x
      rw [h1 x, store32_zero_apply]
      generalize (bzero_words n (store32 m b 0) (b + 4) max).2 = E at *
      split_ifs <;> first | rfl | omega
    · refine ⟨fun x => ?_, ?_, ?_, ?_⟩
      · rw [if_neg]; omega
      · exact Nat.le_refl b
      · exact fun h => h
      · omega

theorem bzero_bytes_spec (fuel : Nat) (m : Mem) (b max : Nat) :
    (∀ x, (bzero_bytes fuel m b max).1 x
        = if b ≤ x ∧ x < (bzero_bytes fuel m b max).2 then 0 else m x)
      ∧ b ≤ (bzero_bytes fuel m b max).2
      ∧ (b ≤ max → (bzero_bytes fuel m b max).2 ≤ max)
      ∧ (max ≤ b + fuel → max ≤ (bzero_bytes fuel m b max).2) := by
  induction fuel generalizing m b with
  | zero =>
    refine ⟨fun x => ?_, ?_, ?_, ?_⟩ <;> simp only [bzero_bytes]
    · rw [if_neg]; omega
    · exact Nat.le_refl b
    · exact fun h => h
    · omega
  | succ n ih =>
    unfold bzero_bytes
    split
    · obtain ⟨h1, h2, h3, h4⟩ := ih (store8 m b 0) (b + 1)
      refine ⟨?_, by omega, by omega, by omega⟩
      intro x
      rw [h1 x, store8_zero_apply]
      generalize (bzero_bytes n (store8 m b 0) (b + 1) max).2 = E at *
      split_ifs <;> first | rfl | omega
    · refine ⟨fun x => ?_, ?_, ?_, ?_⟩
      · rw [if_neg]; omega
      · exact Nat.le_refl b
      · exact fun h => h
      · omega

/-- The function `bzero` zeroes exactly the bytes `[b, b + len)`. -/
theorem bzero_apply (m : Mem) (b len x : Nat) :
    bzero m b len x = if b ≤ x ∧ x < b + len then 0 else m x := by
  unfold bzero
  obtain ⟨h1, h2, h3, h4⟩ := bzero_words_spec len m b (b + len)
  obtain ⟨g1, g2, g3, g4⟩ := bzero_bytes_spec len (bzero_words len m b (b + len)).1
    (bzero_words len m b (b + len)).2 (b + len)
  show (bzero_bytes len (bzero_words len m b (b + len)).1
      (bzero_words len m b (b + len)).2 (b + len)).1 x = _
  rw [g1 x, h1 x]
  generalize (bzero_bytes len (bzero_words len m b (b + len)).1
      (bzero_words len m b (b + len)).2 (b + len)).2 = E2 at *
  generalize (bzero_words len m b (b + len)).2 = E1 at *
  split_ifs <;> first | rfl | omega

theorem load64_bzero_in (m : Mem) (b len a : Nat) (h : b ≤ a ∧ a + 8 ≤ b + len) :
    load64 (bzero m b len) a = 0 := by
  apply load64_zero
  intro i hi
  rw [bzero_apply, if_pos]
  omega

theorem load64_bzero_out (m : Mem) (b len a : Nat) (h : a + 8 ≤ b ∨ b + len ≤ a) :
    load64 (bzero m b len) a = load64 m a := by
  apply load64_congr
  intro i hi
  rw [bzero_apply, if_neg]
  omega

/-! ### The walker without `create` -/

theorem pgdir_walk_level_false (F : Mmu) (s : State) (ep ix : Nat) :
    pgdir_walk_level F s ep ix false
      = if validAt F s.mem ep then Level.next s (PTE_ADDR (load64 s.mem ep) + 8 * ix)
        else Level.null s := by
  unfold pgdir_walk_level validAt
  by_cases h : load64 s.mem ep &&& F.PTE_V = 0 <;> simp [h]

theorem pgdir_walk_level_valid (F : Mmu) (s : State) (ep ix : Nat) (create : Bool)
    (h : validAt F s.mem ep) :
    pgdir_walk_level F s ep ix create
      = Level.next s (PTE_ADDR (load64 s.mem ep) + 8 * ix) := by
  unfold validAt at h
  unfold pgdir_walk_level
  simp [h]

theorem pgdir_walk_level_nofree (F : Mmu) (s : State) (ep ix : Nat)
    (h : ¬ validAt F s.mem ep) (hfree : s.page_free_list = []) :
    pgdir_walk_level F s ep ix true = Level.nomem s := by
  unfold validAt at h
  unfold pgdir_walk_level page_alloc
  simp at h
  simp [h, hfree]

theorem pgdir_walk_unfold (F : Mmu) (s : State) (pgdir va : Nat) (create : Bool) :
    pgdir_walk F s pgdir va create
      = match pgdir_walk_level F s (pte0 F pgdir va) (F.PT1X va) create with
        | Level.nomem s1 => (none, s1)
        | Level.null s1 => (some 0, s1)
        | Level.next s1 pgtable1_entryp =>
          match pgdir_walk_level F s1 pgtable1_entryp (F.PT2X va) create with
          | Level.nomem s2 => (none, s2)
          | Level.null s2 => (some 0, s2)
          | Level.next s2 pgtable2_entryp =>
            match pgdir_walk_level F s2 pgtable2_entryp (F.PT3X va) create with
            | Level.nomem s3 => (none, s3)
            | Level.null s3 => (some 0, s3)
            | Level.next s3 _ =>
              (some (PTE_ADDR (load64 s3.mem pgtable2_entryp) + 8 * F.PT3X va), s3) := rfl

/-- With every intermediate entry valid the walker, with or without `create`,
allocates nothing and yields the leaf entry address. -/
theorem pgdir_walk_pathValid (F : Mmu) (s : State) (pgdir va : Nat) (create : Bool)
    (h : pathValid F s.mem pgdir va) :
    pgdir_walk F s pgdir va create = (some (pte3 F s.mem pgdir va), s) := by
  obtain ⟨h0, h1, h2⟩ := h
  rw [pgdir_walk_unfold, pgdir_walk_level_valid F s _ _ _ h0]
  show (match pgdir_walk_level F s (pte1 F s.mem pgdir va) (F.PT2X va) create with
    | Level.nomem s2 => (none, s2)
    | Level.null s2 => (some 0, s2)
    | Level.next s2 pgtable2_entryp =>
      match pgdir_walk_level F s2 pgtable2_entryp (F.PT3X va) create with
      | Level.nomem s3 => (none, s3)
      | Level.null s3 => (some 0, s3)
      | Level.next s3 _ =>
        (some (PTE_ADDR (load64 s3.mem pgtable2_entryp) + 8 * F.PT3X va), s3)) = _
  rw [pgdir_walk_level_valid F s _ _ _ h1]
  show (match pgdir_walk_level F s (pte2 F s.mem pgdir va) (F.PT3X va) create with
      | Level.nomem s3 => (none, s3)
      | Level.null s3 => (some 0, s3)
      | Level.next s3 _ =>
        (some (PTE_ADDR (load64 s3.mem (pte2 F s.mem pgdir va)) + 8 * F.PT3X va), s3)) = _
  rw [pgdir_walk_level_valid F s _ _ _ h2]
  rfl

/-- Without `create` the walker changes nothing and never fails: it yields the
leaf entry address when the three intermediate entries are valid and `NULL`
otherwise. -/
theorem pgdir_walk_false (F : Mmu) (s : State) (pgdir va : Nat) :
    pgdir_walk F s pgdir va false
      = (some (if pathValid F s.mem pgdir va then pte3 F s.mem pgdir va else 0), s) := by
  by_cases h : pathValid F s.mem pgdir va
  · rw [pgdir_walk_pathValid F s pgdir va false h, if_pos h]
  · rw [if_neg h, pgdir_walk_unfold, pgdir_walk_level_false]
    by_cases h0 : validAt F s.mem (pte0 F pgdir va)
    · rw [if_pos h0]
      show (match pgdir_walk_level F s (pte1 F s.mem pgdir va) (F.PT2X va) false with
        | Level.nomem s2 => (none, s2)
        | Level.null s2 => (some 0, s2)
        | Level.next s2 pgtable2_entryp =>
          match pgdir_walk_level F s2 pgtable2_entryp (F.PT3X va) false with
          | Level.nomem s3 => (none, s3)
          | Level.null s3 => (some 0, s3)
          | Level.next s3 _ =>
            (some (PTE_ADDR (load64 s3.mem pgtable2_entryp) + 8 * F.PT3X va), s3)) = _
      rw [pgdir_walk_level_false]
      by_cases h1 : validAt F s.mem (pte1 F s.mem pgdir va)
      · rw [if_pos h1]
        show (match pgdir_walk_level F s (pte2 F s.mem pgdir va) (F.PT3X va) false with
            | Level.nomem s3 => (none, s3)
            | Level.null s3 => (some 0, s3)
            | Level.next s3 _ =>
              (some (PTE_ADDR (load64 s3.mem (pte2 F s.mem pgdir va)) + 8 * F.PT3X va), s3)) = _
        rw [pgdir_walk_level_false]
        have h2 : ¬ validAt F s.mem (pte2 F s.mem pgdir va) := fun h2 => h ⟨h0, h1, h2⟩
        rw [if_neg h2]
      · rw [if_neg h1]
    · rw [if_neg h0]

/-- With an empty free list and an intermediate entry missing the walker with
`create` returns `-E_NO_MEM` and changes nothing. -/
theorem pgdir_walk_true_nofree (F : Mmu) (s : State) (pgdir va : Nat)
    (h : ¬ pathValid F s.mem pgdir va) (hfree : s.page_free_list = []) :
    pgdir_walk F s pgdir va true = (none, s) := by
  rw [pgdir_walk_unfold]
  by_cases h0 : validAt F s.mem (pte0 F pgdir va)
  · rw [pgdir_walk_level_valid F s _ _ _ h0]
    show (match pgdir_walk_level F s (pte1 F s.mem pgdir va) (F.PT2X va) true with
      | Level.nomem s2 => (none, s2)
      | Level.null s2 => (some 0, s2)
      | Level.next s2 pgtable2_entryp =>
        match pgdir_walk_level F s2 pgtable2_entryp (F.PT3X va) true with
        | Level.nomem s3 => (none, s3)
        | Level.null s3 => (some 0, s3)
        | Level.next s3 _ =>
          (some (PTE_ADDR (load64 s3.mem pgtable2_entryp) + 8 * F.PT3X va), s3)) = _
    by_cases h1 : validAt F s.mem (pte1 F s.mem pgdir va)
    · rw [pgdir_walk_level_valid F s _ _ _ h1]
      show (match pgdir_walk_level F s (pte2 F s.mem pgdir va) (F.PT3X va) true with
          | Level.nomem s3 => (none, s3)
          | Level.null s3 => (some 0, s3)
          | Level.next s3 _ =>
            (some (PTE_ADDR (load64 s3.mem (pte2 F s.mem pgdir va)) + 8 * F.PT3X va), s3)) = _
      have h2 : ¬ validAt F s.mem (pte2 F s.mem pgdir va) := fun h2 => h ⟨h0, h1, h2⟩
      rw [pgdir_walk_level_nofree F s _ _ h2 hfree]
    · rw [pgdir_walk_level_nofree F s _ _ h1 hfree]
  · rw [pgdir_walk_level_nofree F s _ _ h0 hfree]

theorem page_lookup_state (F : Mmu) (s : State) (pgdir va : Nat) :
    (page_lookup F s pgdir va).2 = s := by
  unfold page_lookup
  simp only [pgdir_walk_false]
  split_ifs <;> rfl

theorem page_lookup_eq (F : Mmu) (s : State) (pgdir va : Nat) :
    (page_lookup F s pgdir va).1
      = if pathValid F s.mem pgdir va ∧ pte3 F s.mem pgdir va ≠ 0
            ∧ load64 s.mem (pte3 F s.mem pgdir va) &&& F.PBE_V ≠ 0
        then some (pa2page (load64 s.mem (pte3 F s.mem pgdir va)), pte3 F s.mem pgdir va)
        else none := by
  unfold page_lookup
  simp only [pgdir_walk_false, Option.getD_some]
  by_cases h : pathValid F s.mem pgdir va
  · simp only [if_pos h, true_and]
    by_cases h3 : pte3 F s.mem pgdir va = 0
    · simp [h, h3]
    · by_cases hv : load64 s.mem (pte3 F s.mem pgdir va) &&& F.PBE_V = 0
      · simp [h, h3, hv]
      · simp [h, h3, hv]
  · simp [h]

theorem armv8_wf : armv8.WF where
  PTE_V_pos := by decide
  PTE_V_lt := by decide
  PTE_R_lt := by decide
  PBE_V_pos := by decide
  PBE_V_lt := by decide
  PT0X_lt := fun va => Nat.mod_lt _ (by decide)
  PT1X_lt := fun va => Nat.mod_lt _ (by decide)
  PT2X_lt := fun va => Nat.mod_lt _ (by decide)
  PT3X_lt := fun va => Nat.mod_lt _ (by decide)
  REF_MOD_gt := by decide

/-! ### Frame allocator -/

/-- C10. `page_alloc` returns `-E_NO_MEM` exactly when the free list is empty
and then changes nothing; otherwise it returns 0 with the head of the list,
leaves the tail of the list as the new list, leaves every byte of the frame
zero and changes no `pp_ref`. -/
theorem page_alloc_contract (s : State) :
    ((page_alloc s).1 = none ↔ s.page_free_list = [])
    ∧ ((page_alloc s).1 = none → (page_alloc s).2 = s)
    ∧ (∀ p t, s.page_free_list = p :: t →
        (page_alloc s).1 = some p
        ∧ (page_alloc s).2.page_free_list = t
        ∧ (∀ a, page2pa p ≤ a → a < page2pa p + BY2PG → (page_alloc s).2.mem a = 0)
        ∧ (page_alloc s).2.pp_ref = s.pp_ref) := by
  unfold page_alloc
  cases hl : s.page_free_list with
  | nil => simp
  | cons p t =>
    refine ⟨by simp, by simp, ?_⟩
    intro p1 t1 h
    simp only [List.cons.injEq] at h
    obtain ⟨rfl, rfl⟩ := h
    refine ⟨rfl, by simp [LIST_REMOVE], ?_, rfl⟩
    intro a h1 h2
    show bzero s.mem (page2pa p) BY2PG a = 0
    rw [bzero_apply, if_pos ⟨h1, h2⟩]

/-! ### Mapping layer -/

/-- The function `page_remove` when `page_lookup` finds no mapping. -/
theorem page_remove_of_lookup_none (F : Mmu) (s : State) (pgdir va : Nat)
    (h : (page_lookup F s pgdir va).1 = none) : page_remove F s pgdir va = s := by
  unfold page_remove
  have hs := page_lookup_state F s pgdir va
  cases hr : page_lookup F s pgdir va with
  | mk r1 r2 =>
    rw [hr] at h hs
    simp only at h hs
    subst h
    subst hs
    rfl

/-- C9. When `page_lookup` reports no mapping for `va`, `page_remove` leaves
the whole state unchanged, so that removing twice is the same as removing
once. -/
theorem page_remove_unmapped (F : Mmu) (s : State) (pgdir va : Nat)
    (h : (page_lookup F s pgdir va).1 = none) :
    page_remove F s pgdir va = s
    ∧ page_remove F (page_remove F s pgdir va) pgdir va = page_remove F s pgdir va := by
  have e := page_remove_of_lookup_none F s pgdir va h
  exact ⟨e, by rw [e, e]⟩

theorem page_remove_unmapped_witness :
    (page_lookup armv8 (mappedState []) 0x1000 0x200000).1 = none
    ∧ page_remove armv8 (mappedState []) 0x1000 0x200000 = mappedState []
    ∧ page_remove armv8 (page_remove armv8 (mappedState []) 0x1000 0x200000) 0x1000 0x200000
        = page_remove armv8 (mappedState []) 0x1000 0x200000 :=
  have h : (page_lookup armv8 (mappedState []) 0x1000 0x200000).1 = none := by
    rw [page_lookup_eq]; decide
  ⟨h, page_remove_unmapped armv8 (mappedState []) 0x1000 0x200000 h⟩

/-- C6. With an empty free list `page_alloc` returns `-E_NO_MEM`, and so does
`page_insert` for every address whose path lacks a valid intermediate entry. -/
theorem exhaustion_no_mem (F : Mmu) (s : State) (pgdir pp va perm : Nat)
    (hfree : s.page_free_list = []) (hpath : ¬ pathValid F s.mem pgdir va) :
    (page_alloc s).1 = none ∧ (page_insert F s pgdir pp va perm).1 = none := by
  refine ⟨by simp [page_alloc, hfree], ?_⟩
  unfold page_insert
  simp only [pgdir_walk_false, if_neg hpath, Option.getD_some]
  have hw := pgdir_walk_true_nofree F (tlb_invalidate s va) pgdir va hpath hfree
  simp [hw]

theorem exhaustion_no_mem_witness :
    (mappedState []).page_free_list = []
    ∧ ¬ pathValid armv8 (mappedState []).mem 0x1000 0x200000
    ∧ (page_alloc (mappedState [])).1 = none
    ∧ (page_insert armv8 (mappedState []) 0x1000 5 0x200000 0).1 = none :=
  ⟨rfl, by decide,
    exhaustion_no_mem armv8 (mappedState []) 0x1000 5 0x200000 0 rfl (by decide)⟩

/-! ### Entries -/

theorem lor_lt_4096 (a b : Nat) (ha : a < 4096) (hb : b < 4096) : a ||| b < 4096 :=
  Nat.or_lt_two_pow (n := 12) ha hb

/-- An aligned frame address combined with flag bits is their sum. -/
theorem page2pa_lor (pp x : Nat) (hx : x < 4096) : page2pa pp ||| x = pp * 4096 + x := by
  unfold page2pa
  have h := Nat.mul_add_lt_is_or (i := 12) (b := x) hx pp
  rw [Nat.mul_comm] at h
  exact h.symm

/-- The value `page_insert` stores for a permission in the low 12 bits. -/
theorem leaf_value (F : Mmu) (hF : F.WF) (pp perm : Nat) (hpp : pp < 2 ^ 52)
    (hperm : perm < 4096) :
    (page2pa pp ||| (perm ||| F.PBE_V) % 2 ^ 32) % 2 ^ 64 = pp * 4096 + (perm ||| F.PBE_V)
    ∧ page2pa pp ||| perm ||| F.PBE_V = pp * 4096 + (perm ||| F.PBE_V) := by
  have h1 : perm ||| F.PBE_V < 4096 := lor_lt_4096 _ _ hperm hF.PBE_V_lt
  have h2 : (perm ||| F.PBE_V) % 2 ^ 32 = perm ||| F.PBE_V := Nat.mod_eq_of_lt (by omega)
  rw [h2, Nat.lor_assoc, page2pa_lor _ _ h1]
  exact ⟨Nat.mod_eq_of_lt (by omega), rfl⟩

/-- C4 (amended). Inserting the frame that `va` already maps (a leaf entry
that is not at address `NULL`, passes the walker's valid test and decodes to
`pp`) with a permission in the low 12 bits returns 0, changes no `pp_ref` and
not the free list, and leaves exactly `page2pa(pp) | perm | PBE_V` in the leaf
entry; no other byte of memory changes. -/
theorem page_insert_self_remap (F : Mmu) (hF : F.WF) (s : State) (pgdir pp va perm : Nat)
    (hperm : perm < 4096)
    (hpath : pathValid F s.mem pgdir va)
    (hnz : pte3 F s.mem pgdir va ≠ 0)
    (hv : validAt F s.mem (pte3 F s.mem pgdir va))
    (hpp : pa2page (load64 s.mem (pte3 F s.mem pgdir va)) = pp) :
    (page_insert F s pgdir pp va perm).1 = some ()
    ∧ (page_insert F s pgdir pp va perm).2.pp_ref = s.pp_ref
    ∧ (page_insert F s pgdir pp va perm).2.page_free_list = s.page_free_list
    ∧ load64 (page_insert F s pgdir pp va perm).2.mem (pte3 F s.mem pgdir va)
        = page2pa pp ||| perm ||| F.PBE_V
    ∧ ∀ a, (a < pte3 F s.mem pgdir va ∨ pte3 F s.mem pgdir va + 8 ≤ a) →
        (page_insert F s pgdir pp va perm).2.mem a = s.mem a := by
  have hlt : pp < 2 ^ 52 := by
    have := load64_lt s.mem (pte3 F s.mem pgdir va)
    rw [← hpp]; unfold pa2page PPN; omega
  unfold validAt at hv
  have e : page_insert F s pgdir pp va perm
      = (some (), store_pte (tlb_invalidate s va) (pte3 F s.mem pgdir va)
          (page2pa pp ||| (perm ||| F.PBE_V) % 2 ^ 32)) := by
    unfold page_insert
    simp only [pgdir_walk_false, if_pos hpath, Option.getD_some]
    simp [hnz, hv, hpp]
  rw [e]
  refine ⟨rfl, rfl, rfl, ?_, ?_⟩
  · show load64 (store64 s.mem _ _) _ = _
    rw [load64_store64_same, (leaf_value F hF pp perm hlt hperm).1,
      (leaf_value F hF pp perm hlt hperm).2]
  · intro a ha
    exact store64_apply_out _ _ _ _ ha

theorem page_insert_self_remap_witness :
    pathValid armv8 (mappedState []).mem 0x1000 0
    ∧ validAt armv8 (mappedState []).mem (pte3 armv8 (mappedState []).mem 0x1000 0)
    ∧ pa2page (load64 (mappedState []).mem (pte3 armv8 (mappedState []).mem 0x1000 0)) = 5
    ∧ (page_insert armv8 (mappedState []) 0x1000 5 0 0x40).1 = some ()
    ∧ (page_insert armv8 (mappedState []) 0x1000 5 0 0x40).2.pp_ref = (mappedState []).pp_ref
    ∧ (page_insert armv8 (mappedState []) 0x1000 5 0 0x40).2.page_free_list
        = (mappedState []).page_free_list
    ∧ load64 (page_insert armv8 (mappedState []) 0x1000 5 0 0x40).2.mem
          (pte3 armv8 (mappedState []).mem 0x1000 0)
        = page2pa 5 ||| 0x40 ||| armv8.PBE_V
    ∧ ∀ a, (a < pte3 armv8 (mappedState []).mem 0x1000 0
          ∨ pte3 armv8 (mappedState []).mem 0x1000 0 + 8 ≤ a) →
        (page_insert armv8 (mappedState []) 0x1000 5 0 0x40).2.mem a = (mappedState []).mem a :=
  ⟨by decide, by decide, by decide,
    page_insert_self_remap armv8 armv8_wf (mappedState []) 0x1000 5 0 0x40 (by decide)
      (by decide) (by decide) (by decide) (by decide)⟩

/-- C4 (counterexample). The level-3 table is frame 0 and `PT3X(va) = 0`: the
leaf entry of `va = 0` is at address `NULL`, it is valid and decodes to frame
5, whose count is 1. `page_insert` of frame 5 at `va` takes the pointer for "no
entry", does not see the mapping, and raises the count to 2. -/
theorem page_insert_self_remap_null_leaf :
    pathValid armv8 nullLeafState.mem 0x1000 0
    ∧ pte3 armv8 nullLeafState.mem 0x1000 0 = 0
    ∧ validAt armv8 nullLeafState.mem (pte3 armv8 nullLeafState.mem 0x1000 0)
    ∧ pa2page (load64 nullLeafState.mem (pte3 armv8 nullLeafState.mem 0x1000 0)) = 5
    ∧ nullLeafState.pp_ref 5 = 1
    ∧ (page_insert armv8 nullLeafState 0x1000 5 0 0x40).1 = some ()
    ∧ (page_insert armv8 nullLeafState 0x1000 5 0 0x40).2.pp_ref 5 = 2 := by
  decide

/-! ### The walker with `create`: a slip in the created-table pointer

In the `create` branch of each level `pgtableN_entryp` is set to the base of
the new table, `(Pte *)page2pa(ppage)`, without `+ PTnX(va)`; the next level
then reads and writes entry 0 of the new table instead of the entry of `va`. -/

set_option maxRecDepth 1000000 in
/-- C1 (evaluation at the failing input). On an empty root table, with three
frames on the free list, `page_insert` of frame 5 at `va = 0x200000` (level-2
index 1) returns 0, and `page_lookup` of the same address then reports no
mapping. -/
theorem page_insert_then_lookup_fails :
    (page_lookup armv8 (emptyRoot [2, 3, 4]) 0x1000 0x200000).1 = none
    ∧ 5 ∉ (emptyRoot [2, 3, 4]).page_free_list
    ∧ (page_insert armv8 (emptyRoot [2, 3, 4]) 0x1000 5 0x200000 0).1 = some ()
    ∧ (page_lookup armv8 (page_insert armv8 (emptyRoot [2, 3, 4]) 0x1000 5 0x200000 0).2
        0x1000 0x200000).1 = none := by
  decide

set_option maxRecDepth 1000000 in
/-- C2 (evaluation at the failing input). On an empty root table
`pgdir_walk(pgdir, 0x200000, 1, &p)` returns 0 with `p = 0x4000`, having
written the level-3 table into entry 0 of the level-2 table although
`PT2X(va) = 1`; the following `pgdir_walk(pgdir, 0x200000, 0, &q)` returns 0
with `q = NULL`. -/
theorem pgdir_walk_create_wrong_index :
    (pgdir_walk armv8 (emptyRoot [2, 3, 4]) 0x1000 0x200000 true).1 = some 0x4000
    ∧ (pgdir_walk armv8 (pgdir_walk armv8 (emptyRoot [2, 3, 4]) 0x1000 0x200000 true).2
        0x1000 0x200000 false).1 = some 0
    ∧ armv8.PT2X 0x200000 = 1
    ∧ load64 (pgdir_walk armv8 (emptyRoot [2, 3, 4]) 0x1000 0x200000 true).2.mem
        (0x3000 + 8 * 0) = 0x4043
    ∧ load64 (pgdir_walk armv8 (emptyRoot [2, 3, 4]) 0x1000 0x200000 true).2.mem
        (0x3000 + 8 * armv8.PT2X 0x200000) = 0 := by
  decide

/-! ### Refcount and free list -/

theorem page_init_used_spec (F : Mmu) (fuel i used : Nat) (s : State) (h : used ≤ i + fuel) :
    page_init_used F fuel i used s
      = (max i used, { s with pp_ref := fun j =>
          if i ≤ j ∧ j < used then 0xffff % F.REF_MOD else s.pp_ref j }) := by
  induction fuel generalizing i s with
  | zero =>
    unfold page_init_used
    have e : (fun j => if i ≤ j ∧ j < used then 0xffff % F.REF_MOD else s.pp_ref j)
        = s.pp_ref := by
      funext j; rw [if_neg]; omega
    rw [e, Nat.max_eq_left (by omega)]
  | succ n ih =>
    unfold page_init_used
    split
    · rw [ih (i + 1) _ (by omega), Nat.max_eq_right (by omega), Nat.max_eq_right (by omega)]
      congr 2
      funext j
      show (if i + 1 ≤ j ∧ j < used then 0xffff % F.REF_MOD
        else if j = i then 0xffff % F.REF_MOD else s.pp_ref j) = _
      split_ifs <;> first | rfl | omega
    · have e : (fun j => if i ≤ j ∧ j < used then 0xffff % F.REF_MOD else s.pp_ref j)
          = s.pp_ref := by
        funext j; rw [if_neg]; omega
      rw [e, Nat.max_eq_left (by omega)]

theorem page_init_free_spec (fuel i : Nat) (s : State) (h : s.npage ≤ i + fuel) :
    (page_init_free fuel i s).2
      = { s with page_free_list :=
            (List.range' i (s.npage - i)).reverse ++ s.page_free_list } := by
  induction fuel generalizing i s with
  | zero =>
    unfold page_init_free
    have e : s.npage - i = 0 := by omega
    rw [e]; rfl
  | succ n ih =>
    unfold page_init_free
    split
    · rename_i hlt
      rw [ih (i + 1) _ (by exact (by omega : s.npage ≤ i + 1 + n))]
      have e : s.npage - i = (s.npage - (i + 1)) + 1 := by omega
      show State.mk _ _ _ _ _ _ _ = State.mk _ _ _ _ _ _ _
      congr 1
      show (List.range' (i + 1) (s.npage - (i + 1))).reverse ++ LIST_INSERT_HEAD s.page_free_list i
        = _
      rw [e, List.range'_succ, List.reverse_cons, List.append_assoc]
      rfl
    · have e : s.npage - i = 0 := by omega
      rw [e]; rfl

/-- What `page_init` leaves: the frames below the rounded watermark carry the
sentinel, the others are on the free list, pushed in increasing order. -/
theorem page_init_eq (F : Mmu) (s : State) :
    page_init F s
      = { s with
          pp_ref := fun j =>
            if j < PPN (ROUND s.freemem BY2PG) then 0xffff % F.REF_MOD else s.pp_ref j
          page_free_list :=
            (List.range' (PPN (ROUND s.freemem BY2PG))
              (s.npage - PPN (ROUND s.freemem BY2PG))).reverse
          freemem := ROUND s.freemem BY2PG } := by
  unfold page_init
  simp only []
  rw [page_init_used_spec F _ _ _ _ (by omega)]
  simp only [Nat.zero_max]
  rw [page_init_free_spec _ _ _ (by show s.npage ≤ _ + s.npage; omega)]
  simp

theorem page_init_duality (F : Mmu) (hF : F.WF) (s0 : State) (h0 : ∀ i, s0.pp_ref i = 0) :
    Duality (page_init F s0) := by
  rw [page_init_eq]
  intro i hi
  have hM := hF.REF_MOD_gt
  have hs : 0xffff % F.REF_MOD = 0xffff := Nat.mod_eq_of_lt hM
  simp only [List.mem_reverse, List.mem_range', hs, h0]
  constructor
  · intro h
    split at h
    · omega
    · exact ⟨i - PPN (ROUND s0.freemem BY2PG), by
        have : i < s0.npage := hi
        omega, by omega⟩
  · rintro ⟨k, hk, rfl⟩
    rw [if_neg (by omega)]

theorem page_init_inv (F : Mmu) (s0 : State) (h0 : ∀ i, s0.pp_ref i = 0) :
    FreeListInv (page_init F s0) := by
  rw [page_init_eq]
  refine ⟨?_, ?_⟩
  · show (List.range' _ _).reverse.Nodup
    rw [List.nodup_reverse]
    exact List.nodup_range' _ _
  · intro i hi
    simp only [List.mem_reverse, List.mem_range'] at hi
    obtain ⟨k, hk, rfl⟩ := hi
    show (if _ then _ else _) = 0
    rw [if_neg (by omega)]
    exact h0 _

/-- C3 (counterexample). After `page_init` and one `page_alloc` the frame
handed out has `pp_ref == 0` and is not on the free list. -/
theorem duality_broken_by_page_alloc :
    ¬ Duality (page_alloc (page_init armv8 bootState)).2 := by
  decide

theorem page_alloc_none (s : State) (h : s.page_free_list = []) :
    page_alloc s = (none, s) := by
  unfold page_alloc; rw [h]

theorem page_alloc_some (s : State) (p : Nat) (t : List Nat) (h : s.page_free_list = p :: t) :
    page_alloc s
      = (some p, { s with page_free_list := t, mem := bzero s.mem (page2pa p) BY2PG }) := by
  unfold page_alloc; rw [h]
  simp [LIST_REMOVE]

/-- A level that finds its entry invalid, with `create` set and a frame `p` at
the head of the free list: the frame is taken and zeroed, the entry is written
and the next entry pointer is the base of the new table. -/
theorem pgdir_walk_level_create (F : Mmu) (s : State) (ep ix p : Nat) (t : List Nat)
    (h : ¬ validAt F s.mem ep) (hl : s.page_free_list = p :: t) :
    pgdir_walk_level F s ep ix true
      = Level.next
          (pp_ref_inc F
            (store_pte { s with page_free_list := t, mem := bzero s.mem (page2pa p) BY2PG }
              ep (page2pa p ||| F.PTE_V ||| F.PTE_R)) p)
          (page2pa p) := by
  unfold validAt at h
  simp only [ne_eq, not_not] at h
  unfold pgdir_walk_level
  rw [page_alloc_some s p t hl]
  simp [h]

theorem FreeListInv_of_eq (s s1 : State) (h1 : s1.pp_ref = s.pp_ref)
    (h2 : s1.page_free_list = s.page_free_list) (h : FreeListInv s) : FreeListInv s1 := by
  unfold FreeListInv at *
  rw [h1, h2]; exact h

theorem pp_ref_inc_inv (F : Mmu) (s : State) (pp : Nat) (h : FreeListInv s)
    (hpp : pp ∉ s.page_free_list) : FreeListInv (pp_ref_inc F s pp) := by
  refine ⟨h.1, ?_⟩
  intro i hi
  have hne : i ≠ pp := fun e => hpp (e ▸ hi)
  show (if i = pp then _ else s.pp_ref i) = 0
  rw [if_neg hne]
  exact h.2 i hi

theorem page_alloc_inv (s : State) (h : FreeListInv s) :
    FreeListInv (page_alloc s).2
    ∧ ∀ i, i ∈ (page_alloc s).2.page_free_list → i ∈ s.page_free_list := by
  cases hl : s.page_free_list with
  | nil =>
    rw [page_alloc_none s hl]
    exact ⟨h, fun i hi => hl ▸ hi⟩
  | cons p t =>
    rw [page_alloc_some s p t hl]
    obtain ⟨hn, hz⟩ := h
    rw [hl] at hn hz
    refine ⟨⟨(List.nodup_cons.mp hn).2, fun i hi => hz i (List.mem_cons_of_mem _ hi)⟩, ?_⟩
    intro i hi
    exact List.mem_cons_of_mem _ hi

theorem pgdir_walk_level_inv (F : Mmu) (s : State) (ep ix : Nat) (create : Bool)
    (h : FreeListInv s) :
    FreeListInv (pgdir_walk_level F s ep ix create).state
    ∧ ∀ i, i ∈ (pgdir_walk_level F s ep ix create).state.page_free_list →
        i ∈ s.page_free_list := by
  by_cases hv : validAt F s.mem ep
  · rw [pgdir_walk_level_valid F s ep ix create hv]
    exact ⟨h, fun i hi => hi⟩
  · cases create with
    | false =>
      rw [pgdir_walk_level_false, if_neg hv]
      exact ⟨h, fun i hi => hi⟩
    | true =>
      cases hl : s.page_free_list with
      | nil =>
        rw [pgdir_walk_level_nofree F s ep ix hv hl]
        exact ⟨h, fun i hi => hl ▸ hi⟩
      | cons p t =>
        rw [pgdir_walk_level_create F s ep ix p t hv hl]
        obtain ⟨hn, hz⟩ := h
        rw [hl] at hn hz
        have hpt := (List.nodup_cons.mp hn).1
        refine ⟨?_, fun i hi => List.mem_cons_of_mem _ hi⟩
        apply pp_ref_inc_inv
        · exact ⟨(List.nodup_cons.mp hn).2, fun i hi => hz i (List.mem_cons_of_mem _ hi)⟩
        · exact hpt

theorem pgdir_walk_inv (F : Mmu) (s : State) (pgdir va : Nat) (create : Bool)
    (h : FreeListInv s) :
    FreeListInv (pgdir_walk F s pgdir va create).2
    ∧ ∀ i, i ∈ (pgdir_walk F s pgdir va create).2.page_free_list →
        i ∈ s.page_free_list := by
  rw [pgdir_walk_unfold]
  have h0 := pgdir_walk_level_inv F s (pte0 F pgdir va) (F.PT1X va) create h
  cases hL0 : pgdir_walk_level F s (pte0 F pgdir va) (F.PT1X va) create with
  | nomem s1 => rw [hL0] at h0; exact h0
  | null s1 => rw [hL0] at h0; exact h0
  | next s1 e1 =>
    rw [hL0] at h0
    have h1 := pgdir_walk_level_inv F s1 e1 (F.PT2X va) create h0.1
    dsimp only
    cases hL1 : pgdir_walk_level F s1 e1 (F.PT2X va) create with
    | nomem s2 => rw [hL1] at h1; exact ⟨h1.1, fun i hi => h0.2 i (h1.2 i hi)⟩
    | null s2 => rw [hL1] at h1; exact ⟨h1.1, fun i hi => h0.2 i (h1.2 i hi)⟩
    | next s2 e2 =>
      rw [hL1] at h1
      have h2 := pgdir_walk_level_inv F s2 e2 (F.PT3X va) create h1.1
      dsimp only
      cases hL2 : pgdir_walk_level F s2 e2 (F.PT3X va) create with
      | nomem s3 =>
        rw [hL2] at h2; exact ⟨h2.1, fun i hi => h0.2 i (h1.2 i (h2.2 i hi))⟩
      | null s3 =>
        rw [hL2] at h2; exact ⟨h2.1, fun i hi => h0.2 i (h1.2 i (h2.2 i hi))⟩
      | next s3 e3 =>
        rw [hL2] at h2; exact ⟨h2.1, fun i hi => h0.2 i (h1.2 i (h2.2 i hi))⟩

theorem page_free_inv (s : State) (pp : Nat) (h : FreeListInv s)
    (hpp : pp ∉ s.page_free_list) :
    FreeListInv (page_free s pp)
    ∧ ∀ i, i ∈ (page_free s pp).page_free_list → i = pp ∨ i ∈ s.page_free_list := by
  unfold page_free
  split
  · exact ⟨h, fun i hi => Or.inr hi⟩
  · rename_i hz
    refine ⟨⟨List.nodup_cons.mpr ⟨hpp, h.1⟩, ?_⟩, ?_⟩
    · intro i hi
      rcases List.mem_cons.mp hi with e | e
      · subst e; show s.pp_ref i = 0; omega
      · exact h.2 i e
    · intro i hi
      exact List.mem_cons.mp hi

theorem page_decref_inv (F : Mmu) (s : State) (pp : Nat) (h : FreeListInv s)
    (hpp : pp ∉ s.page_free_list) :
    FreeListInv (page_decref F s pp)
    ∧ ∀ i, i ∈ (page_decref F s pp).page_free_list → i = pp ∨ i ∈ s.page_free_list := by
  have h1 : FreeListInv (pp_ref_dec F s pp) := by
    refine ⟨h.1, ?_⟩
    intro i hi
    have hne : i ≠ pp := fun e => hpp (e ▸ hi)
    show (if i = pp then _ else s.pp_ref i) = 0
    rw [if_neg hne]
    exact h.2 i hi
  unfold page_decref
  dsimp only
  split
  · exact page_free_inv (pp_ref_dec F s pp) pp h1 hpp
  · exact ⟨h1, fun i hi => Or.inr hi⟩

theorem page_remove_inv (F : Mmu) (s : State) (pgdir va : Nat) (h : FreeListInv s)
    (hg : ∀ old pte, (page_lookup F s pgdir va).1 = some (old, pte) →
      old ∉ s.page_free_list) :
    FreeListInv (page_remove F s pgdir va)
    ∧ ∀ i, i ∈ (page_remove F s pgdir va).page_free_list →
        i ∈ s.page_free_list ∨ ∃ pte, (page_lookup F s pgdir va).1 = some (i, pte) := by
  unfold page_remove
  have hs := page_lookup_state F s pgdir va
  cases hr : page_lookup F s pgdir va with
  | mk r1 s1 =>
    rw [hr] at hs hg
    simp only at hs hg
    subst hs
    cases r1 with
    | none => exact ⟨h, fun i hi => Or.inl hi⟩
    | some q =>
      obtain ⟨old, pte⟩ := q
      have hd := page_decref_inv F s1 old h (hg old pte rfl)
      refine ⟨FreeListInv_of_eq _ _ rfl rfl hd.1, ?_⟩
      intro i hi
      rcases hd.2 i hi with e | e
      · exact Or.inr ⟨pte, by rw [e]⟩
      · exact Or.inl e

/-- The function `page_insert` in terms of the path of `va`. -/
theorem page_insert_unfold (F : Mmu) (s : State) (pgdir pp va perm : Nat) :
    page_insert F s pgdir pp va perm
      = if (pathValid F s.mem pgdir va ∧ pte3 F s.mem pgdir va ≠ 0
              ∧ validAt F s.mem (pte3 F s.mem pgdir va))
            ∧ pa2page (load64 s.mem (pte3 F s.mem pgdir va)) = pp then
          (some (), store_pte (tlb_invalidate s va) (pte3 F s.mem pgdir va)
            (page2pa pp ||| (perm ||| F.PBE_V) % 2 ^ 32))
        else
          match pgdir_walk F
              (tlb_invalidate
                (if pathValid F s.mem pgdir va ∧ pte3 F s.mem pgdir va ≠ 0
                    ∧ validAt F s.mem (pte3 F s.mem pgdir va)
                  then page_remove F s pgdir va else s) va) pgdir va true with
          | (none, s4) => (none, s4)
          | (some pgtable_entry, s4) =>
            (some (), pp_ref_inc F
              (store_pte s4 pgtable_entry (page2pa pp ||| (perm ||| F.PBE_V) % 2 ^ 32)) pp) := by
  unfold page_insert validAt
  simp only [pgdir_walk_false, Option.getD_some]
  by_cases hp : pathValid F s.mem pgdir va
  · simp only [if_pos hp, true_and]
    by_cases h3 : pte3 F s.mem pgdir va = 0
    · simp [hp, h3]
    · by_cases hv : load64 s.mem (pte3 F s.mem pgdir va) &&& F.PTE_V = 0
      · simp [hp, h3, hv]
      · simp [hp, h3, hv]
  · simp [hp]

theorem page_insert_inv (F : Mmu) (s : State) (pgdir pp va perm : Nat) (h : FreeListInv s)
    (hpp : pp ∉ s.page_free_list)
    (hg : ∀ old pte, (page_lookup F s pgdir va).1 = some (old, pte) →
      old ∉ s.page_free_list) :
    FreeListInv (page_insert F s pgdir pp va perm).2 := by
  rw [page_insert_unfold]
  split
  · exact FreeListInv_of_eq _ _ rfl rfl h
  · rename_i hne
    -- the state after the optional removal
    have h2 : FreeListInv (if pathValid F s.mem pgdir va ∧ pte3 F s.mem pgdir va ≠ 0
          ∧ validAt F s.mem (pte3 F s.mem pgdir va)
        then page_remove F s pgdir va else s)
        ∧ pp ∉ (if pathValid F s.mem pgdir va ∧ pte3 F s.mem pgdir va ≠ 0
          ∧ validAt F s.mem (pte3 F s.mem pgdir va)
        then page_remove F s pgdir va else s).page_free_list := by
      split
      · rename_i hex
        have hr := page_remove_inv F s pgdir va h hg
        refine ⟨hr.1, ?_⟩
        intro hin
        rcases hr.2 pp hin with e | ⟨pte, e⟩
        · exact hpp e
        · rw [page_lookup_eq] at e
          split at e
          · simp only [Option.some.injEq, Prod.mk.injEq] at e
            exact hne ⟨hex, e.1⟩
          · exact absurd e (by simp)
      · exact ⟨h, hpp⟩
    generalize (if pathValid F s.mem pgdir va ∧ pte3 F s.mem pgdir va ≠ 0
          ∧ validAt F s.mem (pte3 F s.mem pgdir va)
        then page_remove F s pgdir va else s) = s2 at h2
    have h3 : FreeListInv (tlb_invalidate s2 va) := FreeListInv_of_eq _ _ rfl rfl h2.1
    have hw := pgdir_walk_inv F (tlb_invalidate s2 va) pgdir va true h3
    cases hr : pgdir_walk F (tlb_invalidate s2 va) pgdir va true with
    | mk r1 s4 =>
      rw [hr] at hw
      cases r1 with
      | none => exact hw.1
      | some e =>
        apply pp_ref_inc_inv
        · exact FreeListInv_of_eq _ _ rfl rfl hw.1
        · intro hin
          exact h2.2 (hw.2 pp hin)

/-! ### Entries on a path -/

theorem PTE_ADDR_aligned (x : Nat) : PTE_ADDR x % 8 = 0 := by
  unfold PTE_ADDR; omega

theorem pte0_aligned (F : Mmu) (pgdir va : Nat) (h : pgdir % 8 = 0) :
    pte0 F pgdir va % 8 = 0 := by
  unfold pte0; omega

theorem pte1_aligned (F : Mmu) (m : Mem) (pgdir va : Nat) : pte1 F m pgdir va % 8 = 0 := by
  have := PTE_ADDR_aligned (load64 m (pte0 F pgdir va))
  unfold pte1; omega

theorem pte2_aligned (F : Mmu) (m : Mem) (pgdir va : Nat) : pte2 F m pgdir va % 8 = 0 := by
  have := PTE_ADDR_aligned (load64 m (pte1 F m pgdir va))
  unfold pte2; omega

theorem pte3_aligned (F : Mmu) (m : Mem) (pgdir va : Nat) : pte3 F m pgdir va % 8 = 0 := by
  have := PTE_ADDR_aligned (load64 m (pte2 F m pgdir va))
  unfold pte3; omega

theorem load64_store64_ne (m : Mem) (a v b : Nat) (ha : a % 8 = 0) (hb : b % 8 = 0)
    (h : a ≠ b) : load64 (store64 m a v) b = load64 m b :=
  load64_store64_disj m a v b (by omega)

theorem pte1_congr (F : Mmu) (m m1 : Mem) (pgdir va : Nat)
    (h0 : load64 m1 (pte0 F pgdir va) = load64 m (pte0 F pgdir va)) :
    pte1 F m1 pgdir va = pte1 F m pgdir va := by
  show PTE_ADDR (load64 m1 (pte0 F pgdir va)) + _ = PTE_ADDR (load64 m (pte0 F pgdir va)) + _
  rw [h0]

theorem pte2_congr (F : Mmu) (m m1 : Mem) (pgdir va : Nat)
    (e1 : pte1 F m1 pgdir va = pte1 F m pgdir va)
    (h1 : load64 m1 (pte1 F m pgdir va) = load64 m (pte1 F m pgdir va)) :
    pte2 F m1 pgdir va = pte2 F m pgdir va := by
  show PTE_ADDR (load64 m1 (pte1 F m1 pgdir va)) + _
    = PTE_ADDR (load64 m (pte1 F m pgdir va)) + _
  rw [e1, h1]

theorem pte3_congr (F : Mmu) (m m1 : Mem) (pgdir va : Nat)
    (e2 : pte2 F m1 pgdir va = pte2 F m pgdir va)
    (h2 : load64 m1 (pte2 F m pgdir va) = load64 m (pte2 F m pgdir va)) :
    pte3 F m1 pgdir va = pte3 F m pgdir va := by
  show PTE_ADDR (load64 m1 (pte2 F m1 pgdir va)) + _
    = PTE_ADDR (load64 m (pte2 F m pgdir va)) + _
  rw [e2, h2]

/-- Two memories that agree on the three intermediate entries of a path have
the same path. -/
theorem path_congr (F : Mmu) (m m1 : Mem) (pgdir va : Nat)
    (h0 : load64 m1 (pte0 F pgdir va) = load64 m (pte0 F pgdir va))
    (h1 : load64 m1 (pte1 F m pgdir va) = load64 m (pte1 F m pgdir va))
    (h2 : load64 m1 (pte2 F m pgdir va) = load64 m (pte2 F m pgdir va)) :
    pte1 F m1 pgdir va = pte1 F m pgdir va
    ∧ pte2 F m1 pgdir va = pte2 F m pgdir va
    ∧ pte3 F m1 pgdir va = pte3 F m pgdir va
    ∧ (pathValid F m1 pgdir va ↔ pathValid F m pgdir va) := by
  have e1 := pte1_congr F m m1 pgdir va h0
  have e2 := pte2_congr F m m1 pgdir va e1 h1
  have e3 := pte3_congr F m m1 pgdir va e2 h2
  refine ⟨e1, e2, e3, ?_⟩
  unfold pathValid validAt
  rw [e1, e2, h0, h1, h2]

/-- Two states whose memories agree on the four entries of a path give the
same `page_lookup`. -/
theorem page_lookup_congr (F : Mmu) (s s1 : State) (pgdir va : Nat)
    (h0 : load64 s1.mem (pte0 F pgdir va) = load64 s.mem (pte0 F pgdir va))
    (h1 : load64 s1.mem (pte1 F s.mem pgdir va) = load64 s.mem (pte1 F s.mem pgdir va))
    (h2 : load64 s1.mem (pte2 F s.mem pgdir va) = load64 s.mem (pte2 F s.mem pgdir va))
    (h3 : load64 s1.mem (pte3 F s.mem pgdir va) = load64 s.mem (pte3 F s.mem pgdir va)) :
    (page_lookup F s1 pgdir va).1 = (page_lookup F s pgdir va).1 := by
  obtain ⟨_, _, e3, ev⟩ := path_congr F s.mem s1.mem pgdir va h0 h1 h2
  rw [page_lookup_eq, page_lookup_eq, e3, h3]
  by_cases hp : pathValid F s.mem pgdir va
  · simp [hp, ev.mpr hp]
  · have : ¬ pathValid F s1.mem pgdir va := fun h => hp (ev.mp h)
    simp [hp, this]

/-- The function `page_decref` on a frame whose count is at least 1. -/
theorem page_decref_eq (F : Mmu) (s : State) (pp : Nat) (h : 1 ≤ s.pp_ref pp) :
    page_decref F s pp
      = { s with
          pp_ref := fun i => if i = pp then s.pp_ref pp - 1 else s.pp_ref i
          page_free_list :=
            if s.pp_ref pp = 1 then pp :: s.page_free_list else s.page_free_list } := by
  have hne : s.pp_ref pp ≠ 0 := by omega
  unfold page_decref pp_ref_dec page_free LIST_INSERT_HEAD
  by_cases h1 : s.pp_ref pp = 1
  · simp [h1]
  · have h2 : ¬ s.pp_ref pp - 1 = 0 := by omega
    have h3 : 0 < s.pp_ref pp - 1 := by omega
    simp [h1, hne, h2, h3]

/-- The function `page_remove` on a mapped address. -/
theorem page_remove_eq (F : Mmu) (s : State) (pgdir va f pte : Nat)
    (h : (page_lookup F s pgdir va).1 = some (f, pte)) :
    page_remove F s pgdir va = tlb_invalidate (store_pte (page_decref F s f) pte 0) va := by
  unfold page_remove
  have hs := page_lookup_state F s pgdir va
  cases hr : page_lookup F s pgdir va with
  | mk r1 s1 =>
    rw [hr] at h hs
    simp only at h hs
    subst h
    subst hs
    rfl

/-- What a successful `page_lookup` says about the path. -/
theorem page_lookup_some (F : Mmu) (s : State) (pgdir va f pte : Nat)
    (h : (page_lookup F s pgdir va).1 = some (f, pte)) :
    pathValid F s.mem pgdir va ∧ pte = pte3 F s.mem pgdir va ∧ pte ≠ 0
    ∧ load64 s.mem pte &&& F.PBE_V ≠ 0 ∧ f = pa2page (load64 s.mem pte) := by
  rw [page_lookup_eq] at h
  split at h
  · rename_i hc
    simp only [Option.some.injEq, Prod.mk.injEq] at h
    obtain ⟨h1, h2⟩ := h
    subst h2
    exact ⟨hc.1, rfl, hc.2.1, hc.2.2, h1.symm⟩
  · exact absurd h (by simp)

theorem lor_land_self (x b : Nat) : (x ||| b) &&& b = b := by
  apply Nat.eq_of_testBit_eq
  intro i
  rw [Nat.testBit_and, Nat.testBit_or]
  cases x.testBit i <;> cases b.testBit i <;> rfl

theorem validAt_store_zero_ne (F : Mmu) (m : Mem) (a x : Nat)
    (h : validAt F (store64 m a 0) x) : x ≠ a := by
  intro e
  subst e
  unfold validAt at h
  rw [load64_store64_same] at h
  simp at h

/-- After a leaf entry is cleared, `page_lookup` finds no mapping at the
address it belonged to. -/
theorem page_lookup_cleared (F : Mmu) (s s1 : State) (pgdir va : Nat)
    (hal : pgdir % 8 = 0)
    (hm : s1.mem = store64 s.mem (pte3 F s.mem pgdir va) 0) :
    (page_lookup F s1 pgdir va).1 = none := by
  have aL := pte3_aligned F s.mem pgdir va
  rw [page_lookup_eq, if_neg]
  rintro ⟨⟨v0, v1, v2⟩, _, hv⟩
  rw [hm] at v0 v1 v2 hv
  have n0 := validAt_store_zero_ne F _ _ _ v0
  have l0 := load64_store64_ne s.mem _ 0 _ aL (pte0_aligned F pgdir va hal) (Ne.symm n0)
  have e1 := pte1_congr F s.mem _ pgdir va l0
  rw [e1] at v1
  have n1 := validAt_store_zero_ne F _ _ _ v1
  have l1 := load64_store64_ne s.mem _ 0 _ aL (pte1_aligned F s.mem pgdir va) (Ne.symm n1)
  have e2 := pte2_congr F s.mem _ pgdir va e1 l1
  rw [e2] at v2
  have n2 := validAt_store_zero_ne F _ _ _ v2
  have l2 := load64_store64_ne s.mem _ 0 _ aL (pte2_aligned F s.mem pgdir va) (Ne.symm n2)
  have e3 := pte3_congr F s.mem _ pgdir va e2 l2
  rw [e3, load64_store64_same] at hv
  simp at hv

/-- C8 (counterexample). Address 1 lies in the page of address 0: it is
another address, `page_lookup` finds frame 5 for it before `page_remove` of
address 0 and no mapping afterwards. -/
theorem page_remove_same_page_lookup_changes :
    (page_lookup armv8 (mappedState []) 0x1000 0).1 = some (5, 0x4000)
    ∧ (mappedState []).pp_ref 5 = 1
    ∧ (page_lookup armv8 (mappedState []) 0x1000 1).1 = some (5, 0x4000)
    ∧ (page_lookup armv8 (page_remove armv8 (mappedState []) 0x1000 0) 0x1000 1).1 = none := by
  decide

/-- C8 (amended). For a root table at an aligned address and an address `va`
that `page_lookup` maps to frame `f` through the leaf entry at `pte`, with
`f->pp_ref = n >= 1`: `page_remove` sets that entry to 0 and changes no other
byte of memory, leaves `f->pp_ref == n - 1` and every other count unchanged,
pushes `f` on the head of the free list exactly when `n == 1`, after which
`page_lookup` of `va` reports no mapping, and `page_lookup` of every address
whose four path entries are other entries than the cleared one returns what it
returned before. -/
theorem page_remove_mapped (F : Mmu) (s : State) (pgdir va f pte n : Nat)
    (hal : pgdir % 8 = 0)
    (hlk : (page_lookup F s pgdir va).1 = some (f, pte))
    (hn : s.pp_ref f = n) (hn1 : 1 ≤ n) :
    load64 (page_remove F s pgdir va).mem pte = 0
    ∧ (∀ a, (a < pte ∨ pte + 8 ≤ a) → (page_remove F s pgdir va).mem a = s.mem a)
    ∧ (page_remove F s pgdir va).pp_ref f = n - 1
    ∧ (∀ i, i ≠ f → (page_remove F s pgdir va).pp_ref i = s.pp_ref i)
    ∧ (page_remove F s pgdir va).page_free_list
        = (if n = 1 then f :: s.page_free_list else s.page_free_list)
    ∧ (page_lookup F (page_remove F s pgdir va) pgdir va).1 = none
    ∧ ∀ va1, pte ≠ pte0 F pgdir va1 → pte ≠ pte1 F s.mem pgdir va1 →
        pte ≠ pte2 F s.mem pgdir va1 → pte ≠ pte3 F s.mem pgdir va1 →
        (page_lookup F (page_remove F s pgdir va) pgdir va1).1
          = (page_lookup F s pgdir va1).1 := by
  obtain ⟨hp, hL, hnz, hvb, hf⟩ := page_lookup_some F s pgdir va f pte hlk
  have aL : pte % 8 = 0 := hL ▸ pte3_aligned F s.mem pgdir va
  rw [page_remove_eq F s pgdir va f pte hlk, page_decref_eq F s f (by omega)]
  refine ⟨?_, ?_, ?_, ?_, ?_, ?_, ?_⟩
  · show load64 (store64 s.mem pte 0) pte = 0
    rw [load64_store64_same]
    rfl
  · intro a ha
    exact store64_apply_out _ _ _ _ ha
  · show (if f = f then s.pp_ref f - 1 else s.pp_ref f) = n - 1
    rw [if_pos rfl, hn]
  · intro i hi
    show (if i = f then s.pp_ref f - 1 else s.pp_ref i) = s.pp_ref i
    rw [if_neg hi]
  · show (if s.pp_ref f = 1 then f :: s.page_free_list else s.page_free_list) = _
    rw [hn]
  · apply page_lookup_cleared F s _ pgdir va hal
    show store64 s.mem pte 0 = _
    rw [hL]
  · intro va1 d0 d1 d2 d3
    apply page_lookup_congr
    · exact load64_store64_ne s.mem pte 0 _ aL (pte0_aligned F pgdir va1 hal) d0
    · exact load64_store64_ne s.mem pte 0 _ aL (pte1_aligned F s.mem pgdir va1) d1
    · exact load64_store64_ne s.mem pte 0 _ aL (pte2_aligned F s.mem pgdir va1) d2
    · exact load64_store64_ne s.mem pte 0 _ aL (pte3_aligned F s.mem pgdir va1) d3

theorem page_remove_mapped_witness :
    (0x1000 : Nat) % 8 = 0
    ∧ (page_lookup armv8 (mappedState []) 0x1000 0).1 = some (5, 0x4000)
    ∧ (mappedState []).pp_ref 5 = 1
    ∧ load64 (page_remove armv8 (mappedState []) 0x1000 0).mem 0x4000 = 0
    ∧ (page_remove armv8 (mappedState []) 0x1000 0).pp_ref 5 = 1 - 1
    ∧ (page_remove armv8 (mappedState []) 0x1000 0).page_free_list
        = (if 1 = 1 then 5 :: (mappedState []).page_free_list
            else (mappedState []).page_free_list)
    ∧ (page_lookup armv8 (page_remove armv8 (mappedState []) 0x1000 0) 0x1000 0).1 = none :=
  have h := page_remove_mapped armv8 (mappedState []) 0x1000 0 5 0x4000 1 (by decide)
    (by decide) (by decide) (by decide)
  ⟨by decide, by decide, by decide, h.1, h.2.2.1, h.2.2.2.2.1, h.2.2.2.2.2.1⟩

/-- C5 (counterexample). A permission with a bit above the low 12 bits: frame 5
is mapped at address 0 with `pp_ref == 1`, frame 6 is inserted there with
`perm = 0x1000`, and `page_lookup` then returns frame 7. -/
theorem page_insert_displace_high_perm :
    (page_lookup armv8 (mappedState []) 0x1000 0).1 = some (5, 0x4000)
    ∧ (mappedState []).pp_ref 5 = 1
    ∧ 6 ∉ (mappedState []).page_free_list
    ∧ (page_insert armv8 (mappedState []) 0x1000 6 0 0x1000).1 = some ()
    ∧ (page_lookup armv8 (page_insert armv8 (mappedState []) 0x1000 6 0 0x1000).2
        0x1000 0).1 = some (7, 0x4000) := by
  decide

set_option maxRecDepth 1000000 in
/-- Why the leaf entry of a displaced mapping must be none of the intermediate
entries of its path: in a root table that names itself, `page_insert` of frame
6 at address 0 clears the root entry, frees frame 1, takes it back from the
free list for a new table and leaves its count at 1; `page_lookup` then finds
no mapping. -/
theorem page_insert_displace_self_reference :
    (page_lookup armv8 (selfRefState 1) 0x1000 0).1 = some (1, 0x1000)
    ∧ (page_insert armv8 (selfRefState 1) 0x1000 6 0 0).1 = some ()
    ∧ (page_insert armv8 (selfRefState 1) 0x1000 6 0 0).2.pp_ref 1 = 1
    ∧ (page_lookup armv8 (page_insert armv8 (selfRefState 1) 0x1000 6 0 0).2 0x1000 0).1
        = none := by
  decide

/-- The function `page_insert` when it displaces a mapping whose leaf entry
is none of the intermediate entries of the path. -/
theorem page_insert_displace_eq (F : Mmu) (s : State) (pgdir pp va perm old pte : Nat)
    (hal : pgdir % 8 = 0)
    (hlk : (page_lookup F s pgdir va).1 = some (old, pte))
    (hv : validAt F s.mem pte)
    (hne : pp ≠ old)
    (d0 : pte ≠ pte0 F pgdir va) (d1 : pte ≠ pte1 F s.mem pgdir va)
    (d2 : pte ≠ pte2 F s.mem pgdir va) :
    page_insert F s pgdir pp va perm
      = (some (), pp_ref_inc F
          (store_pte (tlb_invalidate (tlb_invalidate (store_pte (page_decref F s old) pte 0) va) va)
            pte (page2pa pp ||| (perm ||| F.PBE_V) % 2 ^ 32)) pp) := by
  obtain ⟨hp, hL, hnz, hvb, hf⟩ := page_lookup_some F s pgdir va old pte hlk
  have aL : pte % 8 = 0 := hL ▸ pte3_aligned F s.mem pgdir va
  have hex : pathValid F s.mem pgdir va ∧ pte3 F s.mem pgdir va ≠ 0
      ∧ validAt F s.mem (pte3 F s.mem pgdir va) := ⟨hp, hL ▸ hnz, hL ▸ hv⟩
  have hdiff : ¬ ((pathValid F s.mem pgdir va ∧ pte3 F s.mem pgdir va ≠ 0
      ∧ validAt F s.mem (pte3 F s.mem pgdir va))
      ∧ pa2page (load64 s.mem (pte3 F s.mem pgdir va)) = pp) := by
    rintro ⟨_, e⟩
    rw [← hL, ← hf] at e
    exact hne e.symm
  rw [page_insert_unfold, if_neg hdiff, if_pos hex, page_remove_eq F s pgdir va old pte hlk]
  have hmem : (tlb_invalidate (tlb_invalidate (store_pte (page_decref F s old) pte 0) va) va).mem
      = store64 s.mem pte 0 := by
    show store64 (page_decref F s old).mem pte 0 = _
    unfold page_decref page_free pp_ref_dec
    dsimp only
    split_ifs <;> rfl
  have hc := path_congr F s.mem (store64 s.mem pte 0) pgdir va
    (load64_store64_ne s.mem pte 0 _ aL (pte0_aligned F pgdir va hal) d0)
    (load64_store64_ne s.mem pte 0 _ aL (pte1_aligned F s.mem pgdir va) d1)
    (load64_store64_ne s.mem pte 0 _ aL (pte2_aligned F s.mem pgdir va) d2)
  have hp2 : pathValid F
      (tlb_invalidate (tlb_invalidate (store_pte (page_decref F s old) pte 0) va) va).mem
      pgdir va := by
    rw [hmem]; exact hc.2.2.2.mpr hp
  rw [pgdir_walk_pathValid F _ pgdir va true hp2, hmem, hc.2.2.1, ← hL]

/-- C5 (amended). For a root table at an aligned address and an address `va`
whose leaf entry passes the valid tests of the walker and of `page_lookup`,
is none of the three intermediate entries of the path and decodes to a frame
`old` with `old->pp_ref = n >= 1`, for every frame `pp != old` (a frame number
below `2^52`, its count below the maximum of the field) and every permission
in the low 12 bits: `page_insert` returns 0 without taking a frame from the
free list, leaves `old->pp_ref == n - 1`, puts `old` at the head of the free
list exactly when `n == 1` (the next `page_alloc` then returns `old`), leaves
`pp->pp_ref` increased by 1, and `page_lookup` of `va` then returns `pp`. -/
theorem page_insert_displace (F : Mmu) (hF : F.WF) (s : State)
    (pgdir pp va perm old pte n : Nat)
    (hal : pgdir % 8 = 0)
    (hlk : (page_lookup F s pgdir va).1 = some (old, pte))
    (hv : validAt F s.mem pte)
    (d0 : pte ≠ pte0 F pgdir va) (d1 : pte ≠ pte1 F s.mem pgdir va)
    (d2 : pte ≠ pte2 F s.mem pgdir va)
    (hn : s.pp_ref old = n) (hn1 : 1 ≤ n)
    (hne : pp ≠ old) (hpp : pp < 2 ^ 52) (hmax : s.pp_ref pp + 1 ≠ F.REF_MOD)
    (hperm : perm < 4096) :
    (page_insert F s pgdir pp va perm).1 = some ()
    ∧ (page_insert F s pgdir pp va perm).2.page_free_list
        = (if n = 1 then old :: s.page_free_list else s.page_free_list)
    ∧ (page_insert F s pgdir pp va perm).2.pp_ref old = n - 1
    ∧ (n = 1 → (page_alloc (page_insert F s pgdir pp va perm).2).1 = some old)
    ∧ (page_insert F s pgdir pp va perm).2.pp_ref pp = s.pp_ref pp + 1
    ∧ (page_lookup F (page_insert F s pgdir pp va perm).2 pgdir va).1 = some (pp, pte) := by
  obtain ⟨hp, hL, hnz, hvb, hf⟩ := page_lookup_some F s pgdir va old pte hlk
  have aL : pte % 8 = 0 := hL ▸ pte3_aligned F s.mem pgdir va
  rw [page_insert_displace_eq F s pgdir pp va perm old pte hal hlk hv hne d0 d1 d2,
    page_decref_eq F s old (by omega)]
  have hlist : (pp_ref_inc F
      (store_pte (tlb_invalidate (tlb_invalidate (store_pte
        { s with
          pp_ref := fun i => if i = old then s.pp_ref old - 1 else s.pp_ref i
          page_free_list :=
            if s.pp_ref old = 1 then old :: s.page_free_list else s.page_free_list }
        pte 0) va) va)
        pte (page2pa pp ||| (perm ||| F.PBE_V) % 2 ^ 32)) pp).page_free_list
      = (if n = 1 then old :: s.page_free_list else s.page_free_list) := by
    show (if s.pp_ref old = 1 then old :: s.page_free_list else s.page_free_list) = _
    rw [hn]
  refine ⟨rfl, hlist, ?_, ?_, ?_, ?_⟩
  · show (if old = pp then _ else (if old = old then s.pp_ref old - 1 else s.pp_ref old)) = n - 1
    rw [if_neg (Ne.symm hne), if_pos rfl, hn]
  · intro h1
    rw [page_alloc_some _ old s.page_free_list (by rw [hlist, if_pos h1])]
  · show (if pp = pp then
        (if (if pp = old then s.pp_ref old - 1 else s.pp_ref pp) + 1 = F.REF_MOD then 0
          else (if pp = old then s.pp_ref old - 1 else s.pp_ref pp) + 1)
        else _) = s.pp_ref pp + 1
    rw [if_pos rfl, if_neg hne, if_neg hmax]
  · have hmem : (pp_ref_inc F
        (store_pte (tlb_invalidate (tlb_invalidate (store_pte
          { s with
            pp_ref := fun i => if i = old then s.pp_ref old - 1 else s.pp_ref i
            page_free_list :=
              if s.pp_ref old = 1 then old :: s.page_free_list else s.page_free_list }
          pte 0) va) va)
          pte (page2pa pp ||| (perm ||| F.PBE_V) % 2 ^ 32)) pp).mem
        = store64 (store64 s.mem pte 0) pte (page2pa pp ||| (perm ||| F.PBE_V) % 2 ^ 32) := rfl
    have ld : ∀ b, b % 8 = 0 → pte ≠ b →
        load64 (store64 (store64 s.mem pte 0) pte
          (page2pa pp ||| (perm ||| F.PBE_V) % 2 ^ 32)) b = load64 s.mem b := by
      intro b hb hd
      rw [load64_store64_ne _ pte _ b aL hb hd, load64_store64_ne _ pte _ b aL hb hd]
    have hc := path_congr F s.mem _ pgdir va
      (ld _ (pte0_aligned F pgdir va hal) d0)
      (ld _ (pte1_aligned F s.mem pgdir va) d1)
      (ld _ (pte2_aligned F s.mem pgdir va) d2)
    obtain ⟨lv1, lv2⟩ := leaf_value F hF pp perm hpp hperm
    have hfl : perm ||| F.PBE_V < 4096 := lor_lt_4096 _ _ hperm hF.PBE_V_lt
    rw [page_lookup_eq, hmem, hc.2.2.1, ← hL, load64_store64_same, lv1]
    have hvalid : (pp * 4096 + (perm ||| F.PBE_V)) &&& F.PBE_V ≠ 0 := by
      rw [← lv2, lor_land_self]
      have := hF.PBE_V_pos
      omega
    have hdec : pa2page (pp * 4096 + (perm ||| F.PBE_V)) = pp := by
      unfold pa2page PPN; omega
    rw [if_pos ⟨hc.2.2.2.mpr hp, hnz, hvalid⟩, hdec]

theorem page_insert_displace_witness :
    (page_lookup armv8 (mappedState []) 0x1000 0).1 = some (5, 0x4000)
    ∧ validAt armv8 (mappedState []).mem 0x4000
    ∧ (mappedState []).pp_ref 5 = 1
    ∧ (page_insert armv8 (mappedState []) 0x1000 6 0 0x40).1 = some ()
    ∧ (page_insert armv8 (mappedState []) 0x1000 6 0 0x40).2.page_free_list
        = (if 1 = 1 then 5 :: (mappedState []).page_free_list
            else (mappedState []).page_free_list)
    ∧ (page_insert armv8 (mappedState []) 0x1000 6 0 0x40).2.pp_ref 5 = 1 - 1
    ∧ (1 = 1 → (page_alloc (page_insert armv8 (mappedState []) 0x1000 6 0 0x40).2).1 = some 5)
    ∧ (page_insert armv8 (mappedState []) 0x1000 6 0 0x40).2.pp_ref 6
        = (mappedState []).pp_ref 6 + 1
    ∧ (page_lookup armv8 (page_insert armv8 (mappedState []) 0x1000 6 0 0x40).2 0x1000 0).1
        = some (6, 0x4000) :=
  ⟨by decide, by decide, by decide,
    page_insert_displace armv8 armv8_wf (mappedState []) 0x1000 6 0 0x40 5 0x4000 1
      (by decide) (by decide) (by decide) (by decide) (by decide) (by decide) (by decide)
      (by decide) (by decide) (by decide) (by decide) (by decide)⟩

/-! ### Running out of memory in the walker -/

theorem lor_lor_land (x v r : Nat) : (x ||| v ||| r) &&& v = v := by
  apply Nat.eq_of_testBit_eq
  intro i
  rw [Nat.testBit_and, Nat.testBit_or, Nat.testBit_or]
  cases x.testBit i <;> cases v.testBit i <;> cases r.testBit i <;> rfl

/-- The entry the walker writes for a new table in frame `A`: it is valid and
names the frame. -/
theorem table_entry (F : Mmu) (hF : F.WF) (A : Nat) (hA : A < 2 ^ 52) :
    ((page2pa A ||| F.PTE_V ||| F.PTE_R) % 2 ^ 64) &&& F.PTE_V ≠ 0
    ∧ PTE_ADDR ((page2pa A ||| F.PTE_V ||| F.PTE_R) % 2 ^ 64) = page2pa A := by
  have hvr : F.PTE_V ||| F.PTE_R < 4096 := lor_lt_4096 _ _ hF.PTE_V_lt hF.PTE_R_lt
  have e : page2pa A ||| F.PTE_V ||| F.PTE_R = A * 4096 + (F.PTE_V ||| F.PTE_R) := by
    rw [Nat.lor_assoc, page2pa_lor _ _ hvr]
  have hm : (page2pa A ||| F.PTE_V ||| F.PTE_R) % 2 ^ 64 = page2pa A ||| F.PTE_V ||| F.PTE_R := by
    apply Nat.mod_eq_of_lt
    rw [e]; omega
  refine ⟨?_, ?_⟩
  · rw [hm, lor_lor_land]
    have := hF.PTE_V_pos
    omega
  · rw [hm, e]
    unfold PTE_ADDR page2pa
    omega

/-- Memory after a level created a table in frame `A` through the entry at
`ep`: the entry holds the value written. -/
theorem load_created_same (m : Mem) (A ep v : Nat) :
    load64 (store64 (bzero m (page2pa A) BY2PG) ep v) ep = v % 2 ^ 64 :=
  load64_store64_same _ _ _

/-- Memory after a level created a table in frame `A`: another entry in the
frame reads 0. -/
theorem load_created_in (m : Mem) (A ep v b : Nat) (hb : b % 8 = 0) (hep : ep % 8 = 0)
    (hin : inFrame A b) (hne : ep ≠ b) :
    load64 (store64 (bzero m (page2pa A) BY2PG) ep v) b = 0 := by
  rw [load64_store64_ne _ _ _ _ hep hb hne]
  apply load64_bzero_in
  unfold inFrame page2pa BY2PG at hin
  unfold page2pa BY2PG
  omega

/-- Memory after a level created a table in frame `A`: an entry outside the
frame other than the one written is as before. -/
theorem load_created_out (m : Mem) (A ep v b : Nat) (hb : b % 8 = 0) (hep : ep % 8 = 0)
    (hout : ¬ inFrame A b) (hne : ep ≠ b) :
    load64 (store64 (bzero m (page2pa A) BY2PG) ep v) b = load64 m b := by
  rw [load64_store64_ne _ _ _ _ hep hb hne]
  apply load64_bzero_out
  unfold inFrame page2pa BY2PG at hout
  unfold page2pa BY2PG
  omega

theorem apply_created_out (m : Mem) (A ep v a : Nat)
    (hout : ¬ inFrame A a) (hne : a < ep ∨ ep + 8 ≤ a) :
    store64 (bzero m (page2pa A) BY2PG) ep v a = m a := by
  rw [store64_apply_out _ _ _ _ hne, bzero_apply, if_neg]
  exact hout

theorem inFrame_base (A : Nat) : inFrame A (page2pa A) := by
  unfold inFrame BY2PG; omega

theorem inFrame_index (A ix : Nat) (h : ix < 512) : inFrame A (page2pa A + 8 * ix) := by
  unfold inFrame BY2PG; omega

theorem inFrame_unique (A B a : Nat) (hA : inFrame A a) (hB : inFrame B a) : A = B := by
  unfold inFrame page2pa BY2PG at hA hB
  omega

theorem page2pa_aligned (A : Nat) : page2pa A % 8 = 0 := by
  unfold page2pa; omega

theorem not_validAt_of_load_zero (F : Mmu) (m : Mem) (ep : Nat) (h : load64 m ep = 0) :
    ¬ validAt F m ep := by
  unfold validAt
  rw [h]
  simp

theorem pgdir_walk_level_create_ex (F : Mmu) (s : State) (ep ix A : Nat) (t : List Nat)
    (h : ¬ validAt F s.mem ep) (hl : s.page_free_list = A :: t) :
    ∃ s1, pgdir_walk_level F s ep ix true = Level.next s1 (page2pa A)
      ∧ s1.mem = store64 (bzero s.mem (page2pa A) BY2PG) ep (page2pa A ||| F.PTE_V ||| F.PTE_R)
      ∧ s1.page_free_list = t
      ∧ ∀ i, i ≠ A → s1.pp_ref i = s.pp_ref i := by
  refine ⟨_, pgdir_walk_level_create F s ep ix A t h hl, rfl, rfl, ?_⟩
  intro i hi
  show (if i = A then _ else s.pp_ref i) = s.pp_ref i
  rw [if_neg hi]

theorem pte0_mem_pathEntries (F : Mmu) (m : Mem) (pgdir va : Nat) :
    pte0 F pgdir va ∈ pathEntries F m pgdir va := by
  unfold pathEntries
  split_ifs <;> simp

theorem pte1_mem_pathEntries (F : Mmu) (m : Mem) (pgdir va : Nat)
    (h0 : validAt F m (pte0 F pgdir va)) :
    pte1 F m pgdir va ∈ pathEntries F m pgdir va := by
  unfold pathEntries
  rw [if_pos h0]
  split_ifs <;> simp

theorem list_nil_or_cons (l : List Nat) : l = [] ∨ ∃ a t, l = a :: t := by
  cases l with
  | nil => exact Or.inl rfl
  | cons a t => exact Or.inr ⟨a, t, rfl⟩

/-- When the walker with `create` returns `-E_NO_MEM`: no count of a frame
that was not on the free list changes, memory changes only inside frames taken
from the free list and in the first missing entry of the path, the path of
`va` is still incomplete and the free list is used up. The free list has no
duplicates and holds frame numbers below `2^52`, and none of its frames holds
an entry the walker reads. -/
theorem pgdir_walk_nomem (F : Mmu) (hF : F.WF) (s : State) (pgdir va : Nat)
    (hal : pgdir % 8 = 0)
    (hnd : s.page_free_list.Nodup)
    (hfr : ∀ f, f ∈ s.page_free_list → f < 2 ^ 52)
    (hsep : ∀ f, f ∈ s.page_free_list →
      ∀ e, e ∈ pathEntries F s.mem pgdir va → ¬ inFrame f e)
    (hres : (pgdir_walk F s pgdir va true).1 = none) :
    (∀ i, i ∉ s.page_free_list → (pgdir_walk F s pgdir va true).2.pp_ref i = s.pp_ref i)
    ∧ (∀ a, (∀ f, f ∈ s.page_free_list → ¬ inFrame f a) →
        (a < firstMissing F s.mem pgdir va ∨ firstMissing F s.mem pgdir va + 8 ≤ a) →
        (pgdir_walk F s pgdir va true).2.mem a = s.mem a)
    ∧ ¬ pathValid F (pgdir_walk F s pgdir va true).2.mem pgdir va
    ∧ (pgdir_walk F s pgdir va true).2.page_free_list = [] := by
  have a0 := pte0_aligned F pgdir va hal
  have a1 := pte1_aligned F s.mem pgdir va
  by_cases v0 : validAt F s.mem (pte0 F pgdir va)
  · have hl0 := pgdir_walk_level_valid F s (pte0 F pgdir va) (F.PT1X va) true v0
    by_cases v1 : validAt F s.mem (pte1 F s.mem pgdir va)
    · have hl1 : pgdir_walk_level F s
          (PTE_ADDR (load64 s.mem (pte0 F pgdir va)) + 8 * F.PT1X va) (F.PT2X va) true
          = Level.next s (pte2 F s.mem pgdir va) := pgdir_walk_level_valid F s _ _ _ v1
      by_cases v2 : validAt F s.mem (pte2 F s.mem pgdir va)
      · rw [pgdir_walk_pathValid F s pgdir va true ⟨v0, v1, v2⟩] at hres
        exact absurd hres (by simp)
      · rcases list_nil_or_cons s.page_free_list with hl | ⟨A, t, hl⟩
        · have hl2 := pgdir_walk_level_nofree F s (pte2 F s.mem pgdir va) (F.PT3X va) v2 hl
          have hw : pgdir_walk F s pgdir va true = (none, s) := by
            simp only [pgdir_walk_unfold, hl0, hl1, hl2]
          rw [hw]
          exact ⟨fun _ _ => rfl, fun _ _ _ => rfl, fun h => v2 h.2.2, hl⟩
        · have hl2 := pgdir_walk_level_create F s (pte2 F s.mem pgdir va) (F.PT3X va) A t v2 hl
          simp only [pgdir_walk_unfold, hl0, hl1, hl2] at hres
          exact absurd hres (by simp)
    · have hfm : firstMissing F s.mem pgdir va = pte1 F s.mem pgdir va := by
        unfold firstMissing; rw [if_pos v0, if_neg v1]
      rcases list_nil_or_cons s.page_free_list with hl | ⟨A, t, hl⟩
      · have hl1 : pgdir_walk_level F s
            (PTE_ADDR (load64 s.mem (pte0 F pgdir va)) + 8 * F.PT1X va) (F.PT2X va) true
            = Level.nomem s := pgdir_walk_level_nofree F s _ _ v1 hl
        have hw : pgdir_walk F s pgdir va true = (none, s) := by
          simp only [pgdir_walk_unfold, hl0, hl1]
        rw [hw]
        exact ⟨fun _ _ => rfl, fun _ _ _ => rfl, fun h => v1 h.2.1, hl⟩
      · obtain ⟨s1, hl1, hm1, hf1, hr1⟩ := pgdir_walk_level_create_ex F s
          (pte1 F s.mem pgdir va) (F.PT2X va) A t v1 hl
        have hl1c : pgdir_walk_level F s
            (PTE_ADDR (load64 s.mem (pte0 F pgdir va)) + 8 * F.PT1X va) (F.PT2X va) true
            = Level.next s1 (page2pa A) := hl1
        have hA : A ∈ s.page_free_list := by rw [hl]; simp
        have sep0 : ¬ inFrame A (pte0 F pgdir va) :=
          hsep A hA _ (pte0_mem_pathEntries F s.mem pgdir va)
        have sep1 : ¬ inFrame A (pte1 F s.mem pgdir va) :=
          hsep A hA _ (pte1_mem_pathEntries F s.mem pgdir va v0)
        have z : load64 s1.mem (page2pa A) = 0 := by
          rw [hm1]
          exact load_created_in _ _ _ _ _ (page2pa_aligned A) a1 (inFrame_base A)
            (fun e => sep1 (by rw [e]; exact inFrame_base A))
        have v2c := not_validAt_of_load_zero F s1.mem (page2pa A) z
        rcases t with _ | ⟨B, t2⟩
        · have hl2 := pgdir_walk_level_nofree F s1 (page2pa A) (F.PT3X va) v2c hf1
          have hw : pgdir_walk F s pgdir va true = (none, s1) := by
            simp only [pgdir_walk_unfold, hl0, hl1c, hl2]
          rw [hw]
          refine ⟨?_, ?_, ?_, hf1⟩
          · intro i hi
            exact hr1 i (fun e => hi (by rw [e]; exact hA))
          · intro a ha hout
            rw [hfm] at hout
            rw [hm1]
            exact apply_created_out _ _ _ _ _ (ha A hA) hout
          · rintro ⟨w0, w1, w2⟩
            have ne01 : pte1 F s.mem pgdir va ≠ pte0 F pgdir va := fun e => v1 (by rw [e]; exact v0)
            have l0 : load64 s1.mem (pte0 F pgdir va) = load64 s.mem (pte0 F pgdir va) := by
              rw [hm1]; exact load_created_out _ _ _ _ _ a0 a1 sep0 ne01
            have e1 := pte1_congr F s.mem s1.mem pgdir va l0
            have l1 : load64 s1.mem (pte1 F s.mem pgdir va)
                = (page2pa A ||| F.PTE_V ||| F.PTE_R) % 2 ^ 64 := by
              rw [hm1]; exact load_created_same _ _ _ _
            have e2 : pte2 F s1.mem pgdir va = page2pa A + 8 * F.PT2X va := by
              show PTE_ADDR (load64 s1.mem (pte1 F s1.mem pgdir va)) + _ = _
              rw [e1, l1, (table_entry F hF A (hfr A hA)).2]
            have l2 : load64 s1.mem (pte2 F s1.mem pgdir va) = 0 := by
              rw [e2, hm1]
              exact load_created_in _ _ _ _ _ (by have := page2pa_aligned A; omega) a1
                (inFrame_index A _ (hF.PT2X_lt va))
                (fun e => sep1 (by rw [e]; exact inFrame_index A _ (hF.PT2X_lt va)))
            exact not_validAt_of_load_zero F _ _ l2 w2
        · obtain ⟨s2, hl2, _⟩ := pgdir_walk_level_create_ex F s1 (page2pa A) (F.PT3X va)
            B t2 v2c hf1
          simp only [pgdir_walk_unfold, hl0, hl1c, hl2] at hres
          exact absurd hres (by simp)
  · have hfm : firstMissing F s.mem pgdir va = pte0 F pgdir va := by
      unfold firstMissing; rw [if_neg v0]
    rcases list_nil_or_cons s.page_free_list with hl | ⟨A, t, hl⟩
    · have hl0 := pgdir_walk_level_nofree F s (pte0 F pgdir va) (F.PT1X va) v0 hl
      have hw : pgdir_walk F s pgdir va true = (none, s) := by
        simp only [pgdir_walk_unfold, hl0]
      rw [hw]
      exact ⟨fun _ _ => rfl, fun _ _ _ => rfl, fun h => v0 h.1, hl⟩
    · obtain ⟨s1, hl0, hm1, hf1, hr1⟩ := pgdir_walk_level_create_ex F s
        (pte0 F pgdir va) (F.PT1X va) A t v0 hl
      have hA : A ∈ s.page_free_list := by rw [hl]; simp
      have sep0 : ¬ inFrame A (pte0 F pgdir va) :=
        hsep A hA _ (pte0_mem_pathEntries F s.mem pgdir va)
      have l0 : load64 s1.mem (pte0 F pgdir va)
          = (page2pa A ||| F.PTE_V ||| F.PTE_R) % 2 ^ 64 := by
        rw [hm1]; exact load_created_same _ _ _ _
      have e1 : pte1 F s1.mem pgdir va = page2pa A + 8 * F.PT1X va := by
        show PTE_ADDR (load64 s1.mem (pte0 F pgdir va)) + _ = _
        rw [l0, (table_entry F hF A (hfr A hA)).2]
      have zin : ∀ ix, ix < 512 → load64 s1.mem (page2pa A + 8 * ix) = 0 := by
        intro ix hix
        rw [hm1]
        exact load_created_in _ _ _ _ _ (by have := page2pa_aligned A; omega) a0
          (inFrame_index A _ hix) (fun e => sep0 (by rw [e]; exact inFrame_index A _ hix))
      have z : load64 s1.mem (page2pa A) = 0 := by
        have h := zin 0 (by omega)
        rw [Nat.mul_zero, Nat.add_zero] at h
        exact h
      have v1c := not_validAt_of_load_zero F s1.mem (page2pa A) z
      rcases t with _ | ⟨B, t2⟩
      · have hl1 := pgdir_walk_level_nofree F s1 (page2pa A) (F.PT2X va) v1c hf1
        have hw : pgdir_walk F s pgdir va true = (none, s1) := by
          simp only [pgdir_walk_unfold, hl0, hl1]
        rw [hw]
        refine ⟨?_, ?_, ?_, hf1⟩
        · intro i hi
          exact hr1 i (fun e => hi (by rw [e]; exact hA))
        · intro a ha hout
          rw [hfm] at hout
          rw [hm1]
          exact apply_created_out _ _ _ _ _ (ha A hA) hout
        · rintro ⟨w0, w1, w2⟩
          rw [e1] at w1
          exact not_validAt_of_load_zero F _ _ (zin _ (hF.PT1X_lt va)) w1
      · obtain ⟨s2, hl1, hm2, hf2, hr2⟩ := pgdir_walk_level_create_ex F s1 (page2pa A)
          (F.PT2X va) B t2 v1c hf1
        have hB : B ∈ s.page_free_list := by rw [hl]; simp
        have hAB : A ≠ B := by
          rw [hl] at hnd
          intro e
          have := (List.nodup_cons.mp hnd).1
          rw [e] at this
          simp at this
        have sepB0 : ¬ inFrame B (pte0 F pgdir va) :=
          hsep B hB _ (pte0_mem_pathEntries F s.mem pgdir va)
        have notB : ∀ b, inFrame A b → ¬ inFrame B b :=
          fun b hA1 hB1 => hAB (inFrame_unique A B b hA1 hB1)
        have zB : ∀ ix, ix < 512 → load64 s2.mem (page2pa B + 8 * ix) = 0 := by
          intro ix hix
          rw [hm2]
          exact load_created_in _ _ _ _ _ (by have := page2pa_aligned B; omega)
            (page2pa_aligned A) (inFrame_index B _ hix)
            (fun e => notB _ (inFrame_base A) (by rw [e]; exact inFrame_index B _ hix))
        have zB0 : load64 s2.mem (page2pa B) = 0 := by
          have h := zB 0 (by omega)
          rw [Nat.mul_zero, Nat.add_zero] at h
          exact h
        have v2c := not_validAt_of_load_zero F s2.mem (page2pa B) zB0
        rcases t2 with _ | ⟨C, t3⟩
        · have hl2 := pgdir_walk_level_nofree F s2 (page2pa B) (F.PT3X va) v2c hf2
          have hw : pgdir_walk F s pgdir va true = (none, s2) := by
            simp only [pgdir_walk_unfold, hl0, hl1, hl2]
          rw [hw]
          refine ⟨?_, ?_, ?_, hf2⟩
          · intro i hi
            rw [hr2 i (fun e => hi (by rw [e]; exact hB)),
              hr1 i (fun e => hi (by rw [e]; exact hA))]
          · intro a ha hout
            rw [hfm] at hout
            rw [hm2, apply_created_out _ _ _ _ _ (ha B hB)
              (by
                have := ha A hA
                unfold inFrame BY2PG at this
                omega), hm1]
            exact apply_created_out _ _ _ _ _ (ha A hA) hout
          · rintro ⟨w0, w1, w2⟩
            have l0b : load64 s2.mem (pte0 F pgdir va) = load64 s1.mem (pte0 F pgdir va) := by
              rw [hm2]
              exact load_created_out _ _ _ _ _ a0 (page2pa_aligned A) sepB0
                (fun e => sep0 (by rw [← e]; exact inFrame_base A))
            have e1b : pte1 F s2.mem pgdir va = page2pa A + 8 * F.PT1X va := by
              rw [pte1_congr F s1.mem s2.mem pgdir va l0b, e1]
            by_cases hx : F.PT1X va = 0
            · have l1b : load64 s2.mem (pte1 F s2.mem pgdir va)
                  = (page2pa B ||| F.PTE_V ||| F.PTE_R) % 2 ^ 64 := by
                rw [e1b, hx, Nat.mul_zero, Nat.add_zero, hm2]
                exact load_created_same _ _ _ _
              have e2b : pte2 F s2.mem pgdir va = page2pa B + 8 * F.PT2X va := by
                show PTE_ADDR (load64 s2.mem (pte1 F s2.mem pgdir va)) + _ = _
                rw [l1b, (table_entry F hF B (hfr B hB)).2]
              rw [e2b] at w2
              exact not_validAt_of_load_zero F _ _ (zB _ (hF.PT2X_lt va)) w2
            · have l1b : load64 s2.mem (pte1 F s2.mem pgdir va) = 0 := by
                rw [e1b, hm2, load_created_out _ _ _ _ _
                  (by have := page2pa_aligned A; omega) (page2pa_aligned A)
                  (notB _ (inFrame_index A _ (hF.PT1X_lt va))) (by omega)]
                exact zin _ (hF.PT1X_lt va)
              exact not_validAt_of_load_zero F _ _ l1b w1
        · obtain ⟨s3, hl2, _⟩ := pgdir_walk_level_create_ex F s2 (page2pa B) (F.PT3X va)
            C t3 v2c hf2
          simp only [pgdir_walk_unfold, hl0, hl1, hl2] at hres
          exact absurd hres (by simp)

theorem firstMissing_aligned (F : Mmu) (m : Mem) (pgdir va : Nat) (hal : pgdir % 8 = 0) :
    firstMissing F m pgdir va % 8 = 0 := by
  unfold firstMissing
  split_ifs
  · exact pte2_aligned F m pgdir va
  · exact pte1_aligned F m pgdir va
  · exact pte0_aligned F pgdir va hal

/-- When `page_insert` returns `-E_NO_MEM` the path of `va` was incomplete and
the failure is that of the walker with `create` on the state as it was. The
leaf entry of a complete path is none of its intermediate entries. -/
theorem page_insert_nomem_eq (F : Mmu) (s : State) (pgdir pp va perm : Nat)
    (hal : pgdir % 8 = 0)
    (hself : pathValid F s.mem pgdir va →
      pte3 F s.mem pgdir va ≠ pte0 F pgdir va
      ∧ pte3 F s.mem pgdir va ≠ pte1 F s.mem pgdir va
      ∧ pte3 F s.mem pgdir va ≠ pte2 F s.mem pgdir va)
    (hres : (page_insert F s pgdir pp va perm).1 = none) :
    (pgdir_walk F (tlb_invalidate s va) pgdir va true).1 = none
    ∧ (page_insert F s pgdir pp va perm).2
        = (pgdir_walk F (tlb_invalidate s va) pgdir va true).2 := by
  by_cases hp : pathValid F s.mem pgdir va
  · exfalso
    have hw : pgdir_walk F (tlb_invalidate s va) pgdir va true
        = (some (pte3 F s.mem pgdir va), tlb_invalidate s va) :=
      pgdir_walk_pathValid F (tlb_invalidate s va) pgdir va true hp
    by_cases hex : pte3 F s.mem pgdir va ≠ 0 ∧ validAt F s.mem (pte3 F s.mem pgdir va)
    · by_cases hsame : pa2page (load64 s.mem (pte3 F s.mem pgdir va)) = pp
      · rw [page_insert_unfold, if_pos ⟨⟨hp, hex⟩, hsame⟩] at hres
        exact absurd hres (by simp)
      · by_cases hb : load64 s.mem (pte3 F s.mem pgdir va) &&& F.PBE_V ≠ 0
        · have hlk : (page_lookup F s pgdir va).1
              = some (pa2page (load64 s.mem (pte3 F s.mem pgdir va)), pte3 F s.mem pgdir va) := by
            rw [page_lookup_eq, if_pos ⟨hp, hex.1, hb⟩]
          obtain ⟨d0, d1, d2⟩ := hself hp
          rw [page_insert_displace_eq F s pgdir pp va perm _ _ hal hlk hex.2
            (fun e => hsame e.symm) d0 d1 d2] at hres
          exact absurd hres (by simp)
        · have hlk : (page_lookup F s pgdir va).1 = none := by
            rw [page_lookup_eq, if_neg (fun h => hb h.2.2)]
          have hr := page_remove_of_lookup_none F s pgdir va hlk
          rw [page_insert_unfold, if_neg (fun h => hsame h.2), if_pos ⟨hp, hex⟩, hr, hw] at hres
          exact absurd hres (by simp)
    · rw [page_insert_unfold, if_neg (fun h => hex h.1.2), if_neg (fun h => hex h.2), hw] at hres
      exact absurd hres (by simp)
  · rw [page_insert_unfold, if_neg (fun h => hp h.1.1), if_neg (fun h => hp h.1)] at hres ⊢
    cases hw : pgdir_walk F (tlb_invalidate s va) pgdir va true with
    | mk r s4 =>
      rw [hw] at hres
      cases r with
      | none => exact ⟨rfl, rfl⟩
      | some e => exact absurd hres (by simp)

/-- Why the leaf entry must be none of the intermediate entries of its path
when `page_insert` runs out of memory: in a root table that names itself, with
an empty free list, `page_insert` of frame 6 at address 0 removes the mapping
of frame 1 (its count drops from 2 to 1 and the entry is cleared) and then
returns `-E_NO_MEM`. -/
theorem page_insert_nomem_self_reference :
    (page_lookup armv8 (selfRefState 2) 0x1000 0).1 = some (1, 0x1000)
    ∧ (page_insert armv8 (selfRefState 2) 0x1000 6 0 0).1 = none
    ∧ (page_insert armv8 (selfRefState 2) 0x1000 6 0 0).2.pp_ref 1 = 1
    ∧ load64 (page_insert armv8 (selfRefState 2) 0x1000 6 0 0).2.mem 0x1000 = 0 := by
  decide

set_option maxRecDepth 1000000 in
/-- C7 (counterexample). Frame 5 is on the free list and is passed to
`page_insert`: the walker takes it for the level-1 table, the next level finds
no frame, `page_insert` returns `-E_NO_MEM` and `pp->pp_ref` has changed from
0 to 1. -/
theorem page_insert_nomem_changes_pp_ref :
    (page_insert armv8 (emptyRoot [5]) 0x1000 5 0 0).1 = none
    ∧ (emptyRoot [5]).pp_ref 5 = 0
    ∧ (page_insert armv8 (emptyRoot [5]) 0x1000 5 0 0).2.pp_ref 5 = 1 := by
  decide

/-- C7 (amended). For a root table at an aligned address, a free list without
duplicates whose frames (numbers below `2^52`) hold none of the entries the
walker reads on the path of `va`, a leaf entry that is none of the
intermediate entries of its path, and a frame `pp` that is not on the free
list: when `page_insert` returns `-E_NO_MEM`, the count of `pp` and of every
other frame that was not on the free list is unchanged, every byte outside the
frames that were on the free list and outside the first missing entry of the
path is unchanged, so is every leaf entry there that `page_lookup` found
before, `page_lookup` of `va` reports no mapping, and the free list is used
up. -/
theorem page_insert_nomem (F : Mmu) (hF : F.WF) (s : State) (pgdir pp va perm : Nat)
    (hal : pgdir % 8 = 0)
    (hnd : s.page_free_list.Nodup)
    (hfr : ∀ f, f ∈ s.page_free_list → f < 2 ^ 52)
    (hsep : ∀ f, f ∈ s.page_free_list →
      ∀ e, e ∈ pathEntries F s.mem pgdir va → ¬ inFrame f e)
    (hself : pathValid F s.mem pgdir va →
      pte3 F s.mem pgdir va ≠ pte0 F pgdir va
      ∧ pte3 F s.mem pgdir va ≠ pte1 F s.mem pgdir va
      ∧ pte3 F s.mem pgdir va ≠ pte2 F s.mem pgdir va)
    (hpp : pp ∉ s.page_free_list)
    (hres : (page_insert F s pgdir pp va perm).1 = none) :
    (page_insert F s pgdir pp va perm).2.pp_ref pp = s.pp_ref pp
    ∧ (∀ i, i ∉ s.page_free_list →
        (page_insert F s pgdir pp va perm).2.pp_ref i = s.pp_ref i)
    ∧ (∀ a, (∀ f, f ∈ s.page_free_list → ¬ inFrame f a) →
        (a < firstMissing F s.mem pgdir va ∨ firstMissing F s.mem pgdir va + 8 ≤ a) →
        (page_insert F s pgdir pp va perm).2.mem a = s.mem a)
    ∧ (∀ va1 f1 pte, (page_lookup F s pgdir va1).1 = some (f1, pte) →
        (∀ f, f ∈ s.page_free_list → ¬ inFrame f pte) →
        pte ≠ firstMissing F s.mem pgdir va →
        load64 (page_insert F s pgdir pp va perm).2.mem pte = load64 s.mem pte)
    ∧ (page_lookup F (page_insert F s pgdir pp va perm).2 pgdir va).1 = none
    ∧ (page_insert F s pgdir pp va perm).2.page_free_list = [] := by
  obtain ⟨hwn, hst⟩ := page_insert_nomem_eq F s pgdir pp va perm hal hself hres
  obtain ⟨h1, h2, h3, h4⟩ :=
    pgdir_walk_nomem F hF (tlb_invalidate s va) pgdir va hal hnd hfr hsep hwn
  rw [hst]
  have hmem : ∀ a, (∀ f, f ∈ s.page_free_list → ¬ inFrame f a) →
      (a < firstMissing F s.mem pgdir va ∨ firstMissing F s.mem pgdir va + 8 ≤ a) →
      (pgdir_walk F (tlb_invalidate s va) pgdir va true).2.mem a = s.mem a := h2
  refine ⟨h1 pp hpp, h1, hmem, ?_, ?_, h4⟩
  · intro va1 f1 pte hlk hout hne
    obtain ⟨_, hL, _, _, _⟩ := page_lookup_some F s pgdir va1 f1 pte hlk
    have aL : pte % 8 = 0 := hL ▸ pte3_aligned F s.mem pgdir va1
    have aM := firstMissing_aligned F s.mem pgdir va hal
    apply load64_congr
    intro i hi
    apply hmem
    · intro f hf hin
      apply hout f hf
      unfold inFrame page2pa BY2PG at hin ⊢
      omega
    · omega
  · rw [page_lookup_eq, if_neg (fun h => h3 h.1)]

set_option maxRecDepth 1000000 in
theorem page_insert_nomem_witness :
    (emptyRoot [2]).page_free_list.Nodup
    ∧ 5 ∉ (emptyRoot [2]).page_free_list
    ∧ (page_insert armv8 (emptyRoot [2]) 0x1000 5 0 0).1 = none
    ∧ (page_insert armv8 (emptyRoot [2]) 0x1000 5 0 0).2.pp_ref 5 = (emptyRoot [2]).pp_ref 5
    ∧ (page_lookup armv8 (page_insert armv8 (emptyRoot [2]) 0x1000 5 0 0).2 0x1000 0).1 = none :=
  have h := page_insert_nomem armv8 armv8_wf (emptyRoot [2]) 0x1000 5 0 0 (by decide)
    (by decide) (by decide) (by decide) (by decide) (by decide) (by decide)
  ⟨by decide, by decide, by decide, h.1, h.2.2.2.2.1⟩


/-! ### Freeing and dropping references -/

/-- C11. For a frame with `pp_ref > 0`, `page_free` changes nothing; for a
frame with `pp_ref == 0` it makes the frame the head of the free list, with the
previous list as its tail, and changes no `pp_ref` (nor anything else). -/
theorem page_free_guard (s : State) (pp : Nat) :
    (0 < s.pp_ref pp → page_free s pp = s)
    ∧ (s.pp_ref pp = 0 →
        (page_free s pp).page_free_list = pp :: s.page_free_list
        ∧ (page_free s pp).pp_ref = s.pp_ref
        ∧ (page_free s pp).mem = s.mem) := by
  unfold page_free LIST_INSERT_HEAD
  constructor
  · intro h
    rw [if_pos h]
  · intro h
    rw [if_neg (by omega)]
    exact ⟨rfl, rfl, rfl⟩

theorem page_free_guard_witness :
    (mappedState [7]).pp_ref 5 = 1
    ∧ page_free (mappedState [7]) 5 = mappedState [7]
    ∧ (mappedState [7]).pp_ref 8 = 0
    ∧ (page_free (mappedState [7]) 8).page_free_list = 8 :: (mappedState [7]).page_free_list :=
  ⟨by decide, (page_free_guard (mappedState [7]) 5).1 (by decide), by decide,
    ((page_free_guard (mappedState [7]) 8).2 (by decide)).1⟩

/-- The free list after `page_alloc` follows `page_free` of a frame with count 0. -/
theorem page_alloc_after_push (s : State) (pp : Nat) (l : List Nat)
    (h : s.page_free_list = pp :: l) :
    (page_alloc s).1 = some pp ∧ (page_alloc s).2.page_free_list = l := by
  rw [page_alloc_some s pp l h]
  exact ⟨rfl, rfl⟩

/-- C12. After `page_free` of a frame with `pp_ref == 0` the next `page_alloc`
returns that frame and leaves the free list as it was before the `page_free`;
a frame whose count `page_decref` or `page_remove` brings from 1 to 0 is the
frame the next `page_alloc` returns. -/
theorem free_alloc_lifo (F : Mmu) (s : State) (pp : Nat) :
    (s.pp_ref pp = 0 →
        (page_alloc (page_free s pp)).1 = some pp
        ∧ (page_alloc (page_free s pp)).2.page_free_list = s.page_free_list)
    ∧ (s.pp_ref pp = 1 → (page_alloc (page_decref F s pp)).1 = some pp)
    ∧ (∀ pgdir va pte, (page_lookup F s pgdir va).1 = some (pp, pte) → s.pp_ref pp = 1 →
        (page_alloc (page_remove F s pgdir va)).1 = some pp) := by
  refine ⟨?_, ?_, ?_⟩
  · intro h
    apply page_alloc_after_push
    unfold page_free LIST_INSERT_HEAD
    rw [if_neg (by omega)]
  · intro h
    refine (page_alloc_after_push _ pp s.page_free_list ?_).1
    rw [page_decref_eq F s pp (by omega), if_pos h]
  · intro pgdir va pte hlk h
    refine (page_alloc_after_push _ pp s.page_free_list ?_).1
    rw [page_remove_eq F s pgdir va pp pte hlk, page_decref_eq F s pp (by omega)]
    show (if s.pp_ref pp = 1 then pp :: s.page_free_list else s.page_free_list) = _
    rw [if_pos h]

theorem free_alloc_lifo_witness :
    (mappedState [7]).pp_ref 5 = 1
    ∧ (page_lookup armv8 (mappedState [7]) 0x1000 0).1 = some (5, 0x4000)
    ∧ (page_alloc (page_decref armv8 (mappedState [7]) 5)).1 = some 5
    ∧ (page_alloc (page_remove armv8 (mappedState [7]) 0x1000 0)).1 = some 5 :=
  ⟨by decide, by decide,
    (free_alloc_lifo armv8 (mappedState [7]) 5).2.1 (by decide),
    (free_alloc_lifo armv8 (mappedState [7]) 5).2.2 0x1000 0 0x4000 (by decide) (by decide)⟩

/-- C13. For a frame with `pp_ref = n >= 1`, `page_decref` leaves
`pp_ref == n - 1`, pushes the frame on the head of the free list exactly when
`n == 1`, and changes no other count. -/
theorem page_decref_contract (F : Mmu) (s : State) (pp n : Nat)
    (hn : s.pp_ref pp = n) (hn1 : 1 ≤ n) :
    (page_decref F s pp).pp_ref pp = n - 1
    ∧ (page_decref F s pp).page_free_list
        = (if n = 1 then pp :: s.page_free_list else s.page_free_list)
    ∧ (∀ i, i ≠ pp → (page_decref F s pp).pp_ref i = s.pp_ref i)
    ∧ (page_decref F s pp).mem = s.mem := by
  rw [page_decref_eq F s pp (by omega)]
  refine ⟨?_, ?_, ?_, rfl⟩
  · show (if pp = pp then s.pp_ref pp - 1 else s.pp_ref pp) = n - 1
    rw [if_pos rfl, hn]
  · show (if s.pp_ref pp = 1 then pp :: s.page_free_list else s.page_free_list) = _
    rw [hn]
  · intro i hi
    show (if i = pp then s.pp_ref pp - 1 else s.pp_ref i) = s.pp_ref i
    rw [if_neg hi]

theorem page_decref_contract_witness :
    (mappedState [7]).pp_ref 5 = 1
    ∧ (page_decref armv8 (mappedState [7]) 5).pp_ref 5 = 1 - 1
    ∧ (page_decref armv8 (mappedState [7]) 5).page_free_list
        = (if 1 = 1 then 5 :: (mappedState [7]).page_free_list
            else (mappedState [7]).page_free_list) :=
  have h := page_decref_contract armv8 (mappedState [7]) 5 1 (by decide) (by decide)
  ⟨by decide, h.1, h.2.1⟩

/-! ### Lookup -/

/-- C14 (counterexample). The level-3 table is frame 0 and `PT3X(va) = 0`: all
three intermediate entries are valid and the leaf entry has its valid bit set,
yet `page_lookup` returns `NULL`, because the address of the leaf entry is
`NULL`. -/
theorem page_lookup_null_leaf_address :
    pathValid armv8 nullLeafState.mem 0x1000 0
    ∧ load64 nullLeafState.mem (pte3 armv8 nullLeafState.mem 0x1000 0) &&& armv8.PBE_V ≠ 0
    ∧ (page_lookup armv8 nullLeafState 0x1000 0).1 = none := by
  decide

/-- C14 (amended). `page_lookup` changes nothing. It returns `NULL` if and
only if an intermediate entry on the path of `va` is invalid, or the leaf entry
is at address `NULL`, or the leaf entry has its valid bit clear; otherwise it
returns `pa2page` of the leaf entry and stores the address of entry `PT3X(va)`
of the level-3 table in `*ppte`. `pgdir_walk` without `create` changes nothing
and never returns an error. -/
theorem page_lookup_contract (F : Mmu) (s : State) (pgdir va : Nat) :
    (page_lookup F s pgdir va).2 = s
    ∧ ((page_lookup F s pgdir va).1 = none ↔
        (¬ pathValid F s.mem pgdir va ∨ pte3 F s.mem pgdir va = 0
          ∨ load64 s.mem (pte3 F s.mem pgdir va) &&& F.PBE_V = 0))
    ∧ ((page_lookup F s pgdir va).1 ≠ none →
        (page_lookup F s pgdir va).1
          = some (pa2page (load64 s.mem (pte3 F s.mem pgdir va)), pte3 F s.mem pgdir va))
    ∧ (pgdir_walk F s pgdir va false).2 = s
    ∧ (pgdir_walk F s pgdir va false).1 ≠ none := by
  refine ⟨page_lookup_state F s pgdir va, ?_, ?_, ?_, ?_⟩
  · rw [page_lookup_eq]
    constructor
    · intro h
      by_cases hp : pathValid F s.mem pgdir va
      · by_cases h3 : pte3 F s.mem pgdir va = 0
        · exact Or.inr (Or.inl h3)
        · by_cases hv : load64 s.mem (pte3 F s.mem pgdir va) &&& F.PBE_V = 0
          · exact Or.inr (Or.inr hv)
          · rw [if_pos ⟨hp, h3, hv⟩] at h
            exact absurd h (by simp)
      · exact Or.inl hp
    · intro h
      rw [if_neg]
      rintro ⟨hp, h3, hv⟩
      rcases h with h | h | h
      · exact h hp
      · exact h3 h
      · exact hv h
  · intro h
    rw [page_lookup_eq] at h ⊢
    split
    · rfl
    · rename_i hc
      rw [if_neg hc] at h
      exact absurd rfl h
  · rw [pgdir_walk_false]
  · rw [pgdir_walk_false]
    simp

/-! ### Initialisation of the frame allocator -/

/-- C15 (counterexample). The watermark is at the end of memory: `w == npage`,
the free list is empty after `page_init` and the first `page_alloc` returns
`-E_NO_MEM`, not frame `npage - 1`. -/
theorem page_init_no_free_frame :
    PPN (ROUND fullState.freemem BY2PG) ≤ fullState.npage
    ∧ (page_init armv8 fullState).page_free_list = []
    ∧ (page_alloc (page_init armv8 fullState)).1 = none := by
  decide

/-- C15 (amended). With `w = PPN(ROUND(freemem, BY2PG)) <= npage`, after
`page_init` every frame below `w` has `pp_ref == 0xffff` and is not on the free
list, every frame from `w` to `npage - 1` is on the free list exactly once, the
list has `npage - w` elements, all in that range, in decreasing order, and when
`w < npage` the first `page_alloc` returns frame `npage - 1`. -/
theorem page_init_partition (F : Mmu) (hF : F.WF) (s : State)
    (hw : PPN (ROUND s.freemem BY2PG) ≤ s.npage) :
    (∀ i, i < PPN (ROUND s.freemem BY2PG) →
        (page_init F s).pp_ref i = 0xffff ∧ i ∉ (page_init F s).page_free_list)
    ∧ (∀ i, PPN (ROUND s.freemem BY2PG) ≤ i → i < s.npage →
        (page_init F s).page_free_list.count i = 1)
    ∧ (page_init F s).page_free_list.length = s.npage - PPN (ROUND s.freemem BY2PG)
    ∧ (∀ i, i ∈ (page_init F s).page_free_list →
        PPN (ROUND s.freemem BY2PG) ≤ i ∧ i < s.npage)
    ∧ (page_init F s).page_free_list
        = (List.range' (PPN (ROUND s.freemem BY2PG))
            (s.npage - PPN (ROUND s.freemem BY2PG))).reverse
    ∧ (PPN (ROUND s.freemem BY2PG) < s.npage →
        (page_alloc (page_init F s)).1 = some (s.npage - 1)) := by
  have hs : 0xffff % F.REF_MOD = 0xffff := Nat.mod_eq_of_lt hF.REF_MOD_gt
  have hlist : (page_init F s).page_free_list
      = (List.range' (PPN (ROUND s.freemem BY2PG))
          (s.npage - PPN (ROUND s.freemem BY2PG))).reverse := by
    rw [page_init_eq]
  have hmem : ∀ i, i ∈ (page_init F s).page_free_list ↔
      (PPN (ROUND s.freemem BY2PG) ≤ i ∧ i < s.npage) := by
    intro i
    rw [hlist, List.mem_reverse, List.mem_range']
    constructor
    · rintro ⟨k, hk, rfl⟩
      omega
    · intro h
      exact ⟨i - PPN (ROUND s.freemem BY2PG), by omega, by omega⟩
  have hnd : (page_init F s).page_free_list.Nodup := by
    rw [hlist, List.nodup_reverse]
    exact List.nodup_range' _ _
  refine ⟨?_, ?_, ?_, ?_, hlist, ?_⟩
  · intro i hi
    constructor
    · rw [page_init_eq]
      show (if i < PPN (ROUND s.freemem BY2PG) then 0xffff % F.REF_MOD else s.pp_ref i) = 0xffff
      rw [if_pos hi, hs]
    · intro hin
      have := (hmem i).mp hin
      omega
  · intro i h1 h2
    exact List.count_eq_one_of_mem hnd ((hmem i).mpr ⟨h1, h2⟩)
  · rw [hlist, List.length_reverse, List.length_range']
  · intro i hi
    exact (hmem i).mp hi
  · intro hlt
    have e : s.npage - PPN (ROUND s.freemem BY2PG)
        = (s.npage - PPN (ROUND s.freemem BY2PG) - 1) + 1 := by omega
    have hl2 : (page_init F s).page_free_list
        = (s.npage - 1) :: (List.range' (PPN (ROUND s.freemem BY2PG))
            (s.npage - PPN (ROUND s.freemem BY2PG) - 1)).reverse := by
      rw [hlist, e, List.range'_concat, List.reverse_concat]
      congr 1
      omega
    rw [page_alloc_some _ _ _ hl2]

theorem page_init_partition_witness :
    PPN (ROUND bootState.freemem BY2PG) ≤ bootState.npage
    ∧ (page_init armv8 bootState).pp_ref 0 = 0xffff
    ∧ (page_init armv8 bootState).page_free_list.length
        = bootState.npage - PPN (ROUND bootState.freemem BY2PG)
    ∧ (PPN (ROUND bootState.freemem BY2PG) < bootState.npage →
        (page_alloc (page_init armv8 bootState)).1 = some (bootState.npage - 1)) :=
  have h := page_init_partition armv8 armv8_wf bootState (by decide)
  ⟨by decide, (h.1 0 (by decide)).1, h.2.2.1, h.2.2.2.2.2⟩

/-! ### Boot allocator -/

/-- For a power of two `ROUND` yields a multiple of it, at or above its
argument and less than the power of two above it. -/
theorem ROUND_spec (f k : Nat) :
    ROUND f (2 ^ k) % 2 ^ k = 0 ∧ f ≤ ROUND f (2 ^ k) ∧ ROUND f (2 ^ k) < f + 2 ^ k := by
  have hA : 0 < 2 ^ k := Nat.two_pow_pos k
  unfold ROUND
  rw [Nat.and_pow_two_sub_one_eq_mod]
  have hr := Nat.mod_lt (f + 2 ^ k - 1) hA
  have hd := Nat.div_add_mod (f + 2 ^ k - 1) (2 ^ k)
  refine ⟨?_, by omega, by omega⟩
  have e : f + 2 ^ k - 1 - (f + 2 ^ k - 1) % 2 ^ k = 2 ^ k * ((f + 2 ^ k - 1) / 2 ^ k) := by
    omega
  rw [e, Nat.mul_mod_right]

/-- The function `boot_alloc` in closed form. -/
theorem boot_alloc_eq (s : State) (n align : Nat) (clear : Bool) :
    boot_alloc s n align clear
      = (if s.maxpa ≤ ROUND s.freemem align + n then none else some (ROUND s.freemem align),
          { s with
            freemem := ROUND s.freemem align + n
            mem := if clear = true then bzero s.mem (ROUND s.freemem align) n else s.mem }) := by
  unfold boot_alloc
  cases clear <;> simp only [] <;> split_ifs <;> rfl

/-- What a call of `boot_alloc` that returns leaves behind. -/
theorem boot_alloc_some (s : State) (n align : Nat) (clear : Bool) (a : Nat)
    (h : (boot_alloc s n align clear).1 = some a) :
    a = ROUND s.freemem align
    ∧ (boot_alloc s n align clear).2.freemem = a + n
    ∧ a + n < s.maxpa
    ∧ (boot_alloc s n align clear).2.maxpa = s.maxpa
    ∧ (boot_alloc s n align clear).2.mem
        = (if clear = true then bzero s.mem a n else s.mem) := by
  rw [boot_alloc_eq] at h ⊢
  simp only at h
  split at h
  · exact absurd h (by simp)
  · rename_i hlt
    simp only [Option.some.injEq] at h
    subst h
    exact ⟨rfl, rfl, by omega, rfl, rfl⟩

/-- C16. When `boot_alloc(n, align, clear)` with a power of two `align`
returns, it returns `a = ROUND(freemem, align)`, a multiple of `align` with
`freemem <= a < freemem + align`, and leaves `freemem == a + n`; a following
allocation returns a chunk at or above `a + n` and `freemem` does not
decrease. With `clear` set the bytes `[a, a + n)` are zero and no other byte
has changed; without it memory is unchanged. -/
theorem boot_alloc_post (s : State) (n k : Nat) (clear : Bool) (a : Nat)
    (h : (boot_alloc s n (2 ^ k) clear).1 = some a) :
    a = ROUND s.freemem (2 ^ k) ∧ a % 2 ^ k = 0 ∧ s.freemem ≤ a ∧ a < s.freemem + 2 ^ k
    ∧ (boot_alloc s n (2 ^ k) clear).2.freemem = a + n
    ∧ s.freemem ≤ (boot_alloc s n (2 ^ k) clear).2.freemem
    ∧ (∀ n2 k2 c2 a2, (boot_alloc (boot_alloc s n (2 ^ k) clear).2 n2 (2 ^ k2) c2).1 = some a2 →
        a + n ≤ a2
        ∧ (boot_alloc s n (2 ^ k) clear).2.freemem
            ≤ (boot_alloc (boot_alloc s n (2 ^ k) clear).2 n2 (2 ^ k2) c2).2.freemem)
    ∧ (clear = true →
        (∀ x, a ≤ x → x < a + n → (boot_alloc s n (2 ^ k) clear).2.mem x = 0)
        ∧ ∀ x, (x < a ∨ a + n ≤ x) → (boot_alloc s n (2 ^ k) clear).2.mem x = s.mem x)
    ∧ (clear = false → (boot_alloc s n (2 ^ k) clear).2.mem = s.mem) := by
  obtain ⟨ha, hf, _, _, hm⟩ := boot_alloc_some s n (2 ^ k) clear a h
  obtain ⟨r1, r2, r3⟩ := ROUND_spec s.freemem k
  rw [← ha] at r1 r2 r3
  refine ⟨ha, r1, r2, r3, hf, by omega, ?_, ?_, ?_⟩
  · intro n2 k2 c2 a2 h2
    obtain ⟨ha2, hf2, _, _, _⟩ := boot_alloc_some _ n2 (2 ^ k2) c2 a2 h2
    obtain ⟨_, q2, _⟩ := ROUND_spec (boot_alloc s n (2 ^ k) clear).2.freemem k2
    rw [← ha2] at q2
    omega
  · intro hc
    rw [hm, if_pos hc]
    constructor
    · intro x h1 h2
      rw [bzero_apply, if_pos ⟨h1, h2⟩]
    · intro x hx
      rw [bzero_apply, if_neg (by omega)]
  · intro hc
    rw [hm, if_neg (by simp [hc])]

theorem boot_alloc_post_witness :
    (boot_alloc bootRoot 4096 (2 ^ 12) true).1 = some 0x2000
    ∧ (0x2000 : Nat) = ROUND bootRoot.freemem (2 ^ 12)
    ∧ (boot_alloc bootRoot 4096 (2 ^ 12) true).2.freemem = 0x2000 + 4096 :=
  have h := boot_alloc_post bootRoot 4096 12 true 0x2000 (by decide)
  ⟨by decide, h.1, h.2.2.2.2.1⟩

/-- C17 (counterexample). The watermark is at `0x2000`, memory ends at
`0x10000`: a request of `0xE000` bytes ends exactly at `maxpa`, not above it,
and `boot_alloc` panics. -/
theorem boot_alloc_panics_at_ceiling :
    ROUND bootRoot.freemem 4096 + 0xE000 ≤ bootRoot.maxpa
    ∧ (boot_alloc bootRoot 0xE000 4096 false).1 = none := by
  decide

/-- C17 (amended). `boot_alloc(n, align, clear)` panics exactly when the
advanced watermark `ROUND(freemem, align) + n` reaches or exceeds `maxpa`;
every request whose chunk ends below `maxpa` returns the address of the chunk,
`ROUND(freemem, align)`. -/
theorem boot_alloc_panic_iff (s : State) (n align : Nat) (clear : Bool) :
    ((boot_alloc s n align clear).1 = none ↔ s.maxpa ≤ ROUND s.freemem align + n)
    ∧ (ROUND s.freemem align + n < s.maxpa →
        (boot_alloc s n align clear).1 = some (ROUND s.freemem align)) := by
  rw [boot_alloc_eq]
  constructor
  · constructor
    · intro h
      simp only at h
      split at h
      · assumption
      · exact absurd h (by simp)
    · intro h
      simp only [if_pos h]
  · intro h
    simp only [if_neg (by omega : ¬ s.maxpa ≤ ROUND s.freemem align + n)]

/-! ### The boot walker and the walker with `create`: the created-table pointer

`boot_pgdir_walk` has the blocks of `pgdir_walk`, with `boot_alloc` in the
place of `page_alloc`, and the same slip: after a table is created the entry
pointer for the next level is the base of the new table, without `+ PTnX(va)`. -/

set_option maxRecDepth 1000000 in
/-- C18 (evaluation at the failing input). On an empty root table, with the
watermark at `0x2000`, `boot_map_segment(pgdir, 0x200000, BY2PG, 0x5000, 0)`
returns after one iteration, and `boot_pgdir_walk(pgdir, 0x200000, 0)` then
returns `NULL`: the level-3 table was written into entry 0 of the level-2 table
although `PT2X(va) = 1`. -/
theorem boot_map_segment_then_walk_fails :
    (boot_map_segment armv8 1 bootRoot 0x1000 0x200000 4096 0x5000 0).isDone = true
    ∧ (boot_pgdir_walk armv8
        (boot_map_segment armv8 1 bootRoot 0x1000 0x200000 4096 0x5000 0).state
        0x1000 0x200000 false).1 = some 0
    ∧ armv8.PT2X 0x200000 = 1
    ∧ load64 (boot_map_segment armv8 1 bootRoot 0x1000 0x200000 4096 0x5000 0).state.mem
        (0x3000 + 8 * 0) = 0x4043
    ∧ load64 (boot_map_segment armv8 1 bootRoot 0x1000 0x200000 4096 0x5000 0).state.mem
        (0x3000 + 8 * armv8.PT2X 0x200000) = 0 := by
  decide

set_option maxRecDepth 1000000 in
/-- C19 (evaluation at the failing input). On an empty root table the path of
`va = 0x200000` lacks all three tables and four frames are free:
`pgdir_walk(pgdir, va, 1, &p)` returns 0, takes frames 2, 3, 4 from the head
of the free list and raises their counts from 0 to 1, but the address of the
new level-3 table is in entry 0 of the new level-2 table, not in the entry of
`va` (`PT2X(va) = 1`), its parent entry. -/
theorem pgdir_walk_create_parent_entry :
    ¬ validAt armv8 (emptyRoot [2, 3, 4, 7]).mem (pte0 armv8 0x1000 0x200000)
    ∧ (pgdir_walk armv8 (emptyRoot [2, 3, 4, 7]) 0x1000 0x200000 true).1 = some 0x4000
    ∧ (pgdir_walk armv8 (emptyRoot [2, 3, 4, 7]) 0x1000 0x200000 true).2.page_free_list = [7]
    ∧ (pgdir_walk armv8 (emptyRoot [2, 3, 4, 7]) 0x1000 0x200000 true).2.pp_ref 2 = 1
    ∧ (pgdir_walk armv8 (emptyRoot [2, 3, 4, 7]) 0x1000 0x200000 true).2.pp_ref 3 = 1
    ∧ (pgdir_walk armv8 (emptyRoot [2, 3, 4, 7]) 0x1000 0x200000 true).2.pp_ref 4 = 1
    ∧ armv8.PT2X 0x200000 = 1
    ∧ load64 (pgdir_walk armv8 (emptyRoot [2, 3, 4, 7]) 0x1000 0x200000 true).2.mem
        (page2pa 3 + 8 * armv8.PT2X 0x200000) = 0
    ∧ load64 (pgdir_walk armv8 (emptyRoot [2, 3, 4, 7]) 0x1000 0x200000 true).2.mem
        (page2pa 3 + 8 * 0) = page2pa 4 ||| armv8.PTE_V ||| armv8.PTE_R := by
  decide

/-! ### The log of invalidations and entry writes -/

theorem pgdir_walk_level_log (F : Mmu) (s : State) (ep ix : Nat) (create : Bool) :
    ∃ ws, (pgdir_walk_level F s ep ix create).state.log = s.log ++ ws
      ∧ ∀ e, e ∈ ws → e.isWrite = true := by
  by_cases hv : validAt F s.mem ep
  · rw [pgdir_walk_level_valid F s ep ix create hv]
    exact ⟨[], by simp [Level.state], by simp⟩
  · cases create with
    | false =>
      rw [pgdir_walk_level_false, if_neg hv]
      exact ⟨[], by simp [Level.state], by simp⟩
    | true =>
      rcases list_nil_or_cons s.page_free_list with hl | ⟨A, t, hl⟩
      · rw [pgdir_walk_level_nofree F s ep ix hv hl]
        exact ⟨[], by simp [Level.state], by simp⟩
      · rw [pgdir_walk_level_create F s ep ix A t hv hl]
        refine ⟨[Event.write ep (page2pa A ||| F.PTE_V ||| F.PTE_R)], rfl, ?_⟩
        intro e he
        simp only [List.mem_singleton] at he
        subst he
        rfl

/-- The walker logs only stores to entries. -/
theorem pgdir_walk_log (F : Mmu) (s : State) (pgdir va : Nat) (create : Bool) :
    ∃ ws, (pgdir_walk F s pgdir va create).2.log = s.log ++ ws
      ∧ ∀ e, e ∈ ws → e.isWrite = true := by
  rw [pgdir_walk_unfold]
  obtain ⟨w0, h0, g0⟩ := pgdir_walk_level_log F s (pte0 F pgdir va) (F.PT1X va) create
  cases hL0 : pgdir_walk_level F s (pte0 F pgdir va) (F.PT1X va) create with
  | nomem s1 => rw [hL0] at h0; exact ⟨w0, h0, g0⟩
  | null s1 => rw [hL0] at h0; exact ⟨w0, h0, g0⟩
  | next s1 e1 =>
    rw [hL0] at h0
    obtain ⟨w1, h1, g1⟩ := pgdir_walk_level_log F s1 e1 (F.PT2X va) create
    have g01 : ∀ e, e ∈ w0 ++ w1 → e.isWrite = true := by
      intro e he
      rcases List.mem_append.mp he with h | h
      · exact g0 e h
      · exact g1 e h
    dsimp only
    cases hL1 : pgdir_walk_level F s1 e1 (F.PT2X va) create with
    | nomem s2 =>
      rw [hL1] at h1
      exact ⟨w0 ++ w1, by rw [← List.append_assoc, ← show s1.log = s.log ++ w0 from h0]; exact h1, g01⟩
    | null s2 =>
      rw [hL1] at h1
      exact ⟨w0 ++ w1, by rw [← List.append_assoc, ← show s1.log = s.log ++ w0 from h0]; exact h1, g01⟩
    | next s2 e2 =>
      rw [hL1] at h1
      have h01 : s2.log = s.log ++ (w0 ++ w1) := by
        rw [← List.append_assoc, ← show s1.log = s.log ++ w0 from h0]; exact h1
      obtain ⟨w2, h2, g2⟩ := pgdir_walk_level_log F s2 e2 (F.PT3X va) create
      have g012 : ∀ e, e ∈ w0 ++ w1 ++ w2 → e.isWrite = true := by
        intro e he
        rcases List.mem_append.mp he with h | h
        · exact g01 e h
        · exact g2 e h
      have h012 : (pgdir_walk_level F s2 e2 (F.PT3X va) create).state.log
          = s.log ++ (w0 ++ w1 ++ w2) := by
        rw [h2, h01, List.append_assoc s.log]
      dsimp only
      cases hL2 : pgdir_walk_level F s2 e2 (F.PT3X va) create with
      | nomem s3 => rw [hL2] at h012; exact ⟨_, h012, g012⟩
      | null s3 => rw [hL2] at h012; exact ⟨_, h012, g012⟩
      | next s3 e3 => rw [hL2] at h012; exact ⟨_, h012, g012⟩

/-- The log after `page_remove` of a mapped address: the leaf entry is
cleared, then `va` is invalidated. -/
theorem page_remove_log (F : Mmu) (s : State) (pgdir va f pte : Nat)
    (h : (page_lookup F s pgdir va).1 = some (f, pte)) :
    (page_remove F s pgdir va).log = s.log ++ [Event.write pte 0, Event.tlb va] := by
  rw [page_remove_eq F s pgdir va f pte h]
  show (page_decref F s f).log ++ [Event.write pte 0] ++ [Event.tlb va] = _
  have e : (page_decref F s f).log = s.log := by
    unfold page_decref page_free pp_ref_dec
    dsimp only
    split_ifs <;> rfl
  rw [e, List.append_assoc]
  rfl

/-- C20 (counterexample). Frame 5 is mapped at address 0 and inserted there
again: the log of the call is the invalidation of `va` followed by the store
that overwrites the leaf entry; no invalidation follows the overwrite. -/
theorem page_insert_self_remap_log :
    (mappedState []).log = []
    ∧ (page_insert armv8 (mappedState []) 0x1000 5 0 0x40).2.log
        = [Event.tlb 0, Event.write 0x4000 0x5043] := by
  decide

/-- The log of `page_insert` when it does not find `pp` itself mapped at `va`:
the events of the removal of another frame (if one is mapped), then the
invalidation of `va`, then only stores to entries. -/
theorem page_insert_log_other (F : Mmu) (s : State) (pgdir pp va perm : Nat)
    (hself : ¬ ((pathValid F s.mem pgdir va ∧ pte3 F s.mem pgdir va ≠ 0
        ∧ validAt F s.mem (pte3 F s.mem pgdir va))
      ∧ pa2page (load64 s.mem (pte3 F s.mem pgdir va)) = pp)) :
    ∃ ws, (page_insert F s pgdir pp va perm).2.log
        = s.log
          ++ (if (pathValid F s.mem pgdir va ∧ pte3 F s.mem pgdir va ≠ 0
                ∧ validAt F s.mem (pte3 F s.mem pgdir va))
              ∧ (page_lookup F s pgdir va).1 ≠ none
            then [Event.write (pte3 F s.mem pgdir va) 0, Event.tlb va] else [])
          ++ Event.tlb va :: ws
      ∧ ∀ e, e ∈ ws → e.isWrite = true := by
  rw [page_insert_unfold, if_neg hself]
  -- the state after the optional removal
  have h2 : (if pathValid F s.mem pgdir va ∧ pte3 F s.mem pgdir va ≠ 0
        ∧ validAt F s.mem (pte3 F s.mem pgdir va)
      then page_remove F s pgdir va else s).log
      = s.log
        ++ (if (pathValid F s.mem pgdir va ∧ pte3 F s.mem pgdir va ≠ 0
              ∧ validAt F s.mem (pte3 F s.mem pgdir va))
            ∧ (page_lookup F s pgdir va).1 ≠ none
          then [Event.write (pte3 F s.mem pgdir va) 0, Event.tlb va] else []) := by
    by_cases hex : pathValid F s.mem pgdir va ∧ pte3 F s.mem pgdir va ≠ 0
        ∧ validAt F s.mem (pte3 F s.mem pgdir va)
    · rw [if_pos hex]
      cases hlk : (page_lookup F s pgdir va).1 with
      | none =>
        rw [page_remove_of_lookup_none F s pgdir va hlk, if_neg (fun h => h.2 rfl)]
        simp
      | some q =>
        obtain ⟨f, pte⟩ := q
        obtain ⟨_, hL, _, _, _⟩ := page_lookup_some F s pgdir va f pte hlk
        rw [page_remove_log F s pgdir va f pte hlk, if_pos ⟨hex, by simp⟩, hL]
    · rw [if_neg hex, if_neg (fun h => hex h.1)]
      simp
  generalize (if pathValid F s.mem pgdir va ∧ pte3 F s.mem pgdir va ≠ 0
        ∧ validAt F s.mem (pte3 F s.mem pgdir va)
      then page_remove F s pgdir va else s) = s2 at h2 ⊢
  obtain ⟨ws, hw, gw⟩ := pgdir_walk_log F (tlb_invalidate s2 va) pgdir va true
  have hw2 : (pgdir_walk F (tlb_invalidate s2 va) pgdir va true).2.log
      = s2.log ++ Event.tlb va :: ws := by
    rw [hw]
    show s2.log ++ [Event.tlb va] ++ ws = _
    rw [List.append_assoc]
    rfl
  cases hr : pgdir_walk F (tlb_invalidate s2 va) pgdir va true with
  | mk r s4 =>
    rw [hr] at hw2
    cases r with
    | none =>
      exact ⟨ws, by rw [← h2]; exact hw2, gw⟩
    | some e =>
      refine ⟨ws ++ [Event.write e (page2pa pp ||| (perm ||| F.PBE_V) % 2 ^ 32)], ?_, ?_⟩
      · show s4.log ++ [Event.write e (page2pa pp ||| (perm ||| F.PBE_V) % 2 ^ 32)] = _
        rw [← h2, show s4.log = s2.log ++ Event.tlb va :: ws from hw2, List.append_assoc]
        rfl
      · intro x hx
        rcases List.mem_append.mp hx with h | h
        · exact gw x h
        · simp only [List.mem_singleton] at h
          subst h
          rfl

/-- C20 (amended). In the log of `tlb_invalidate` calls and entry writes:
every `page_insert` invalidates `va` at least once and no other address;
`page_remove` of a mapped address clears the leaf entry and then invalidates
`va`, and of an unmapped address logs nothing. When `page_insert` finds `pp`
itself mapped at `va` it invalidates `va` first and then overwrites the leaf
entry in place. In every other branch the old leaf entry, if another frame is
mapped, is cleared and `va` invalidated by `page_remove`, then `va` is
invalidated, and only after that are table entries and the new leaf entry
written. -/
theorem tlb_invalidate_order (F : Mmu) (s : State) (pgdir pp va perm : Nat) :
    (∃ evs, (page_insert F s pgdir pp va perm).2.log = s.log ++ evs
        ∧ Event.tlb va ∈ evs ∧ ∀ x, Event.tlb x ∈ evs → x = va)
    ∧ (∀ f pte, (page_lookup F s pgdir va).1 = some (f, pte) →
        (page_remove F s pgdir va).log = s.log ++ [Event.write pte 0, Event.tlb va])
    ∧ ((page_lookup F s pgdir va).1 = none → (page_remove F s pgdir va).log = s.log)
    ∧ (((pathValid F s.mem pgdir va ∧ pte3 F s.mem pgdir va ≠ 0
          ∧ validAt F s.mem (pte3 F s.mem pgdir va))
        ∧ pa2page (load64 s.mem (pte3 F s.mem pgdir va)) = pp) →
        (page_insert F s pgdir pp va perm).2.log
          = s.log ++ [Event.tlb va,
              Event.write (pte3 F s.mem pgdir va) (page2pa pp ||| (perm ||| F.PBE_V) % 2 ^ 32)])
    ∧ (¬ ((pathValid F s.mem pgdir va ∧ pte3 F s.mem pgdir va ≠ 0
          ∧ validAt F s.mem (pte3 F s.mem pgdir va))
        ∧ pa2page (load64 s.mem (pte3 F s.mem pgdir va)) = pp) →
        ∃ ws, (page_insert F s pgdir pp va perm).2.log
            = s.log
              ++ (if (pathValid F s.mem pgdir va ∧ pte3 F s.mem pgdir va ≠ 0
                    ∧ validAt F s.mem (pte3 F s.mem pgdir va))
                  ∧ (page_lookup F s pgdir va).1 ≠ none
                then [Event.write (pte3 F s.mem pgdir va) 0, Event.tlb va] else [])
              ++ Event.tlb va :: ws
          ∧ ∀ e, e ∈ ws → e.isWrite = true) := by
  have hselflog : ((pathValid F s.mem pgdir va ∧ pte3 F s.mem pgdir va ≠ 0
        ∧ validAt F s.mem (pte3 F s.mem pgdir va))
      ∧ pa2page (load64 s.mem (pte3 F s.mem pgdir va)) = pp) →
      (page_insert F s pgdir pp va perm).2.log
        = s.log ++ [Event.tlb va,
            Event.write (pte3 F s.mem pgdir va) (page2pa pp ||| (perm ||| F.PBE_V) % 2 ^ 32)] := by
    intro h
    rw [page_insert_unfold, if_pos h]
    show s.log ++ [Event.tlb va] ++ [Event.write _ _] = _
    rw [List.append_assoc]
    rfl
  refine ⟨?_, ?_, ?_, hselflog, page_insert_log_other F s pgdir pp va perm⟩
  · by_cases h : (pathValid F s.mem pgdir va ∧ pte3 F s.mem pgdir va ≠ 0
        ∧ validAt F s.mem (pte3 F s.mem pgdir va))
      ∧ pa2page (load64 s.mem (pte3 F s.mem pgdir va)) = pp
    · refine ⟨_, hselflog h, by simp, ?_⟩
      intro x hx
      simp only [List.mem_cons, Event.tlb.injEq, List.mem_singleton, reduceCtorEq, or_false,
        List.not_mem_nil] at hx
      exact hx
    · obtain ⟨ws, hw, gw⟩ := page_insert_log_other F s pgdir pp va perm h
      refine ⟨_, by rw [hw, List.append_assoc], ?_, ?_⟩
      · simp
      · intro x hx
        rcases List.mem_append.mp hx with h1 | h1
        · split at h1
          · simp only [List.mem_cons, reduceCtorEq, Event.tlb.injEq, false_or,
              List.not_mem_nil, or_false] at h1
            exact h1
          · simp at h1
        · rcases List.mem_cons.mp h1 with h2 | h2
          · simp only [Event.tlb.injEq] at h2
            exact h2
          · have := gw _ h2
            simp [Event.isWrite] at this
  · intro f pte h
    exact page_remove_log F s pgdir va f pte h
  · intro h
    rw [page_remove_of_lookup_none F s pgdir va h]

/-! ### Frame accounting of the walker with `create` -/

/-- One level that creates a table, in a state where the entry is outside the
frame taken: the new table is empty, so the next level creates one as well,
and its entry 0 lies outside the frames left on the free list. -/
theorem pgdir_walk_level_create_step (F : Mmu) (s : State) (ep ix A : Nat) (t : List Nat)
    (h : ¬ validAt F s.mem ep) (hep : ep % 8 = 0)
    (hl : s.page_free_list = A :: t) (hnd : (A :: t).Nodup) (hout : ¬ inFrame A ep) :
    ∃ s1, pgdir_walk_level F s ep ix true = Level.next s1 (page2pa A)
      ∧ s1.mem = store64 (bzero s.mem (page2pa A) BY2PG) ep (page2pa A ||| F.PTE_V ||| F.PTE_R)
      ∧ s1.page_free_list = t
      ∧ s1.pp_ref A = (if s.pp_ref A + 1 = F.REF_MOD then 0 else s.pp_ref A + 1)
      ∧ (∀ i, i ≠ A → s1.pp_ref i = s.pp_ref i)
      ∧ ¬ validAt F s1.mem (page2pa A)
      ∧ (∀ f, f ∈ t → ¬ inFrame f (page2pa A))
      ∧ t.Nodup := by
  refine ⟨_, pgdir_walk_level_create F s ep ix A t h hl, rfl, rfl, ?_, ?_, ?_, ?_,
    (List.nodup_cons.mp hnd).2⟩
  · show (if A = A then _ else s.pp_ref A) = _
    rw [if_pos rfl]
    rfl
  · intro i hi
    show (if i = A then _ else s.pp_ref i) = s.pp_ref i
    rw [if_neg hi]
  · apply not_validAt_of_load_zero
    exact load_created_in _ _ _ _ _ (page2pa_aligned A) hep (inFrame_base A)
      (fun e => hout (by rw [e]; exact inFrame_base A))
  · intro f hf hin
    have e := inFrame_unique f A _ hin (inFrame_base A)
    rw [e] at hf
    exact (List.nodup_cons.mp hnd).1 hf

theorem pte2_mem_pathEntries (F : Mmu) (m : Mem) (pgdir va : Nat)
    (h0 : validAt F m (pte0 F pgdir va)) (h1 : validAt F m (pte1 F m pgdir va)) :
    pte2 F m pgdir va ∈ pathEntries F m pgdir va := by
  unfold pathEntries
  rw [if_pos h0, if_pos h1]
  simp

theorem table_entry_lt (F : Mmu) (hF : F.WF) (A : Nat) (hA : A < 2 ^ 52) :
    (page2pa A ||| F.PTE_V ||| F.PTE_R) % 2 ^ 64 = page2pa A ||| F.PTE_V ||| F.PTE_R := by
  have hvr : F.PTE_V ||| F.PTE_R < 4096 := lor_lt_4096 _ _ hF.PTE_V_lt hF.PTE_R_lt
  apply Nat.mod_eq_of_lt
  rw [Nat.lor_assoc, page2pa_lor _ _ hvr]
  omega

/-- Frame accounting of the walker with `create`, for a root table at an
aligned address and a free list without duplicates whose frames (numbers below
`2^52`, counts below the maximum of the field) hold none of the entries the
walker reads: when the free list holds at least as many frames as the path of
`va` lacks tables, the walker returns 0, takes exactly that many frames from
the head of the free list, raises the count of each of them by 1 and changes
no other count; a complete path changes nothing; the first new table is
written, with `PTE_V | PTE_R`, into the first missing entry of the path. -/
theorem pgdir_walk_create_accounting (F : Mmu) (hF : F.WF) (s : State) (pgdir va : Nat)
    (hal : pgdir % 8 = 0)
    (hnd : s.page_free_list.Nodup)
    (hfr : ∀ f, f ∈ s.page_free_list → f < 2 ^ 52)
    (hov : ∀ f, f ∈ s.page_free_list → s.pp_ref f + 1 ≠ F.REF_MOD)
    (hsep : ∀ f, f ∈ s.page_free_list →
      ∀ e, e ∈ pathEntries F s.mem pgdir va → ¬ inFrame f e)
    (hk : missingTables F s.mem pgdir va ≤ s.page_free_list.length) :
    (pgdir_walk F s pgdir va true).1 ≠ none
    ∧ (pgdir_walk F s pgdir va true).2.page_free_list
        = s.page_free_list.drop (missingTables F s.mem pgdir va)
    ∧ (∀ i, i ∈ s.page_free_list.take (missingTables F s.mem pgdir va) →
        (pgdir_walk F s pgdir va true).2.pp_ref i = s.pp_ref i + 1)
    ∧ (∀ i, i ∉ s.page_free_list.take (missingTables F s.mem pgdir va) →
        (pgdir_walk F s pgdir va true).2.pp_ref i = s.pp_ref i)
    ∧ (missingTables F s.mem pgdir va = 0 → (pgdir_walk F s pgdir va true).2 = s)
    ∧ (∀ A t, s.page_free_list = A :: t → 0 < missingTables F s.mem pgdir va →
        load64 (pgdir_walk F s pgdir va true).2.mem (firstMissing F s.mem pgdir va)
          = page2pa A ||| F.PTE_V ||| F.PTE_R) := by
  have a0 := pte0_aligned F pgdir va hal
  have a1 := pte1_aligned F s.mem pgdir va
  have a2 := pte2_aligned F s.mem pgdir va
  by_cases v0 : validAt F s.mem (pte0 F pgdir va)
  · have hl0 := pgdir_walk_level_valid F s (pte0 F pgdir va) (F.PT1X va) true v0
    by_cases v1 : validAt F s.mem (pte1 F s.mem pgdir va)
    · have hl1 : pgdir_walk_level F s
          (PTE_ADDR (load64 s.mem (pte0 F pgdir va)) + 8 * F.PT1X va) (F.PT2X va) true
          = Level.next s (pte2 F s.mem pgdir va) := pgdir_walk_level_valid F s _ _ _ v1
      by_cases v2 : validAt F s.mem (pte2 F s.mem pgdir va)
      · -- nothing is missing
        have hm : missingTables F s.mem pgdir va = 0 := by
          unfold missingTables; rw [if_pos v0, if_pos v1, if_pos v2]
        rw [hm, pgdir_walk_pathValid F s pgdir va true ⟨v0, v1, v2⟩]
        refine ⟨by simp, by simp, by simp, fun _ _ => rfl, fun _ => rfl, ?_⟩
        intro A t _ h
        exact absurd h (by omega)
      · -- the level-3 table is missing
        have hm : missingTables F s.mem pgdir va = 1 := by
          unfold missingTables; rw [if_pos v0, if_pos v1, if_neg v2]
        have hfm : firstMissing F s.mem pgdir va = pte2 F s.mem pgdir va := by
          unfold firstMissing; rw [if_pos v0, if_pos v1]
        rw [hm] at hk ⊢
        rcases list_nil_or_cons s.page_free_list with hl | ⟨A, t, hl⟩
        · rw [hl] at hk; simp at hk
        have hA : A ∈ s.page_free_list := by rw [hl]; simp
        obtain ⟨s1, hl2, hm1, hf1, hrA, hr1, _, _, _⟩ := pgdir_walk_level_create_step F s
          (pte2 F s.mem pgdir va) (F.PT3X va) A t v2 a2 hl (hl ▸ hnd)
          (hsep A hA _ (pte2_mem_pathEntries F s.mem pgdir va v0 v1))
        have hw : pgdir_walk F s pgdir va true
            = (some (PTE_ADDR (load64 s1.mem (pte2 F s.mem pgdir va)) + 8 * F.PT3X va), s1) := by
          simp only [pgdir_walk_unfold, hl0, hl1, hl2]
        rw [hw, hfm]
        refine ⟨by simp, by rw [hl]; exact hf1, ?_, ?_, fun h => absurd h (by omega), ?_⟩
        · intro i hi
          rw [hl] at hi
          simp only [List.take_succ_cons, List.take_zero, List.mem_singleton] at hi
          subst hi
          show s1.pp_ref i = _
          rw [hrA, if_neg (hov i hA)]
        · intro i hi
          rw [hl] at hi
          simp only [List.take_succ_cons, List.take_zero, List.mem_singleton] at hi
          exact hr1 i hi
        · intro A1 t1 hl1c _
          rw [hl] at hl1c
          simp only [List.cons.injEq] at hl1c
          obtain ⟨rfl, _⟩ := hl1c
          show load64 s1.mem _ = _
          rw [hm1, load_created_same, table_entry_lt F hF A (hfr A hA)]
    · -- the level-2 and level-3 tables are missing
      have hm : missingTables F s.mem pgdir va = 2 := by
        unfold missingTables; rw [if_pos v0, if_neg v1]
      have hfm : firstMissing F s.mem pgdir va = pte1 F s.mem pgdir va := by
        unfold firstMissing; rw [if_pos v0, if_neg v1]
      rw [hm] at hk ⊢
      rcases list_nil_or_cons s.page_free_list with hl | ⟨A, t, hl⟩
      · rw [hl] at hk; simp at hk
      rcases t with _ | ⟨B, t2⟩
      · rw [hl] at hk; simp at hk
      have hA : A ∈ s.page_free_list := by rw [hl]; simp
      have hB : B ∈ s.page_free_list := by rw [hl]; simp
      have sep1 := hsep A hA _ (pte1_mem_pathEntries F s.mem pgdir va v0)
      have sepB1 := hsep B hB _ (pte1_mem_pathEntries F s.mem pgdir va v0)
      obtain ⟨s1, hl1, hm1, hf1, hrA, hr1, v2c, out1, nd1⟩ := pgdir_walk_level_create_step F s
        (pte1 F s.mem pgdir va) (F.PT2X va) A (B :: t2) v1 a1 hl (hl ▸ hnd) sep1
      have hl1c : pgdir_walk_level F s
          (PTE_ADDR (load64 s.mem (pte0 F pgdir va)) + 8 * F.PT1X va) (F.PT2X va) true
          = Level.next s1 (page2pa A) := hl1
      have hAB : B ≠ A := fun e => out1 B (by simp) (by rw [e]; exact inFrame_base A)
      obtain ⟨s2, hl2, hm2, hf2, hrB, hr2, _, _, _⟩ := pgdir_walk_level_create_step F s1
        (page2pa A) (F.PT3X va) B t2 v2c (page2pa_aligned A) hf1 nd1 (out1 B (by simp))
      have hw : pgdir_walk F s pgdir va true
          = (some (PTE_ADDR (load64 s2.mem (page2pa A)) + 8 * F.PT3X va), s2) := by
        simp only [pgdir_walk_unfold, hl0, hl1c, hl2]
      rw [hw, hfm]
      refine ⟨by simp, by rw [hl]; exact hf2, ?_, ?_, fun h => absurd h (by omega), ?_⟩
      · intro i hi
        rw [hl] at hi
        simp only [List.take_succ_cons, List.take_zero, List.mem_cons, List.mem_singleton,
          List.not_mem_nil, or_false] at hi
        show s2.pp_ref i = _
        rcases hi with rfl | rfl
        · rw [hr2 i (Ne.symm hAB), hrA, if_neg (hov i hA)]
        · rw [hrB, hr1 i hAB, if_neg (hov i hB)]
      · intro i hi
        rw [hl] at hi
        simp only [List.take_succ_cons, List.take_zero, List.mem_cons, List.mem_singleton,
          List.not_mem_nil, or_false, not_or] at hi
        show s2.pp_ref i = _
        rw [hr2 i hi.2, hr1 i hi.1]
      · intro A1 t1 hlc _
        rw [hl] at hlc
        simp only [List.cons.injEq] at hlc
        obtain ⟨rfl, _⟩ := hlc
        show load64 s2.mem _ = _
        rw [hm2, load_created_out _ _ _ _ _ a1 (page2pa_aligned A) sepB1
          (fun e => sep1 (by rw [← e]; exact inFrame_base A)),
          hm1, load_created_same, table_entry_lt F hF A (hfr A hA)]
  · -- all three tables are missing
    have hm : missingTables F s.mem pgdir va = 3 := by
      unfold missingTables; rw [if_neg v0]
    have hfm : firstMissing F s.mem pgdir va = pte0 F pgdir va := by
      unfold firstMissing; rw [if_neg v0]
    rw [hm] at hk ⊢
    rcases list_nil_or_cons s.page_free_list with hl | ⟨A, t, hl⟩
    · rw [hl] at hk; simp at hk
    rcases t with _ | ⟨B, t2⟩
    · rw [hl] at hk; simp at hk
    rcases t2 with _ | ⟨C, t3⟩
    · rw [hl] at hk; simp at hk
    have hA : A ∈ s.page_free_list := by rw [hl]; simp
    have hB : B ∈ s.page_free_list := by rw [hl]; simp
    have hC : C ∈ s.page_free_list := by rw [hl]; simp
    have sep0 := hsep A hA _ (pte0_mem_pathEntries F s.mem pgdir va)
    have sepB0 := hsep B hB _ (pte0_mem_pathEntries F s.mem pgdir va)
    have sepC0 := hsep C hC _ (pte0_mem_pathEntries F s.mem pgdir va)
    obtain ⟨s1, hl0, hm1, hf1, hrA, hr1, v1c, out1, nd1⟩ := pgdir_walk_level_create_step F s
      (pte0 F pgdir va) (F.PT1X va) A (B :: C :: t3) v0 a0 hl (hl ▸ hnd) sep0
    have hAB : B ≠ A := fun e => out1 B (by simp) (by rw [e]; exact inFrame_base A)
    have hAC : C ≠ A := fun e => out1 C (by simp) (by rw [e]; exact inFrame_base A)
    obtain ⟨s2, hl1, hm2, hf2, hrB, hr2, v2c, out2, nd2⟩ := pgdir_walk_level_create_step F s1
      (page2pa A) (F.PT2X va) B (C :: t3) v1c (page2pa_aligned A) hf1 nd1 (out1 B (by simp))
    have hBC : C ≠ B := fun e => out2 C (by simp) (by rw [e]; exact inFrame_base B)
    obtain ⟨s3, hl2, hm3, hf3, hrC, hr3, _, _, _⟩ := pgdir_walk_level_create_step F s2
      (page2pa B) (F.PT3X va) C t3 v2c (page2pa_aligned B) hf2 nd2 (out2 C (by simp))
    have hw : pgdir_walk F s pgdir va true
        = (some (PTE_ADDR (load64 s3.mem (page2pa B)) + 8 * F.PT3X va), s3) := by
      simp only [pgdir_walk_unfold, hl0, hl1, hl2]
    rw [hw, hfm]
    refine ⟨by simp, by rw [hl]; exact hf3, ?_, ?_, fun h => absurd h (by omega), ?_⟩
    · intro i hi
      rw [hl] at hi
      simp only [List.take_succ_cons, List.take_zero, List.mem_cons, List.mem_singleton,
        List.not_mem_nil, or_false] at hi
      show s3.pp_ref i = _
      rcases hi with rfl | rfl | rfl
      · rw [hr3 i (Ne.symm hAC), hr2 i (Ne.symm hAB), hrA, if_neg (hov i hA)]
      · rw [hr3 i (Ne.symm hBC), hrB, hr1 i hAB, if_neg (hov i hB)]
      · rw [hrC, hr2 i hBC, hr1 i hAC, if_neg (hov i hC)]
    · intro i hi
      rw [hl] at hi
      simp only [List.take_succ_cons, List.take_zero, List.mem_cons, List.mem_singleton,
        List.not_mem_nil, or_false, not_or] at hi
      show s3.pp_ref i = _
      rw [hr3 i hi.2.2, hr2 i hi.2.1, hr1 i hi.1]
    · intro A1 t1 hlc _
      rw [hl] at hlc
      simp only [List.cons.injEq] at hlc
      obtain ⟨rfl, _⟩ := hlc
      show load64 s3.mem _ = _
      rw [hm3, load_created_out _ _ _ _ _ a0 (page2pa_aligned B) sepC0
          (fun e => sepB0 (by rw [← e]; exact inFrame_base B)),
        hm2, load_created_out _ _ _ _ _ a0 (page2pa_aligned A) sepB0
          (fun e => sep0 (by rw [← e]; exact inFrame_base A)),
        hm1, load_created_same, table_entry_lt F hF A (hfr A hA)]

/-! ### The duality, up to the frames handed out by `page_alloc` -/

theorem mem_release (X : List Nat) (pp i : Nat) : i ∈ release X pp ↔ i ∈ X ∧ i ≠ pp := by
  unfold release
  simp [List.mem_filter]

theorem mem_uncounted (s : State) (X : List Nat) (i : Nat) :
    i ∈ uncounted s X ↔ i ∈ X ∧ s.pp_ref i = 0 := by
  unfold uncounted
  simp [List.mem_filter]

theorem DualityUpTo_congr (s : State) (X Y : List Nat) (h : ∀ i, i ∈ X ↔ i ∈ Y)
    (hd : DualityUpTo s X) : DualityUpTo s Y := by
  refine ⟨fun i hi => hd.1 i ((h i).mpr hi), fun i hi => ?_⟩
  rw [← h i]
  exact hd.2 i hi

theorem DualityUpTo_nil (s : State) (h : DualityUpTo s []) : Duality s := by
  intro i hi
  have := h.2 i hi
  simpa using this

/-- A call that is a `FrameStep` and keeps the free list in order keeps the
duality up to the outstanding frames whose count is still 0. -/
theorem DualityUpTo_step (s s1 : State) (X : List Nat) (hs : FrameStep s s1)
    (h1 : FreeListInv s1) (hd : DualityUpTo s X) : DualityUpTo s1 (uncounted s1 X) := by
  obtain ⟨hN, hL, hC⟩ := hs
  obtain ⟨hX, hD⟩ := hd
  refine ⟨?_, ?_⟩
  · intro i hi
    rw [mem_uncounted] at hi
    refine ⟨hi.2, fun hin => ?_⟩
    rcases hL i hin with e | e
    · exact (hX i hi.1).2 e
    · exact e (hX i hi.1).1
  · intro i hi
    rw [hN] at hi
    constructor
    · intro hz
      rcases hC i hz with e | ⟨e1, e2⟩
      · exact Or.inl e
      · rcases (hD i hi).mp e1 with e | e
        · exact absurd e e2
        · exact Or.inr ((mem_uncounted _ _ _).mpr ⟨e, hz⟩)
    · rintro (e | e)
      · exact h1.2 i e
      · exact ((mem_uncounted _ _ _).mp e).2

theorem FrameStep_of_eq (s s1 : State) (hN : s1.npage = s.npage) (h1 : s1.pp_ref = s.pp_ref)
    (h2 : s1.page_free_list = s.page_free_list) : FrameStep s s1 := by
  refine ⟨hN, ?_, ?_⟩
  · intro i hi
    rw [h2] at hi
    exact Or.inl hi
  · intro i hi
    rw [h1] at hi
    rw [h2]
    by_cases hin : i ∈ s.page_free_list
    · exact Or.inl hin
    · exact Or.inr ⟨hi, hin⟩

theorem FrameStep_trans (s s1 s2 : State) (h1 : FrameStep s s1) (h2 : FrameStep s1 s2)
    (hsub : ∀ i, i ∈ s2.page_free_list → i ∈ s1.page_free_list) : FrameStep s s2 := by
  refine ⟨h2.1.trans h1.1, ?_, ?_⟩
  · intro i hi
    exact h1.2.1 i (hsub i hi)
  · intro i hi
    rcases h2.2.2 i hi with e | ⟨e1, e2⟩
    · exact Or.inl e
    · rcases h1.2.2 i e1 with e | e
      · exact absurd e e2
      · exact Or.inr e

theorem pp_ref_inc_step (F : Mmu) (s : State) (pp : Nat)
    (hov : s.pp_ref pp + 1 ≠ F.REF_MOD) : FrameStep s (pp_ref_inc F s pp) := by
  refine ⟨rfl, fun i hi => Or.inl hi, ?_⟩
  intro i hi
  have hi1 : (if i = pp then (if s.pp_ref pp + 1 = F.REF_MOD then 0 else s.pp_ref pp + 1)
      else s.pp_ref i) = 0 := hi
  by_cases e : i = pp
  · rw [if_pos e, if_neg hov] at hi1
    omega
  · rw [if_neg e] at hi1
    by_cases hin : i ∈ s.page_free_list
    · exact Or.inl hin
    · exact Or.inr ⟨hi1, hin⟩

theorem page_decref_pp_ref_other (F : Mmu) (s : State) (pp i : Nat) (h : i ≠ pp) :
    (page_decref F s pp).pp_ref i = s.pp_ref i := by
  unfold page_decref page_free
  dsimp only
  split
  · split
    · show (if i = pp then _ else s.pp_ref i) = _
      rw [if_neg h]
    · show (if i = pp then _ else s.pp_ref i) = _
      rw [if_neg h]
  · show (if i = pp then _ else s.pp_ref i) = _
    rw [if_neg h]

/-- The count `page_decref` leaves in the frame, and the free list. -/
theorem page_decref_cases (F : Mmu) (hF : F.WF) (s : State) (pp : Nat) :
    (page_decref F s pp).npage = s.npage
    ∧ ((s.pp_ref pp = 1 ∧ (page_decref F s pp).pp_ref pp = 0
          ∧ (page_decref F s pp).page_free_list = pp :: s.page_free_list)
        ∨ (s.pp_ref pp ≠ 1 ∧ (page_decref F s pp).pp_ref pp ≠ 0
          ∧ (page_decref F s pp).page_free_list = s.page_free_list)) := by
  have hM := hF.REF_MOD_gt
  by_cases h0 : s.pp_ref pp = 0
  · have e : page_decref F s pp = pp_ref_dec F s pp := by
      unfold page_decref pp_ref_dec
      have : ¬ F.REF_MOD - 1 = 0 := by omega
      simp [h0, this]
    rw [e]
    refine ⟨rfl, Or.inr ⟨by omega, ?_, rfl⟩⟩
    show (if pp = pp then (if s.pp_ref pp = 0 then F.REF_MOD - 1 else s.pp_ref pp - 1)
      else s.pp_ref pp) ≠ 0
    rw [if_pos rfl, if_pos h0]
    omega
  · rw [page_decref_eq F s pp (by omega)]
    refine ⟨rfl, ?_⟩
    by_cases h1 : s.pp_ref pp = 1
    · refine Or.inl ⟨h1, ?_, ?_⟩
      · show (if pp = pp then s.pp_ref pp - 1 else s.pp_ref pp) = 0
        rw [if_pos rfl]; omega
      · show (if s.pp_ref pp = 1 then pp :: s.page_free_list else s.page_free_list) = _
        rw [if_pos h1]
    · refine Or.inr ⟨h1, ?_, ?_⟩
      · show (if pp = pp then s.pp_ref pp - 1 else s.pp_ref pp) ≠ 0
        rw [if_pos rfl]; omega
      · show (if s.pp_ref pp = 1 then pp :: s.page_free_list else s.page_free_list) = _
        rw [if_neg h1]

theorem page_decref_step (F : Mmu) (hF : F.WF) (s : State) (pp : Nat) :
    FrameStep s (page_decref F s pp) := by
  obtain ⟨hN, hc⟩ := page_decref_cases F hF s pp
  have ho := page_decref_pp_ref_other F s pp
  refine ⟨hN, ?_, ?_⟩
  · intro i hi
    rcases hc with ⟨h1, _, hl⟩ | ⟨_, _, hl⟩
    · rw [hl] at hi
      rcases List.mem_cons.mp hi with e | e
      · subst e; exact Or.inr (by omega)
      · exact Or.inl e
    · rw [hl] at hi
      exact Or.inl hi
  · intro i hi
    by_cases e : i = pp
    · subst e
      rcases hc with ⟨_, _, hl⟩ | ⟨_, hne, _⟩
      · rw [hl]
        exact Or.inl (List.mem_cons_self _ _)
      · exact absurd hi hne
    · rw [ho i e] at hi
      by_cases hin : i ∈ s.page_free_list
      · refine Or.inl ?_
        rcases hc with ⟨_, _, hl⟩ | ⟨_, _, hl⟩
        · rw [hl]; exact List.mem_cons_of_mem _ hin
        · rw [hl]; exact hin
      · exact Or.inr ⟨hi, hin⟩

theorem page_remove_step (F : Mmu) (hF : F.WF) (s : State) (pgdir va : Nat) :
    FrameStep s (page_remove F s pgdir va)
    ∧ ∀ i, (∀ pte, (page_lookup F s pgdir va).1 ≠ some (i, pte)) →
        (page_remove F s pgdir va).pp_ref i = s.pp_ref i := by
  cases hr : (page_lookup F s pgdir va).1 with
  | none =>
    rw [page_remove_of_lookup_none F s pgdir va hr]
    exact ⟨FrameStep_of_eq _ _ rfl rfl rfl, fun _ _ => rfl⟩
  | some q =>
    obtain ⟨f, pte⟩ := q
    rw [page_remove_eq F s pgdir va f pte hr]
    refine ⟨FrameStep_trans _ _ _ (page_decref_step F hF s f)
      (FrameStep_of_eq _ _ rfl rfl rfl) (fun i hi => hi), ?_⟩
    intro i hi
    have hne : i ≠ f := fun e => hi pte (by rw [e])
    exact page_decref_pp_ref_other F s f i hne

theorem WalkStep_refl (s : State) (h : FreeListInv s) : WalkStep s s :=
  ⟨h, fun _ hi => hi, FrameStep_of_eq _ _ rfl rfl rfl, fun _ _ => rfl⟩

theorem WalkStep_trans (s s1 s2 : State) (h1 : WalkStep s s1) (h2 : WalkStep s1 s2) :
    WalkStep s s2 :=
  ⟨h2.1, fun i hi => h1.2.1 i (h2.2.1 i hi),
    FrameStep_trans _ _ _ h1.2.2.1 h2.2.2.1 h2.2.1,
    fun i hi => by
      rw [h2.2.2.2 i (fun hin => hi (h1.2.1 i hin)), h1.2.2.2 i hi]⟩

theorem pgdir_walk_level_step (F : Mmu) (hF : F.WF) (s : State) (ep ix : Nat) (create : Bool)
    (h : FreeListInv s) : WalkStep s (pgdir_walk_level F s ep ix create).state := by
  by_cases hv : validAt F s.mem ep
  · rw [pgdir_walk_level_valid F s ep ix create hv]
    exact WalkStep_refl s h
  · cases create with
    | false =>
      rw [pgdir_walk_level_false, if_neg hv]
      exact WalkStep_refl s h
    | true =>
      rcases list_nil_or_cons s.page_free_list with hl | ⟨p, t, hl⟩
      · rw [pgdir_walk_level_nofree F s ep ix hv hl]
        exact WalkStep_refl s h
      · have hinv := pgdir_walk_level_inv F s ep ix true h
        rw [pgdir_walk_level_create F s ep ix p t hv hl] at hinv ⊢
        have hM := hF.REF_MOD_gt
        have hp0 : s.pp_ref p = 0 := h.2 p (by rw [hl]; exact List.mem_cons_self _ _)
        have hpt : p ∉ t := by
          have := h.1
          rw [hl] at this
          exact (List.nodup_cons.mp this).1
        refine ⟨hinv.1, hinv.2, ⟨rfl, ?_, ?_⟩, ?_⟩
        · intro i hi
          exact Or.inl (hinv.2 i hi)
        · intro i hi
          have hi1 : (if i = p then (if s.pp_ref p + 1 = F.REF_MOD then 0 else s.pp_ref p + 1)
              else s.pp_ref i) = 0 := hi
          by_cases e : i = p
          · rw [if_pos e, hp0, if_neg (by omega)] at hi1
            omega
          · rw [if_neg e] at hi1
            by_cases hin : i ∈ s.page_free_list
            · refine Or.inl ?_
              show i ∈ t
              rw [hl] at hin
              rcases List.mem_cons.mp hin with e1 | e1
              · exact absurd e1 e
              · exact e1
            · exact Or.inr ⟨hi1, hin⟩
        · intro i hi
          have e : i ≠ p := fun e => hi (by rw [hl, e]; exact List.mem_cons_self _ _)
          show (if i = p then _ else s.pp_ref i) = _
          rw [if_neg e]

theorem pgdir_walk_step (F : Mmu) (hF : F.WF) (s : State) (pgdir va : Nat) (create : Bool)
    (h : FreeListInv s) : WalkStep s (pgdir_walk F s pgdir va create).2 := by
  rw [pgdir_walk_unfold]
  have h0 := pgdir_walk_level_step F hF s (pte0 F pgdir va) (F.PT1X va) create h
  cases hL0 : pgdir_walk_level F s (pte0 F pgdir va) (F.PT1X va) create with
  | nomem s1 => rw [hL0] at h0; exact h0
  | null s1 => rw [hL0] at h0; exact h0
  | next s1 e1 =>
    rw [hL0] at h0
    have h1 := pgdir_walk_level_step F hF s1 e1 (F.PT2X va) create h0.1
    dsimp only
    cases hL1 : pgdir_walk_level F s1 e1 (F.PT2X va) create with
    | nomem s2 => rw [hL1] at h1; exact WalkStep_trans _ _ _ h0 h1
    | null s2 => rw [hL1] at h1; exact WalkStep_trans _ _ _ h0 h1
    | next s2 e2 =>
      rw [hL1] at h1
      have h2 := pgdir_walk_level_step F hF s2 e2 (F.PT3X va) create h1.1
      have h01 := WalkStep_trans _ _ _ h0 h1
      dsimp only
      cases hL2 : pgdir_walk_level F s2 e2 (F.PT3X va) create with
      | nomem s3 => rw [hL2] at h2; exact WalkStep_trans _ _ _ h01 h2
      | null s3 => rw [hL2] at h2; exact WalkStep_trans _ _ _ h01 h2
      | next s3 e3 => rw [hL2] at h2; exact WalkStep_trans _ _ _ h01 h2

theorem page_insert_step (F : Mmu) (hF : F.WF) (s : State) (pgdir pp va perm : Nat)
    (h : FreeListInv s) (hpp : pp ∉ s.page_free_list)
    (hov : s.pp_ref pp + 1 ≠ F.REF_MOD)
    (hg : ∀ old pte, (page_lookup F s pgdir va).1 = some (old, pte) →
      old ∉ s.page_free_list) :
    FrameStep s (page_insert F s pgdir pp va perm).2 := by
  rw [page_insert_unfold]
  split
  · exact FrameStep_of_eq _ _ rfl rfl rfl
  · rename_i hne
    -- the state after the optional removal
    have h2 : (FreeListInv (if pathValid F s.mem pgdir va ∧ pte3 F s.mem pgdir va ≠ 0
          ∧ validAt F s.mem (pte3 F s.mem pgdir va)
        then page_remove F s pgdir va else s)
        ∧ pp ∉ (if pathValid F s.mem pgdir va ∧ pte3 F s.mem pgdir va ≠ 0
          ∧ validAt F s.mem (pte3 F s.mem pgdir va)
        then page_remove F s pgdir va else s).page_free_list)
        ∧ FrameStep s (if pathValid F s.mem pgdir va ∧ pte3 F s.mem pgdir va ≠ 0
          ∧ validAt F s.mem (pte3 F s.mem pgdir va)
        then page_remove F s pgdir va else s)
        ∧ (if pathValid F s.mem pgdir va ∧ pte3 F s.mem pgdir va ≠ 0
          ∧ validAt F s.mem (pte3 F s.mem pgdir va)
        then page_remove F s pgdir va else s).pp_ref pp = s.pp_ref pp := by
      split
      · rename_i hex
        have hr := page_remove_inv F s pgdir va h hg
        have hnl : ∀ pte, (page_lookup F s pgdir va).1 ≠ some (pp, pte) := by
          intro pte e
          rw [page_lookup_eq] at e
          split at e
          · simp only [Option.some.injEq, Prod.mk.injEq] at e
            exact hne ⟨hex, e.1⟩
          · exact absurd e (by simp)
        refine ⟨⟨hr.1, ?_⟩, (page_remove_step F hF s pgdir va).1,
          (page_remove_step F hF s pgdir va).2 pp hnl⟩
        intro hin
        rcases hr.2 pp hin with e | ⟨pte, e⟩
        · exact hpp e
        · exact hnl pte e
      · exact ⟨⟨h, hpp⟩, FrameStep_of_eq _ _ rfl rfl rfl, rfl⟩
    generalize (if pathValid F s.mem pgdir va ∧ pte3 F s.mem pgdir va ≠ 0
          ∧ validAt F s.mem (pte3 F s.mem pgdir va)
        then page_remove F s pgdir va else s) = s2 at h2
    obtain ⟨⟨hf2, hpp2⟩, hs2, hc2⟩ := h2
    have h3 : FreeListInv (tlb_invalidate s2 va) := FreeListInv_of_eq _ _ rfl rfl hf2
    have hw := pgdir_walk_step F hF (tlb_invalidate s2 va) pgdir va true h3
    have hs3 : FrameStep s (tlb_invalidate s2 va) :=
      FrameStep_trans _ _ _ hs2 (FrameStep_of_eq _ _ rfl rfl rfl) (fun i hi => hi)
    cases hr : pgdir_walk F (tlb_invalidate s2 va) pgdir va true with
    | mk r1 s4 =>
      rw [hr] at hw
      obtain ⟨_, hsub, hs4, hc4⟩ := hw
      have hs04 : FrameStep s s4 := FrameStep_trans _ _ _ hs3 hs4 hsub
      cases r1 with
      | none => exact hs04
      | some e =>
        have hc : s4.pp_ref pp = s.pp_ref pp := by
          rw [hc4 pp hpp2]
          exact hc2
        have hst : FrameStep s
            (store_pte s4 e (page2pa pp ||| (perm ||| F.PBE_V) % 2 ^ 32)) :=
          FrameStep_trans _ _ _ hs04 (FrameStep_of_eq _ _ rfl rfl rfl) (fun i hi => hi)
        refine FrameStep_trans _ _ _ hst (pp_ref_inc_step F _ pp ?_) (fun i hi => hi)
        show s4.pp_ref pp + 1 ≠ F.REF_MOD
        rw [hc]
        exact hov

/-- C3 (amended). After `page_init` over a zeroed `pages` array a frame has
`pp_ref == 0` if and only if it is on the free list. In every state reached
from there by `page_alloc`, `page_free`, `page_decref`, `pgdir_walk`,
`page_insert` and `page_remove`, where no frame on the free list is handed to
`page_free`, `page_decref` or `page_insert`, no mapping of such a frame is
removed and `page_insert` does not overflow a count: every frame on the free
list is on it once, and a frame has `pp_ref == 0` if and only if it is on the
free list or outstanding, that is handed out by `page_alloc` and since then
neither given to `page_free` nor seen with a count that is not 0; an
outstanding frame is off the list. When no frame is outstanding the duality
holds as stated. -/
theorem free_list_invariant (F : Mmu) (hF : F.WF) (s0 : State)
    (h0 : ∀ i, s0.pp_ref i = 0) :
    Duality (page_init F s0)
    ∧ (∀ s X, Reachable F s0 s X → FreeListInv s ∧ DualityUpTo s X)
    ∧ (∀ s, Reachable F s0 s [] → Duality s) := by
  have main : ∀ s X, Reachable F s0 s X → FreeListInv s ∧ DualityUpTo s X := by
    intro s X hs
    induction hs with
    | init =>
      refine ⟨page_init_inv F s0 h0, fun i hi => absurd hi (List.not_mem_nil i), fun i hi => ?_⟩
      have := page_init_duality F hF s0 h0 i hi
      simpa using this
    | @alloc s X _ ih =>
      obtain ⟨hf, hX, hD⟩ := ih
      refine ⟨(page_alloc_inv _ hf).1, ?_⟩
      rcases list_nil_or_cons s.page_free_list with hl | ⟨p, t, hl⟩
      · rw [page_alloc_none s hl]
        exact ⟨hX, hD⟩
      · rw [page_alloc_some s p t hl]
        have hn := hf.1
        rw [hl] at hn
        have hpt := (List.nodup_cons.mp hn).1
        refine ⟨?_, ?_⟩
        · intro i hi
          rcases List.mem_cons.mp hi with e | e
          · subst e
            exact ⟨hf.2 i (by rw [hl]; exact List.mem_cons_self _ _), hpt⟩
          · refine ⟨(hX i e).1, fun hin => (hX i e).2 ?_⟩
            rw [hl]
            exact List.mem_cons_of_mem _ hin
        · intro i hi
          have := hD i hi
          rw [hl] at this
          show s.pp_ref i = 0 ↔ i ∈ t ∨ i ∈ p :: X
          rw [this]
          simp only [List.mem_cons]
          tauto
    | @free s X pp _ hpp ih =>
      obtain ⟨hf, hX, hD⟩ := ih
      refine ⟨(page_free_inv _ pp hf hpp).1, ?_⟩
      unfold page_free
      split
      · rename_i hpos
        refine ⟨?_, ?_⟩
        · intro i hi
          exact hX i ((mem_release _ _ _).mp hi).1
        · intro i hi
          rw [hD i hi, mem_release]
          constructor
          · rintro (e | e)
            · exact Or.inl e
            · refine Or.inr ⟨e, fun epp => ?_⟩
              have := (hX i e).1
              rw [epp] at this
              omega
          · rintro (e | e)
            · exact Or.inl e
            · exact Or.inr e.1
      · rename_i hz
        refine ⟨?_, ?_⟩
        · intro i hi
          rw [mem_release] at hi
          refine ⟨(hX i hi.1).1, fun hin => ?_⟩
          rcases List.mem_cons.mp hin with e | e
          · exact hi.2 e
          · exact (hX i hi.1).2 e
        · intro i hi
          show s.pp_ref i = 0 ↔ i ∈ pp :: s.page_free_list ∨ i ∈ release X pp
          rw [hD i hi, mem_release, List.mem_cons]
          by_cases e : i = pp
          · subst e
            constructor
            · intro _; exact Or.inl (Or.inl rfl)
            · intro _
              rw [← hD i hi]
              omega
          · constructor
            · rintro (e1 | e1)
              · exact Or.inl (Or.inr e1)
              · exact Or.inr ⟨e1, e⟩
            · rintro ((e1 | e1) | e1)
              · exact absurd e1 e
              · exact Or.inl e1
              · exact Or.inr e1.1
    | @decref s X pp _ hpp ih =>
      exact ⟨(page_decref_inv F _ pp ih.1 hpp).1,
        DualityUpTo_step _ _ _ (page_decref_step F hF s pp)
          (page_decref_inv F _ pp ih.1 hpp).1 ih.2⟩
    | @walk s X pgdir va create _ ih =>
      have hw := pgdir_walk_step F hF s pgdir va create ih.1
      refine ⟨hw.1, ?_⟩
      refine DualityUpTo_congr _ _ _ ?_ (DualityUpTo_step _ _ _ hw.2.2.1 hw.1 ih.2)
      intro i
      rw [mem_uncounted]
      constructor
      · exact fun e => e.1
      · intro e
        refine ⟨e, ?_⟩
        rw [hw.2.2.2 i (ih.2.1 i e).2]
        exact (ih.2.1 i e).1
    | @insert s X pgdir pp va perm _ hpp hov hg ih =>
      exact ⟨page_insert_inv F _ pgdir pp va perm ih.1 hpp hg,
        DualityUpTo_step _ _ _ (page_insert_step F hF s pgdir pp va perm ih.1 hpp hov hg)
          (page_insert_inv F _ pgdir pp va perm ih.1 hpp hg) ih.2⟩
    | @remove s X pgdir va _ hg ih =>
      exact ⟨(page_remove_inv F _ pgdir va ih.1 hg).1,
        DualityUpTo_step _ _ _ (page_remove_step F hF s pgdir va).1
          (page_remove_inv F _ pgdir va ih.1 hg).1 ih.2⟩
  exact ⟨page_init_duality F hF s0 h0, main,
    fun s hs => DualityUpTo_nil s (main s [] hs).2⟩

theorem free_list_invariant_witness :
    (∀ i, bootState.pp_ref i = 0)
    ∧ Duality (page_init armv8 bootState)
    ∧ FreeListInv (page_alloc (page_init armv8 bootState)).2
    ∧ DualityUpTo (page_alloc (page_init armv8 bootState)).2
        (handed (page_alloc (page_init armv8 bootState)).1 [])
    ∧ DualityUpTo (page_free (page_alloc (page_init armv8 bootState)).2 15)
        (release (handed (page_alloc (page_init armv8 bootState)).1 []) 15) :=
  ⟨fun _ => rfl,
    (free_list_invariant armv8 armv8_wf bootState (fun _ => rfl)).1,
    ((free_list_invariant armv8 armv8_wf bootState (fun _ => rfl)).2.1 _ _
      (Reachable.alloc Reachable.init)).1,
    ((free_list_invariant armv8 armv8_wf bootState (fun _ => rfl)).2.1 _ _
      (Reachable.alloc Reachable.init)).2,
    ((free_list_invariant armv8 armv8_wf bootState (fun _ => rfl)).2.1 _ _
      (Reachable.free 15 (Reachable.alloc Reachable.init) (by decide))).2⟩

set_option maxRecDepth 1000000 in
set_option maxHeartbeats 4000000 in
/-- Why `page_insert` must not be given a frame whose count is at its maximum:
after `page_init`, frame 0 carries the sentinel `0xffff`, the largest value of
a 16-bit `pp_ref`; `page_insert` of frame 0 wraps its count to 0, and the frame
is not on the free list and was never handed out by `page_alloc`. -/
theorem duality_broken_by_count_overflow :
    0 ∉ initState.page_free_list
    ∧ (page_lookup armv8 initState 0x1000 0).1 = none
    ∧ initState.pp_ref 0 + 1 = armv8.REF_MOD
    ∧ (page_insert armv8 initState 0x1000 0 0 0).1 = some ()
    ∧ (page_insert armv8 initState 0x1000 0 0 0).2.pp_ref 0 = 0
    ∧ 0 ∉ (page_insert armv8 initState 0x1000 0 0 0).2.page_free_list := by
  decide

/-! ### The loop of `boot_map_segment`

The loop is a `do ... while (size -= BY2PG)`: the body runs before `size` is
looked at. -/

theorem boot_map_segment_loop_succ (F : Mmu) (pgdir perm fuel : Nat) (s : State)
    (va size pa : Nat) :
    boot_map_segment_loop F pgdir perm (fuel + 1) s va size pa
      = match boot_pgdir_walk F s pgdir va true with
        | (none, s1) => BootMap.panic s1
        | (some pgtable_entry, s1) =>
          if (size + 2 ^ 64 - BY2PG) % 2 ^ 64 ≠ 0 then
            boot_map_segment_loop F pgdir perm fuel
              (store_pte s1 pgtable_entry (PTE_ADDR pa ||| perm ||| F.PBE_V))
              ((va + BY2PG) % 2 ^ 64) ((size + 2 ^ 64 - BY2PG) % 2 ^ 64) ((pa + BY2PG) % 2 ^ 64)
          else BootMap.done (store_pte s1 pgtable_entry (PTE_ADDR pa ||| perm ||| F.PBE_V)) :=
  rfl

theorem size_step (k : Nat) (h : (k + 1) * BY2PG < 2 ^ 64) :
    ((k + 1) * BY2PG + 2 ^ 64 - BY2PG) % 2 ^ 64 = k * BY2PG := by
  unfold BY2PG at *
  omega

/-- The loop started with `size` of `k + 1` pages and stopped before its
`k + 1`-th iteration has not returned. -/
theorem boot_map_segment_loop_not_done (F : Mmu) (pgdir perm : Nat) :
    ∀ (fuel k : Nat) (s : State) (va pa : Nat), fuel ≤ k → (k + 1) * BY2PG < 2 ^ 64 →
      (boot_map_segment_loop F pgdir perm fuel s va ((k + 1) * BY2PG) pa).isDone = false := by
  intro fuel
  induction fuel with
  | zero => intro k s va pa _ _; rfl
  | succ fuel ih =>
    intro k s va pa hk hsz
    rw [boot_map_segment_loop_succ, size_step k hsz]
    obtain ⟨k1, rfl⟩ : ∃ k1, k = k1 + 1 := ⟨k - 1, by omega⟩
    rcases hw : boot_pgdir_walk F s pgdir va true with ⟨_ | e, s1⟩
    · rfl
    · have hne : (k1 + 1) * BY2PG ≠ 0 := by unfold BY2PG; omega
      simp only [hne, ne_eq, not_false_eq_true, if_true]
      exact ih k1 _ _ _ (by omega) (by unfold BY2PG at *; omega)

/-- The loop started with `size` of `k + 1` pages, given `k + 1` iterations or
more, is the page-by-page mapping of `k + 1` pages. -/
theorem boot_map_segment_loop_spec (F : Mmu) (pgdir perm : Nat) :
    ∀ (k fuel : Nat) (s : State) (va pa : Nat), k + 1 ≤ fuel → (k + 1) * BY2PG < 2 ^ 64 →
      va + (k + 1) * BY2PG ≤ 2 ^ 64 → pa + (k + 1) * BY2PG ≤ 2 ^ 64 →
      boot_map_segment_loop F pgdir perm fuel s va ((k + 1) * BY2PG) pa
        = boot_map_segment_spec F pgdir perm (k + 1) s va pa := by
  intro k
  induction k with
  | zero =>
    intro fuel s va pa hf hsz _ _
    obtain ⟨f, rfl⟩ : ∃ f, fuel = f + 1 := ⟨fuel - 1, by omega⟩
    rw [boot_map_segment_loop_succ, size_step 0 hsz]
    unfold boot_map_segment_spec
    rcases hw : boot_pgdir_walk F s pgdir va true with ⟨_ | e, s1⟩
    · rfl
    · simp only [Nat.zero_mul, ne_eq, not_true_eq_false, if_false]
      rfl
  | succ k ih =>
    intro fuel s va pa hf hsz hva hpa
    obtain ⟨f, rfl⟩ : ∃ f, fuel = f + 1 := ⟨fuel - 1, by omega⟩
    rw [boot_map_segment_loop_succ, size_step (k + 1) hsz]
    rw [boot_map_segment_spec]
    rcases hw : boot_pgdir_walk F s pgdir va true with ⟨_ | e, s1⟩
    · rfl
    · have hne : (k + 1) * BY2PG ≠ 0 := by unfold BY2PG; omega
      have hv : (va + BY2PG) % 2 ^ 64 = va + BY2PG := by
        apply Nat.mod_eq_of_lt; unfold BY2PG at *; omega
      have hp : (pa + BY2PG) % 2 ^ 64 = pa + BY2PG := by
        apply Nat.mod_eq_of_lt; unfold BY2PG at *; omega
      simp only [hne, ne_eq, not_false_eq_true, if_true, hv, hp]
      exact ih f _ _ _ (by omega) (by unfold BY2PG at *; omega)
        (by unfold BY2PG at *; omega) (by unfold BY2PG at *; omega)

/-- For a `size` of `k > 0` pages that fits the address space,
`boot_map_segment` is the page-by-page mapping of the doc comment: it ends
(returns, or panics in `boot_alloc`) within `k` iterations, and does not return
before the `k`-th. -/
theorem boot_map_segment_iterations (F : Mmu) (k fuel : Nat) (s : State)
    (pgdir va pa perm : Nat) (hk : 0 < k) (hsz : k * BY2PG < 2 ^ 64)
    (hva : va + k * BY2PG ≤ 2 ^ 64) (hpa : pa + k * BY2PG ≤ 2 ^ 64) :
    (k ≤ fuel → boot_map_segment F fuel s pgdir va (k * BY2PG) pa perm
        = boot_map_segment_spec F pgdir perm k s va pa)
    ∧ (fuel < k → (boot_map_segment F fuel s pgdir va (k * BY2PG) pa perm).isDone = false) := by
  obtain ⟨k1, rfl⟩ : ∃ k1, k = k1 + 1 := ⟨k - 1, by omega⟩
  have hmod : (k1 + 1) * BY2PG % BY2PG = 0 := Nat.mul_mod_left _ _
  unfold boot_map_segment
  simp only [hmod, ne_eq, not_true_eq_false, if_false]
  exact ⟨fun hf => boot_map_segment_loop_spec F pgdir perm k1 fuel s va pa hf hsz hva hpa,
    fun hf => boot_map_segment_loop_not_done F pgdir perm fuel k1 s va pa (by omega) hsz⟩

theorem boot_map_segment_iterations_witness :
    (1 ≤ 1 → boot_map_segment armv8 1 bootRoot 0x1000 0x200000 (1 * BY2PG) 0x5000 0
        = boot_map_segment_spec armv8 0x1000 0 1 bootRoot 0x200000 0x5000)
    ∧ (1 < 1 →
        (boot_map_segment armv8 1 bootRoot 0x1000 0x200000 (1 * BY2PG) 0x5000 0).isDone = false) :=
  boot_map_segment_iterations armv8 1 1 bootRoot 0x1000 0x200000 0x5000 0 (by decide)
    (by decide) (by decide) (by decide)

/-- A call of `boot_map_segment` with `size == 0` does not return within
`2 ^ 52` iterations, whatever the state: the body runs once, then `size`
wraps to `2 ^ 64 - BY2PG`. -/
theorem boot_map_segment_zero_size_not_done (F : Mmu) (fuel : Nat) (s : State)
    (pgdir va pa perm : Nat) (hf : fuel < 2 ^ 52) :
    (boot_map_segment F fuel s pgdir va 0 pa perm).isDone = false := by
  unfold boot_map_segment
  simp only [Nat.zero_mod, ne_eq, not_true_eq_false, if_false]
  cases fuel with
  | zero => rfl
  | succ f =>
    rw [boot_map_segment_loop_succ]
    rcases hw : boot_pgdir_walk F s pgdir va true with ⟨_ | e, s1⟩
    · rfl
    · have hsz : (0 + 2 ^ 64 - BY2PG) % 2 ^ 64 = (2 ^ 52 - 2 + 1) * BY2PG := by
        unfold BY2PG; norm_num
      have hne : (2 ^ 52 - 2 + 1) * BY2PG ≠ 0 := by unfold BY2PG; norm_num
      simp only [hsz, hne, ne_eq, not_false_eq_true, if_true]
      exact boot_map_segment_loop_not_done F pgdir perm f (2 ^ 52 - 2) _ _ _ (by omega)
        (by unfold BY2PG; norm_num)

theorem boot_map_segment_zero_size_not_done_witness :
    (boot_map_segment armv8 2 bootRoot 0x1000 0 0 0x5000 0).isDone = false :=
  boot_map_segment_zero_size_not_done armv8 2 bootRoot 0x1000 0 0x5000 0 (by decide)

set_option maxRecDepth 1000000 in
/-- C21 (evaluation at the failing input). On an empty root table, with the
watermark at `0x2000`, `boot_map_segment(pgdir, 0, 0, 0x5000, 0)` with
`size == 0` runs the body of its loop: after one iteration three tables are
allocated (the watermark is at `0x5000`), the entry at `0x4000` holds
`PTE_ADDR(pa) | perm | PBE_V`, and the loop goes on with `size` wrapped to
`2 ^ 64 - BY2PG`. -/
theorem boot_map_segment_zero_size :
    (0 : Nat) % BY2PG = 0
    ∧ bootRoot.freemem = 0x2000
    ∧ load64 bootRoot.mem 0x4000 = 0
    ∧ (boot_map_segment armv8 1 bootRoot 0x1000 0 0 0x5000 0).isDone = false
    ∧ (boot_map_segment armv8 1 bootRoot 0x1000 0 0 0x5000 0).remaining
        = some (2 ^ 64 - BY2PG)
    ∧ (boot_map_segment armv8 1 bootRoot 0x1000 0 0 0x5000 0).state.freemem = 0x5000
    ∧ load64 (boot_map_segment armv8 1 bootRoot 0x1000 0 0 0x5000 0).state.mem 0x4000
        = (PTE_ADDR 0x5000 ||| 0 ||| armv8.PBE_V)
    ∧ (PTE_ADDR 0x5000 ||| 0 ||| armv8.PBE_V) = 0x5003 := by
  decide

end Pmap
